import Mathlib

/-!
Verification of the go-mail message parser (header lexer, codecs, address
parser, header repair and simplification) against its natural-language
specification.  Go strings are modelled as lists of byte values (`GoStr`);
Go runtime panics (index or slice out of range) are modelled explicitly
where the source performs unchecked indexing.
-/

set_option maxRecDepth 10000

namespace GoMail

/-- A Go string: a sequence of bytes (each < 256 for well-formed inputs). -/
abbrev GoStr := List Nat

/-- Conversion from an ASCII Lean string literal to a Go byte string. -/
def gs (s : String) : GoStr := s.data.map Char.toNat

/-- Indexing with default 0, used where the source access is known in range. -/
def byteAt (s : GoStr) (i : Nat) : Nat := s.getD i 0

/-- Go slice s[lo:hi]; `none` models the runtime panic when the bounds are bad. -/
def goSlice (s : GoStr) (lo hi : Nat) : Option GoStr :=
  if lo ≤ hi ∧ hi ≤ s.length then some ((s.drop lo).take (hi - lo)) else none

/-- Go index s[i]; `none` models the runtime panic when i is out of range. -/
def goIdx (s : GoStr) (i : Nat) : Option Nat := s.get? i

/-- Is the byte one of the whitespace bytes 9, 10, 13, 32 used by simplify. -/
def isWsByte (c : Nat) : Bool := c == 9 || c == 10 || c == 13 || c == 32

/-- ASCII lower-casing of one byte (strings.ToLower on ASCII data). -/
def lowerByte (c : Nat) : Nat := if 65 ≤ c ∧ c ≤ 90 then c + 32 else c

/-- strings.ToLower, byte-wise (all inputs we model are ASCII). -/
def toLowerG (s : GoStr) : GoStr := s.map lowerByte

/-- strings.HasPrefix. -/
def startsWithG (s pre : GoStr) : Bool :=
  decide ((s.take pre.length) = pre)

/-- strings.Contains (contiguous substring test). -/
def containsG (s sub : GoStr) : Bool :=
  (List.range (s.length + 1)).any (fun i => startsWithG (s.drop i) sub)

/-- strings.IndexByte: index of the first occurrence of b, or none. -/
def indexByteG (s : GoStr) (b : Nat) : Option Nat := s.indexOf? b

/-- UTF-8 encoding of a code point below 0x800 (covers rune(c) for a byte c).
Used by the rebuild path of simplify, which converts bytes to runes and back. -/
def utf8Enc (c : Nat) : GoStr :=
  if c < 128 then [c] else [192 + c / 64, 128 + c % 64]

/-- Leading-whitespace count: the first loop of simplify (strings.go:90-98).
Returns the index `first` of the first non-whitespace byte (= length if all
whitespace). -/
def simplifyFirst : GoStr → Nat
  | [] => 0
  | c :: rest => if isWsByte c then simplifyFirst rest + 1 else 0

/-- Second loop of simplify (strings.go:103-118), structurally recursive on
the number of bytes left to scan: starting after the first non-whitespace
byte, tracks the last non-whitespace index and whether any internal
whitespace run of length greater than one occurs. Arguments mirror the Go
locals "last", "spaces", "identity"; `i` is the current index. -/
def simplifyScanGo (s : GoStr) : Nat → Nat → Nat → Nat → Nat × Bool
  | 0, _, last, _ => (last, true)
  | left + 1, i, last, spaces =>
    let c := byteAt s i
    if isWsByte c then
      simplifyScanGo s left (i + 1) last (spaces + 1)
    else
      if spaces > 1 then (last, false)
      else simplifyScanGo s left (i + 1) i 0

/-- Second loop of simplify, entered at index `i`. -/
def simplifyScan (s : GoStr) (i last spaces : Nat) : Nat × Bool :=
  simplifyScanGo s (s.length - i) i last spaces

/-- Rebuild path of simplify (strings.go:124-140): whitespace runs become a
single space, and each byte is converted through a Go rune (UTF-8 expansion
for bytes at or above 128). `spaces` and `result` mirror the Go locals. -/
def simplifyRebuild : GoStr → Nat → GoStr → GoStr
  | [], _, result => result
  | c :: rest, spaces, result =>
    if isWsByte c then simplifyRebuild rest (spaces + 1) result
    else
      let result := if spaces > 0 ∧ result.length > 0 then result ++ [32] else result
      simplifyRebuild rest 0 (result ++ utf8Enc c)

/-- simplify (strings.go:85-141). Returns `none` for the Go panic: a nonempty
all-whitespace input reaches `str[first : last+1]` with `last+1` past the end. -/
def simplify (str : GoStr) : Option GoStr :=
  if str = [] then some [] else
  let first := simplifyFirst str
  -- after the first loop the cursor sits just past the first non-ws byte
  let i := min (first + 1) str.length
  let (last, identity) := simplifyScan str i first 0
  if identity then goSlice str first (last + 1)
  else some (simplifyRebuild str 0 [])

/-- strings.Trim(str, tab cr lf space) (strings.go:174-176). -/
def trimG (s : GoStr) : GoStr :=
  ((s.dropWhile (fun c => isWsByte c)).reverse.dropWhile (fun c => isWsByte c)).reverse

/-- Header parse modes (header.go:10-15). -/
inductive HeaderMode | rfc5322 | mime
deriving DecidableEq, Repr

/-- Default content types (header.go:17-22). -/
inductive DefaultCT | messageRfc822 | textPlain
deriving DecidableEq, Repr

/-- Result of the embedded ReadHeader. `fields` are the name-value pairs that
were passed to Header.Add; `raws` is ghost instrumentation recording every
field line the loop recognized, whether or not it was added; `crashed` is true
when the Go code would have panicked (index or slice out of range). -/
structure RHResult where
  fields : List (GoStr × GoStr)
  raws : List (GoStr × GoStr)
  numBytes : Nat
  crashed : Bool
deriving Repr, DecidableEq

/-- Inner name scan of ReadHeader (header.go:53-56): advance j while the byte
is in 33..127 and is not a colon. Structurally recursive on the bytes left. -/
def scanNameGo (s : GoStr) : Nat → Nat → Nat
  | 0, j => j
  | left + 1, j =>
    let c := byteAt s j
    if 33 ≤ c ∧ c ≤ 127 ∧ c ≠ 58 then scanNameGo s left (j + 1) else j

/-- Name scan entered at index j. -/
def scanName (s : GoStr) (j : Nat) : Nat := scanNameGo s (s.length - j) j

/-- Skip to end of line (header.go:59-61): advance while in range and not CR/LF. -/
def skipToEolGo (s : GoStr) : Nat → Nat → Nat
  | 0, i => i
  | left + 1, i =>
    let c := byteAt s i
    if c ≠ 13 ∧ c ≠ 10 then skipToEolGo s left (i + 1) else i

/-- End-of-line skip entered at index i. -/
def skipToEol (s : GoStr) (i : Nat) : Nat := skipToEolGo s (s.length - i) i

/-- The unguarded CR loop of ReadHeader (header.go:62-64): `for s[i] == 13`.
none = Go panic when the index leaves the string. -/
def skipCrUnguardedGo (s : GoStr) : Nat → Nat → Option Nat
  | 0, _ => none
  | left + 1, i =>
    if byteAt s i = 13 then skipCrUnguardedGo s left (i + 1) else some i

/-- The unguarded CR skip entered at index i. When i is already past the end
the fuel is zero and the access panics at once, as in the source. -/
def skipCrUnguarded (s : GoStr) (i : Nat) : Option Nat :=
  skipCrUnguardedGo s (s.length - i) i

/-- The unguarded space/tab loop of ReadHeader (header.go:72-74):
`for s[i] == 32 or s[i] == 9`. none = Go panic. -/
def skipSpaceUnguardedGo (s : GoStr) : Nat → Nat → Option Nat
  | 0, _ => none
  | left + 1, i =>
    let c := byteAt s i
    if c = 32 ∨ c = 9 then skipSpaceUnguardedGo s left (i + 1) else some i

/-- The unguarded space/tab skip entered at index i. -/
def skipSpaceUnguarded (s : GoStr) (i : Nat) : Option Nat :=
  skipSpaceUnguardedGo s (s.length - i) i

/-- Value scan of ReadHeader (header.go:79-81): advance j while in range and
the byte is not LF, or the LF is followed by space or tab (folded line). -/
def scanValueGo (s : GoStr) : Nat → Nat → Nat
  | 0, j => j
  | left + 1, j =>
    let c := byteAt s j
    if c ≠ 10 ∨ (j + 1 < s.length ∧ (byteAt s (j+1) = 32 ∨ byteAt s (j+1) = 9)) then
      scanValueGo s left (j + 1)
    else j

/-- Value scan entered at index j. -/
def scanValue (s : GoStr) (j : Nat) : Nat := scanValueGo s (s.length - j) j

/-- Does the guard of header.go:87 admit this field: nonblank simplified value,
or a name starting (case-insensitively) with x-. When simplify panics the
whole parse panics; the `none` case is only consulted under a no-crash
hypothesis. -/
def keepField (name value : GoStr) : Bool :=
  ((simplify value).getD []) != [] || startsWithG (toLowerG name) (gs "x-")

/-- Loop exit of ReadHeader: chomp one blank line (header.go:102-108) and
record numBytes. -/
def rhFinish (s : GoStr) (i : Nat) (fields raws : List (GoStr × GoStr)) : RHResult :=
  let i := if i + 1 < s.length ∧ byteAt s i = 13 ∧ byteAt s (i+1) = 10 then i + 2
    else if i < s.length ∧ byteAt s i = 10 then i + 1
    else i
  ⟨fields, raws, i, false⟩

/-- The From-line test of header.go:58: evaluated only when j = i+4 and mode
is RFC 5322. Slicing s[i:j+1] panics (none) when j+1 exceeds the length. -/
def fromLineTest (s : GoStr) (m : HeaderMode) (i j : Nat) : Option Bool :=
  if j = i + 4 ∧ m = HeaderMode.rfc5322 then
    (goSlice s i (j+1)).map (fun seg => toLowerG seg = gs "from ")
  else some false

/-- What one iteration of the ReadHeader loop did: panic, exit the loop at
cursor i, or continue at cursor i. -/
inductive RHOutcome where
  | crash (i : Nat)
  | exitLoop (i : Nat)
  | next (i : Nat)
deriving Repr, DecidableEq

/-- One iteration of the ReadHeader loop: the field line it recognized (if
any), whether the guard of header.go:87 added it, and the control outcome. -/
structure RHStep where
  pair : Option (GoStr × GoStr)
  kept : Bool
  out : RHOutcome
deriving Repr, DecidableEq

/-- The folded value of a field line beginning at cursor i: scan to the end
of the (possibly folded) value and strip one trailing CR (header.go:75-85). -/
def rhFieldValue (s : GoStr) (i : Nat) : GoStr :=
  let j := scanValue s i
  let j := if j > 0 ∧ byteAt s (j-1) = 13 then j - 1 else j
  (s.drop i).take (j - i)

/-- Cursor position after a field line whose value begins at i: step past the
value and its CRLF or LF terminator (header.go:91-95). -/
def rhAfterValue (s : GoStr) (i : Nat) : Nat :=
  let j := scanValue s i
  let j := if j > 0 ∧ byteAt s (j-1) = 13 then j - 1 else j
  let i := j
  let i := if i + 1 < s.length ∧ byteAt s i = 13 ∧ byteAt s (i+1) = 10
    then i + 1 else i
  i + 1

/-- Tail of the field branch of the ReadHeader loop, from the colon onwards
(header.go:70-95): skip spaces and tabs (unguarded), read the folded value,
apply the keep test, and step past the line break. `i0` is the index just
after the colon. -/
def rhFieldTail (s : GoStr) (done0 : Bool) (name : GoStr) (i0 : Nat) : RHStep :=
  match skipSpaceUnguarded s i0 with
  | none => ⟨none, false, .crash i0⟩
  | some i =>
    match simplify (rhFieldValue s i) with
    | none => ⟨some (name, rhFieldValue s i), false, .crash i⟩  -- simplify panic
    | some sv =>
      ⟨some (name, rhFieldValue s i),
       sv != [] || startsWithG (toLowerG name) (gs "x-"),
       if done0 then .exitLoop (rhAfterValue s i) else .next (rhAfterValue s i)⟩

/-- Cursor after the BOM skip of header.go:49-51. -/
def rhBom (s : GoStr) (i : Nat) : Nat :=
  if i + 2 < s.length ∧ byteAt s i = 0xEF ∧ byteAt s (i+1) = 0xBB ∧
      byteAt s (i+2) = 0xBF then i + 3 else i

/-- The From-envelope-line skip of header.go:59-67, with its unguarded
accesses: run to the end of the line, step past CRs (panicking at the end of
input), then past one LF (again unguarded). -/
def rhFromLine (s : GoStr) (done0 : Bool) (i : Nat) : RHStep :=
  match skipCrUnguarded s (skipToEol s i) with
  | none => ⟨none, false, .crash (skipToEol s i)⟩
  | some i =>
    match goIdx s i with
    | none => ⟨none, false, .crash i⟩
    | some c =>
      ⟨none, false,
       if done0 then .exitLoop (if c = 10 then i + 1 else i)
       else .next (if c = 10 then i + 1 else i)⟩

/-- The branch of header.go:68 testing s[j] (an unguarded access) against a
colon, and parsing the field line when it matches. i is the start of the
name, j its end. -/
def rhColon (s : GoStr) (done0 : Bool) (i j : Nat) : RHStep :=
  match goIdx s j with
  | none => ⟨none, false, .crash i⟩   -- s[j] with j = len(s): panic
  | some cj =>
    if cj = 58 then rhFieldTail s done0 ((s.drop i).take (j - i)) (j + 1)
    else ⟨none, false, .exitLoop i⟩

/-- Body of the ReadHeader loop (header.go:43-99). Mirrors the Go control
flow: the done flag (here done0 means i0 is at or past the end) is tested at
the top of the loop only, so a body run that began past the end still
executes and then exits. -/
def rhStep (m : HeaderMode) (s : GoStr) (i0 : Nat) : RHStep :=
  match fromLineTest s m (rhBom s i0) (scanName s (rhBom s i0)) with
  | none => ⟨none, false, .crash (rhBom s i0)⟩
  | some true => rhFromLine s (decide (i0 ≥ s.length)) (rhBom s i0)
  | some false =>
    if scanName s (rhBom s i0) > rhBom s i0 then
      rhColon s (decide (i0 ≥ s.length)) (rhBom s i0) (scanName s (rhBom s i0))
    else ⟨none, false, .exitLoop (rhBom s i0)⟩

/-- The ReadHeader loop, fuel-indexed, assembled from rhStep. `fields`
receives the pairs the guard admitted; `raws` records every recognized
field line. -/
def readHeaderLoop (m : HeaderMode) (s : GoStr) :
    Nat → Nat → List (GoStr × GoStr) → List (GoStr × GoStr) → RHResult
  | 0, i, fields, raws => ⟨fields, raws, i, true⟩
  | fuel + 1, i, fields, raws =>
    match rhStep m s i with
    | ⟨pair, kept, out⟩ =>
      let raws := raws ++ pair.toList
      let fields := fields ++ (if kept then pair.toList else [])
      match out with
      | .crash k => ⟨fields, raws, k, true⟩
      | .exitLoop k => rhFinish s k fields raws
      | .next k => readHeaderLoop m s fuel k fields raws

/-- ReadHeader (header.go:36-111, identical loop in parts.go:699-773). The
returned error is always nil in the source; panics are modelled in `crashed`.
Fuel s.length + 2 exceeds the number of iterations, since each iteration
either terminates the loop or strictly advances the cursor. -/
def readHeader (s : GoStr) (m : HeaderMode) : RHResult :=
  readHeaderLoop m s (s.length + 2) 0 [] []

/-- Helper facts about rhFinish: it never crashes and never changes the
field lists. -/
theorem rhFinish_fields (s : GoStr) (i : Nat) (fields raws : List (GoStr × GoStr)) :
    (rhFinish s i fields raws).fields = fields := by
  simp only [rhFinish]

theorem rhFinish_raws (s : GoStr) (i : Nat) (fields raws : List (GoStr × GoStr)) :
    (rhFinish s i fields raws).raws = raws := by
  simp only [rhFinish]

/-- Did this outcome panic. -/
def RHOutcome.isCrash : RHOutcome → Bool
  | .crash _ => true
  | _ => false

/-- The From-line skip recognizes no field line. -/
theorem rhFromLine_pair (s : GoStr) (d : Bool) (i : Nat) :
    (rhFromLine s d i).pair = none := by
  unfold rhFromLine
  cases h1 : skipCrUnguarded s (skipToEol s i) with
  | none => rfl
  | some j => cases h2 : goIdx s j with
    | none => simp [h2]
    | some c => simp [h2]

/-- The From-line skip adds no field. -/
theorem rhFromLine_kept (s : GoStr) (d : Bool) (i : Nat) :
    (rhFromLine s d i).kept = false := by
  unfold rhFromLine
  cases h1 : skipCrUnguarded s (skipToEol s i) with
  | none => rfl
  | some j => cases h2 : goIdx s j with
    | none => simp [h2]
    | some c => simp [h2]

/-- In a non-panicking field-line parse, the line is added exactly when the
keep test of header.go:87 holds for it. -/
theorem rhFieldTail_filter (s : GoStr) (done0 : Bool) (name : GoStr) (i0 : Nat) :
    (rhFieldTail s done0 name i0).out.isCrash = false →
    (if (rhFieldTail s done0 name i0).kept
      then (rhFieldTail s done0 name i0).pair.toList else []) =
    ((rhFieldTail s done0 name i0).pair.toList).filter
      (fun nv => keepField nv.1 nv.2) := by
  unfold rhFieldTail
  cases h1 : skipSpaceUnguarded s i0 with
  | none => intro hc; simp [RHOutcome.isCrash] at hc
  | some i =>
    cases h2 : simplify (rhFieldValue s i) with
    | none => intro hc; simp [RHOutcome.isCrash, h2] at hc
    | some sv =>
      intro _
      simp [List.filter_singleton, keepField, h2]

/-- The colon branch likewise adds the line exactly when the keep test holds. -/
theorem rhColon_filter (s : GoStr) (d : Bool) (i j : Nat) :
    (rhColon s d i j).out.isCrash = false →
    (if (rhColon s d i j).kept then (rhColon s d i j).pair.toList else []) =
    ((rhColon s d i j).pair.toList).filter (fun nv => keepField nv.1 nv.2) := by
  unfold rhColon
  cases hgj : goIdx s j with
  | none => intro hc; simp [RHOutcome.isCrash] at hc
  | some cj =>
    by_cases hcj : cj = 58
    · simpa [hcj] using rhFieldTail_filter s d ((s.drop i).take (j - i)) (j + 1)
    · intro _; simp [hcj]

/-- In a non-panicking iteration, the field line is added exactly when the
keep test of header.go:87 holds for it. -/
theorem rhStep_fields_filter (m : HeaderMode) (s : GoStr) (i : Nat) :
    (rhStep m s i).out.isCrash = false →
    (if (rhStep m s i).kept then (rhStep m s i).pair.toList else []) =
    ((rhStep m s i).pair.toList).filter (fun nv => keepField nv.1 nv.2) := by
  unfold rhStep
  cases hft : fromLineTest s m (rhBom s i) (scanName s (rhBom s i)) with
  | none => intro hc; simp [RHOutcome.isCrash] at hc
  | some b =>
    cases b with
    | true => intro _; simp [rhFromLine_pair, rhFromLine_kept]
    | false =>
      by_cases hj : scanName s (rhBom s i) > rhBom s i
      · simpa [hj] using
          rhColon_filter s (decide (i ≥ s.length)) (rhBom s i) (scanName s (rhBom s i))
      · intro _; simp [hj]

/-- Invariant of the ReadHeader loop: as long as the parse has not panicked,
the list of added fields is exactly the list of recognized field lines
filtered by the keep test of header.go:87. -/
theorem readHeaderLoop_filter (m : HeaderMode) (s : GoStr) :
    ∀ (fuel i : Nat) (fields raws : List (GoStr × GoStr)),
    fields = raws.filter (fun nv => keepField nv.1 nv.2) →
    (readHeaderLoop m s fuel i fields raws).crashed = false →
    (readHeaderLoop m s fuel i fields raws).fields =
      (readHeaderLoop m s fuel i fields raws).raws.filter
        (fun nv => keepField nv.1 nv.2) := by
  intro fuel
  induction fuel with
  | zero =>
    intro i fields raws hinv hc
    exact absurd hc (by simp [readHeaderLoop])
  | succ fuel ih =>
    intro i fields raws hinv
    have hstep := rhStep_fields_filter m s i
    rcases hst : rhStep m s i with ⟨pair, kept, out⟩
    rw [hst] at hstep
    simp only at hstep
    simp only [readHeaderLoop, hst]
    have hinv2 : out.isCrash = false →
        fields ++ (if kept then pair.toList else []) =
        (raws ++ pair.toList).filter (fun nv => keepField nv.1 nv.2) := by
      intro hnc
      rw [List.filter_append, ← hinv, ← hstep hnc]
    rcases out with k | k | k
    · intro hc; simp at hc
    · intro _
      rw [rhFinish_fields, rhFinish_raws]
      exact hinv2 rfl
    · exact ih _ _ _ (hinv2 rfl)

/-- C10: during header parsing, a recognized field line is added to the field
list if and only if its raw value does not simplify to the empty string or
its name begins case-insensitively with x-: for every input on which the
parse completes without a runtime panic, the added fields are exactly the
recognized field lines filtered by that test (header.go:85-95 and the
revised copy at parts.go:748-757). -/
theorem c10_readHeader_keeps_only_nonblank_or_x
    (s : GoStr) (m : HeaderMode)
    (h : (readHeader s m).crashed = false) :
    (readHeader s m).fields =
      (readHeader s m).raws.filter (fun nv => keepField nv.1 nv.2) :=
  readHeaderLoop_filter m s (s.length + 2) 0 [] [] rfl h

/-- Witness for C10 at a concrete input: a whitespace-only B field is
dropped, a whitespace-only X-A field is kept, a normal To field is kept. -/
theorem c10_readHeader_keeps_only_nonblank_or_x_witness :
    (readHeader (gs "B:\nX-A:\nTo: x\n\n") HeaderMode.rfc5322).crashed = false ∧
    (readHeader (gs "B:\nX-A:\nTo: x\n\n") HeaderMode.rfc5322).fields =
      (readHeader (gs "B:\nX-A:\nTo: x\n\n") HeaderMode.rfc5322).raws.filter
        (fun nv => keepField nv.1 nv.2) :=
  ⟨by decide, c10_readHeader_keeps_only_nonblank_or_x _ _ (by decide)⟩

/-- C1: the specification claims ReadMessage (Message.Parse) runs to
completion on every input and never panics, in particular on inputs whose
header has no terminating newline. It does not: Message.Parse first calls
ReadHeader on the raw input (message.go:23), and ReadHeader panics with an
index out of range on the two-byte input "A:", because the space-skipping
loop of header.go:72 reads past the end of the string. -/
theorem c1_readHeader_panics_on_truncated_header :
    (readHeader (gs "A:") HeaderMode.rfc5322).crashed = true := by decide

/-- C2: the specification claims the recorded numBytes always satisfies
0 <= numBytes <= len(input). On the three-byte input "A:b", whose last
header line has no terminating newline, ReadHeader records numBytes = 4
(the unconditional i++ of header.go:95 walks past the end), so
Message.Parse's body slice rfc5322[numBytes:] panics (message.go:30). -/
theorem c2_readHeader_numBytes_exceeds_input_length :
    (readHeader (gs "A:b") HeaderMode.rfc5322).crashed = false ∧
    (readHeader (gs "A:b") HeaderMode.rfc5322).numBytes = 4 ∧
    (gs "A:b").length = 3 := by decide

/-- ASCII upper-casing of one byte (strings.ToTitle on ASCII data). -/
def upperByte (c : Nat) : Nat := if 97 ≤ c ∧ c ≤ 122 then c - 32 else c

/-- strings.ToTitle, byte-wise (all inputs we model are ASCII). -/
def toTitleG (s : GoStr) : GoStr := s.map upperByte

/-- Address kinds (addresses.go:10-18). -/
inductive AddressType | normal | bounce | emptyGroup | local | invalid
deriving DecidableEq, Repr

/-- An address (addresses.go:20-27); the error slot is modelled as a Bool
recording whether err is non-nil (no claim observes the message text). -/
structure Address where
  name : GoStr
  localpart : GoStr
  domain : GoStr
  t : AddressType
  err : Bool
deriving DecidableEq, Repr

/-- NewAddress (addresses.go:29-46). -/
def NewAddress (name localpart domain : GoStr) : Address :=
  ⟨name, localpart, domain,
   if domain ≠ [] then AddressType.normal
   else if localpart ≠ [] then AddressType.local
   else if name ≠ [] then AddressType.emptyGroup
   else AddressType.bounce,
   false⟩

/-- Content transfer encodings. QPEncoding and Base64Encoding are declared in
parser.go:203-208; BinaryEncoding and UuencodeEncoding are referenced by
fields.go:1171-1183 but declared outside the available sources. Modelled
from the spec: the CTE values are base64, quoted-printable, 7bit/8bit/binary
(Binary), and x-uuencode (glossary and section 4.3). -/
inductive EncodingType | qpEncoding | base64Encoding | binaryEncoding | uuencodeEncoding
deriving DecidableEq, Repr

/-- Canonical field names (fields.go:14-50). -/
def FromFieldName : GoStr := gs "From"
def ResentFromFieldName : GoStr := gs "Resent-From"
def SenderFieldName : GoStr := gs "Sender"
def ResentSenderFieldName : GoStr := gs "Resent-Sender"
def ReturnPathFieldName : GoStr := gs "Return-Path"
def ReplyToFieldName : GoStr := gs "Reply-To"
def ToFieldName : GoStr := gs "To"
def CcFieldName : GoStr := gs "Cc"
def BccFieldName : GoStr := gs "Bcc"
def ResentToFieldName : GoStr := gs "Resent-To"
def ResentCcFieldName : GoStr := gs "Resent-Cc"
def ResentBccFieldName : GoStr := gs "Resent-Bcc"
def MessageIdFieldName : GoStr := gs "Message-Id"
def ResentMessageIdFieldName : GoStr := gs "Resent-Message-Id"
def InReplyToFieldName : GoStr := gs "In-Reply-To"
def ReferencesFieldName : GoStr := gs "References"
def DateFieldName : GoStr := gs "Date"
def SubjectFieldName : GoStr := gs "Subject"
def ContentTypeFieldName : GoStr := gs "Content-Type"
def ContentTransferEncodingFieldName : GoStr := gs "Content-Transfer-Encoding"
def ContentDispositionFieldName : GoStr := gs "Content-Disposition"
def ContentDescriptionFieldName : GoStr := gs "Content-Description"
def ContentIdFieldName : GoStr := gs "Content-Id"
def MimeVersionFieldName : GoStr := gs "Mime-Version"
def ReceivedFieldName : GoStr := gs "Received"
def ContentLocationFieldName : GoStr := gs "Content-Location"
def ContentBaseFieldName : GoStr := gs "Content-Base"
def ContentLanguageFieldName : GoStr := gs "Content-Language"
def ErrorsToFieldName : GoStr := gs "Errors-To"

/-- The variant-specific payload of a polymorphic header field: the data the
header-level functions inspect through downcasts (AddressField.Addresses,
ContentType.Type and .Subtype and .Parameters, the CTE Encoding, the
ContentDisposition value and parameters). Fields of other variants carry
no payload the claims inspect. -/
inductive FieldData where
  | address (addresses : List Address)
  | contentType (ctype csubtype : GoStr) (parameters : List (GoStr × GoStr))
  | cte (encoding : EncodingType)
  | contentDisposition (disposition : GoStr) (parameters : List (GoStr × GoStr))
  | plain
deriving DecidableEq, Repr

/-- A header field (the Field interface of fields.go:99-109), with its
observable attributes: Name(), Value(), rfc822(false), UnparsedValue,
Valid() (the err slot, as a Bool), and the variant payload. `id` is ghost
instrumentation standing for the Go pointer identity of the field object,
used where the source compares fields with == on interfaces. -/
structure Field where
  id : Nat
  name : GoStr
  value : GoStr
  unparsed : GoStr
  rfc822s : GoStr
  valid : Bool
  data : FieldData
deriving DecidableEq, Repr

/-- The address list of a field (empty for non-address variants). -/
def Field.addrList (f : Field) : List Address :=
  match f.data with
  | .address as => as
  | _ => []

/-- A Header (header.go:24-34 and the revised copy at parts.go:656-667).
`nextId` is ghost instrumentation: a source of fresh identities for fields
created during Simplify and Repair. -/
structure Header where
  mode : HeaderMode
  defaultType : DefaultCT
  fields : List Field
  nextId : Nat
deriving DecidableEq, Repr

/-- Header.field (header.go:138-150): the nth field with the given name. -/
def fieldIn : List Field → GoStr → Nat → Option Field
  | [], _, _ => none
  | f :: rest, fn, n =>
    if f.name = fn then
      if n > 0 then fieldIn rest fn (n - 1) else some f
    else fieldIn rest fn n

def Header.field (h : Header) (fn : GoStr) (n : Nat) : Option Field :=
  fieldIn h.fields fn n

/-- The names handled by Header.addressField (header.go:154-164). This list
also stands for the addressFieldNames variable iterated by Simplify, which
is referenced at header.go:385 but declared outside the available sources;
modelled from the spec: the AddressField variants are From, Sender,
Reply-To, To, Cc, Bcc, Return-Path and Resent-* variants, Message-Id,
Content-Id, References (section 3). -/
def addressFieldNames : List GoStr :=
  [FromFieldName, ResentFromFieldName, SenderFieldName, ResentSenderFieldName,
   ReturnPathFieldName, ReplyToFieldName, ToFieldName, CcFieldName, BccFieldName,
   ResentToFieldName, ResentCcFieldName, ResentBccFieldName, MessageIdFieldName,
   ContentIdFieldName, ResentMessageIdFieldName, ReferencesFieldName]

/-- Header.addressField (header.go:154-164): a comma-ok downcast, so a field
of the wrong dynamic type yields nil rather than a panic. -/
def Header.addressField (h : Header) (fn : GoStr) (n : Nat) : Option Field :=
  if fn ∈ addressFieldNames then
    match h.field fn n with
    | some f =>
      match f.data with
      | .address _ => some f
      | _ => none
    | none => none
  else none

/-- Header.addresses (header.go:180-190): the addresses of the first such
field; an empty list plays the role of the nil slice. -/
def Header.addresses (h : Header) (fn : GoStr) : List Address :=
  match h.addressField fn 0 with
  | some f => f.addrList
  | none => []

/-- An occurrence count, as built by the occurrences map of header.go:298-301. -/
def occurrences (fields : List Field) (n : GoStr) : Nat :=
  (fields.filter (fun f => f.name = n)).length

/-- Occurrence conditions (header.go:256-280). -/
structure HeaderFieldCondition where
  name : GoStr
  cmin : Nat
  cmax : Nat
  m : HeaderMode
deriving DecidableEq, Repr

/-- The conditions table (header.go:262-280). -/
def conditions : List HeaderFieldCondition :=
  [⟨SenderFieldName, 0, 1, .rfc5322⟩,
   ⟨ReplyToFieldName, 0, 1, .rfc5322⟩,
   ⟨ToFieldName, 0, 1, .rfc5322⟩,
   ⟨CcFieldName, 0, 1, .rfc5322⟩,
   ⟨BccFieldName, 0, 1, .rfc5322⟩,
   ⟨MessageIdFieldName, 0, 1, .rfc5322⟩,
   ⟨ReferencesFieldName, 0, 1, .rfc5322⟩,
   ⟨SubjectFieldName, 0, 1, .rfc5322⟩,
   ⟨FromFieldName, 1, 1, .rfc5322⟩,
   ⟨DateFieldName, 1, 1, .rfc5322⟩,
   ⟨MimeVersionFieldName, 0, 1, .rfc5322⟩,
   ⟨MimeVersionFieldName, 0, 1, .mime⟩,
   ⟨ContentTypeFieldName, 0, 1, .rfc5322⟩,
   ⟨ContentTypeFieldName, 0, 1, .mime⟩,
   ⟨ContentTransferEncodingFieldName, 0, 1, .rfc5322⟩,
   ⟨ContentTransferEncodingFieldName, 0, 1, .mime⟩,
   ⟨ReturnPathFieldName, 0, 1, .rfc5322⟩]

/-- The per-row test of Header.Verify, exactly as written at header.go:305-307:
under Go operator precedence the condition reads
(row mode matches AND count below min) OR (count above max), so the max
bound is enforced in both header modes. -/
def rowViolated (mode : HeaderMode) (fields : List Field) (c : HeaderFieldCondition) : Bool :=
  (c.m == mode && decide (occurrences fields c.name < c.cmin)) ||
    decide (occurrences fields c.name > c.cmax)

/-- Header.Verify / Valid (header.go:115-118 and 284-327): the header's err
slot stays nil exactly when every field is valid and no condition row is
violated. The memoized verified flag is omitted: these claims concern the
recomputed verdict. -/
def verifyOk (mode : HeaderMode) (fields : List Field) : Bool :=
  fields.all (fun f => f.valid) && conditions.all (fun c => !(rowViolated mode fields c))

/-- Header.Valid on the model. -/
def Header.valid (h : Header) : Bool := verifyOk h.mode h.fields

/-- A plain valid Subject field used in concrete instances. -/
def subjField (i : Nat) (v : String) : Field :=
  ⟨i, SubjectFieldName, gs v, gs v, gs v, true, .plain⟩

/-- C4 counterexample: the claim says occurrence counts of names other than
Mime-Version, Content-Type and Content-Transfer-Encoding have no effect on
validity in MIME mode. They do: two individually valid Subject fields make
a MIME-mode header invalid, because the test at header.go:305-307 reads
(m == mode AND count < min) OR count > max under Go precedence, so the
RFC 5322 row for Subject fires in MIME mode too. -/
theorem c4_two_subjects_invalid_in_mime :
    (∀ f ∈ [subjField 1 "a", subjField 2 "b"], f.valid = true) ∧
    occurrences [subjField 1 "a", subjField 2 "b"] MimeVersionFieldName ≤ 1 ∧
    occurrences [subjField 1 "a", subjField 2 "b"] ContentTypeFieldName ≤ 1 ∧
    occurrences [subjField 1 "a", subjField 2 "b"] ContentTransferEncodingFieldName ≤ 1 ∧
    verifyOk HeaderMode.mime [subjField 1 "a", subjField 2 "b"] = false := by
  decide

/-- Every row of the conditions table either has min zero or is an RFC 5322
mode row, so in MIME mode the min bound never fires. -/
theorem conditions_min_shape :
    ∀ c ∈ conditions, c.cmin = 0 ∨ c.m = HeaderMode.rfc5322 := by decide

/-- C4 amended: in MIME mode, a header all of whose fields are individually
valid is reported valid by Verify if and only if every name in the
conditions table occurs at most its max (that is, at most one each of
Sender, Reply-To, To, Cc, Bcc, Message-Id, References, Subject, From, Date,
Mime-Version, Content-Type, Content-Transfer-Encoding and Return-Path);
the min bounds (From, Date) are not enforced in MIME mode, and names
outside the table remain irrelevant. -/
theorem c4_mime_valid_iff_within_max
    (fields : List Field) (h : ∀ f ∈ fields, f.valid = true) :
    verifyOk HeaderMode.mime fields = true ↔
      ∀ c ∈ conditions, occurrences fields c.name ≤ c.cmax := by
  have hv : fields.all (fun f => f.valid) = true := by
    rw [List.all_eq_true]; exact h
  unfold verifyOk
  rw [hv, Bool.true_and, List.all_eq_true]
  constructor
  · intro hrow c hc
    have hx := hrow c hc
    rcases conditions_min_shape c hc with hmin | hm
    · simp only [rowViolated, hmin] at hx
      simp only [Bool.not_eq_true', Bool.or_eq_false_iff, decide_eq_false_iff_not] at hx
      omega
    · simp only [rowViolated, hm] at hx
      simp only [Bool.not_eq_true', Bool.or_eq_false_iff, Bool.and_eq_false_iff,
        decide_eq_false_iff_not] at hx
      omega
  · intro hmax c hc
    have hx := hmax c hc
    rcases conditions_min_shape c hc with hmin | hm
    · simp only [rowViolated, hmin]
      simp only [Bool.not_eq_true', Bool.or_eq_false_iff, Bool.and_eq_false_iff,
        decide_eq_false_iff_not]
      omega
    · simp only [rowViolated, hm]
      simp only [Bool.not_eq_true', Bool.or_eq_false_iff, Bool.and_eq_false_iff,
        decide_eq_false_iff_not]
      constructor
      · left; decide
      · omega

/-- Witness for the amended C4 at a concrete header: one valid Subject field
in MIME mode. -/
theorem c4_mime_valid_iff_within_max_witness :
    (∀ f ∈ [subjField 1 "a"], f.valid = true) ∧
    (verifyOk HeaderMode.mime [subjField 1 "a"] = true ↔
      ∀ c ∈ conditions, occurrences [subjField 1 "a"] c.name ≤ c.cmax) :=
  ⟨by decide, c4_mime_valid_iff_within_max [subjField 1 "a"] (by decide)⟩

/-- strings.HasSuffix. -/
def endsWithG (s suf : GoStr) : Bool := startsWithG s.reverse suf.reverse

/-- stripCRLF (strings.go:180-189): remove at most one trailing LF or CRLF. -/
def stripCRLF (s : GoStr) : GoStr :=
  let n := if endsWithG s [13, 10] then 2 else if endsWithG s [10] then 1 else 0
  s.take (s.length - n)

/-- strings.Index (first index of a substring, none for -1). -/
def indexSub (s sub : GoStr) : Option Nat :=
  (List.range (s.length + 1)).find? (fun i => startsWithG (s.drop i) sub)

/-- The from64 decoding table (strings.go:319-342): 64 ends the decode
(NUL and the padding char), 65 is ignorable whitespace, 99 is any other
ignorable byte. -/
def from64 : GoStr :=
  [64, 99, 99, 99, 99, 99, 99, 99,
   65, 99, 65, 99, 99, 65, 99, 99,
   99, 99, 99, 99, 99, 99, 99, 99,
   99, 99, 99, 99, 99, 99, 99, 99,
   99, 99, 99, 99, 99, 99, 99, 99,
   99, 99, 99, 62, 99, 99, 99, 63,
   52, 53, 54, 55, 56, 57, 58, 59,
   60, 61, 99, 99, 99, 64, 99, 99,
   99, 0, 1, 2, 3, 4, 5, 6,
   7, 8, 9, 10, 11, 12, 13, 14,
   15, 16, 17, 18, 19, 20, 21, 22,
   23, 24, 25, 99, 99, 99, 99, 99,
   99, 26, 27, 28, 29, 30, 31, 32,
   33, 34, 35, 36, 37, 38, 39, 40,
   41, 42, 43, 44, 45, 46, 47, 48,
   49, 50, 51, 99, 99, 99, 99, 99]

/-- The loop of de64 (strings.go:345-385). The state m cycles through the
four positions of a base64 quantum and decoded carries the partial byte.
All byte additions stay below 256 because the table values are below 64,
so plain Nat arithmetic coincides with Go's uint8 arithmetic here. -/
def de64Go : List Nat → Nat → Nat → GoStr
  | [], _, _ => []
  | ch :: rest, m, decoded =>
    let c := if ch ≤ 122 then from64.getD ch 99 else ch
    if c < 64 then
      match m with
      | 0 => de64Go rest 1 (c <<< 2)
      | 1 => (decoded + ((c &&& 0xF0) >>> 4)) :: de64Go rest 2 ((c &&& 15) <<< 4)
      | 2 => (decoded + ((c &&& 0xFC) >>> 2)) :: de64Go rest 3 ((c &&& 3) <<< 6)
      | _ => (decoded + c) :: de64Go rest 0 (decoded + c)
    else if c = 64 then []
    else de64Go rest m decoded

/-- de64 (strings.go:345-385). -/
def de64 (s : GoStr) : GoStr := de64Go s 0 0

/-- The to64 alphabet (strings.go:387). -/
def to64 : GoStr := gs "ABCDEFGHIJKLMNOPQRSTUVWXYZabcdefghijklmnopqrstuvwxyz0123456789+/"

/-- The four output bytes for one full three-byte group of e64
(strings.go:399-402). The masks keep only bits that survive Go's uint8
shifts, so Nat shifts coincide with the byte arithmetic. -/
def e64Chunk (b0 b1 b2 : Nat) : GoStr :=
  [to64.getD ((b0 >>> 2) &&& 63) 0,
   to64.getD (((b0 <<< 4) &&& 48) + ((b1 >>> 4) &&& 15)) 0,
   to64.getD (((b1 <<< 2) &&& 60) + ((b2 >>> 6) &&& 3)) 0,
   to64.getD (b2 &&& 63) 0]

/-- Trailing partial group of e64 with its padding (strings.go:411-433). -/
def e64Tail : List Nat → GoStr
  | [] => []
  | [i0] =>
    [to64.getD ((i0 >>> 2) &&& 63) 0,
     to64.getD (((i0 <<< 4) &&& 48) + ((0 >>> 4) &&& 15)) 0,
     61, 61]
  | i0 :: i1 :: _ =>
    [to64.getD ((i0 >>> 2) &&& 63) 0,
     to64.getD (((i0 <<< 4) &&& 48) + ((i1 >>> 4) &&& 15)) 0,
     to64.getD (((i1 <<< 2) &&& 60) + ((0 >>> 6) &&& 3)) 0,
     61]

/-- The main loop of e64 (strings.go:398-410): full three-byte groups with a
CRLF whenever the line counter c reaches lineLength; returns the encoded
text of the loop together with the final counter. The remainder of fewer
than three bytes is handled by e64Tail. -/
def e64Main (lineLength : Int) : List Nat → Int → GoStr × Int
  | b0 :: b1 :: b2 :: rest, c =>
    let c := c + 4
    if lineLength > 0 ∧ c ≥ lineLength then
      let (tail, cf) := e64Main lineLength rest 0
      (e64Chunk b0 b1 b2 ++ [13, 10] ++ tail, cf)
    else
      let (tail, cf) := e64Main lineLength rest c
      (e64Chunk b0 b1 b2 ++ tail, cf)
  | short, c => (e64Tail short, c)

/-- e64 (strings.go:392-439). -/
def e64 (s : GoStr) (lineLength : Int) : GoStr :=
  let r := e64Main lineLength s 0
  r.1 ++ (if lineLength > 0 ∧ r.2 > 0 then [13, 10] else [])

/-- One hex digit of the qphexdigits table (strings.go:498). -/
def qpHexDigit (n : Nat) : Nat := (gs "0123456789ABCDEF").getD n 0

/-- The three-byte =XX escape of eQP. -/
def qpEsc (ch : Nat) : GoStr := [61, qpHexDigit (ch / 16), qpHexDigit (ch % 16)]

/-- Value of one hex digit character, none when it is not a hex digit
(strconv.ParseUint with base 16 accepts both cases). -/
def hexDigitVal (c : Nat) : Option Nat :=
  if 48 ≤ c ∧ c ≤ 57 then some (c - 48)
  else if 65 ≤ c ∧ c ≤ 70 then some (c - 55)
  else if 97 ≤ c ∧ c ≤ 102 then some (c - 87)
  else none

/-- strconv.ParseUint(two hex chars, 16, 8) at deQP's call site
(strings.go:478). -/
def parseHexByte (c1 c2 : Nat) : Option Nat :=
  match hexDigitVal c1, hexDigitVal c2 with
  | some a, some b => some (a * 16 + b)
  | _, _ => none

/-- The loop of deQP (strings.go:447-496), fuel-indexed; each step consumes
at least one input byte so fuel = input length suffices. After an equals
sign, whitespace is skipped ahead of a soft line break; a two-digit hex
escape is decoded when present; otherwise Go's zero-value path writes a NUL
and skips three bytes (err is nil and c is zero when none of the lookahead
conditions fired). -/
def deQPGo (underscore : Bool) : Nat → GoStr → GoStr
  | 0, _ => []
  | _ + 1, [] => []
  | fuel + 1, ch :: rest =>
    if ch ≠ 61 then
      (if underscore ∧ ch = 95 then 32 else ch) :: deQPGo underscore fuel rest
    else
      let k := (rest.takeWhile (fun x => x = 32 ∨ x = 9)).length
      if k < rest.length ∧ rest.getD k 0 = 10 then
        deQPGo underscore fuel (rest.drop (k + 1))
      else if k + 1 < rest.length ∧ rest.getD k 0 = 13 ∧ rest.getD (k + 1) 0 = 10 then
        deQPGo underscore fuel (rest.drop (k + 2))
      else if 2 ≤ rest.length then
        match parseHexByte (rest.getD 0 0) (rest.getD 1 0) with
        | some b => b :: deQPGo underscore fuel (rest.drop 2)
        | none => 61 :: deQPGo underscore fuel rest
      else
        0 :: deQPGo underscore fuel (rest.drop 2)

/-- deQP (strings.go:447-496). -/
def deQP (s : GoStr) (underscore : Bool) : GoStr := deQPGo underscore s.length s

/-- Modelled from the spec: maybeBoundary is called by eQP and needsQP
(strings.go:588 and 630) but declared outside the available sources. The
spec says the from variant of eQP makes sure no output line looks like a
MIME boundary, and boundary lines start with two hyphens (section 4.7), so
the test is whether the remaining input starts with two hyphens. It is
exercised only when eQP's from flag is true. -/
def maybeBoundary (r : GoStr) : Bool := startsWithG r (gs "--")

/-- The backwards search of eQP's soft line break (strings.go:549-556):
j counts the output bytes after the last space among the last nine, and is
zero when no space is found there. The Go loop reads buf[l-j] without a
bound check; it never leaves the buffer because the line counter exceeds 72
when this runs, so the buffer holds at least 73 bytes. -/
def softBreakJ (buf : GoStr) : Nat :=
  let t := ((buf.reverse.take 9).takeWhile (fun x => x ≠ 32)).length
  if t = 9 then 0 else t

/-- The soft line break insertion of eQP (strings.go:548-571): insert = CR LF
before the last j bytes and restart the line counter at j. -/
def eQPBreak (buf : GoStr) : GoStr × Int :=
  let j := softBreakJ buf
  (buf.take (buf.length - j) ++ [61, 13, 10] ++ buf.drop (buf.length - j), (j : Int))

/-- Is the byte a digit or an ASCII letter (strings.go:578-580). -/
def isAlnumByte (c : Nat) : Bool :=
  (48 ≤ c ∧ c ≤ 57) || (97 ≤ c ∧ c ≤ 122) || (65 ≤ c ∧ c ≤ 90)

/-- The loop of eQP (strings.go:526-619). buf is the output built so far, c
the current line length. A line feed (or CR LF) re-quotes a trailing space
as =20 and resets the counter; any other byte first inserts a soft line
break when the counter exceeds 72, then is emitted as itself, an
underscore, or an =XX escape according to the flags. -/
def eQPGo (underscore fromFlag : Bool) : GoStr → GoStr → Int → GoStr
  | buf, [], _ => buf
  | buf, 10 :: rest, _ =>
    let buf := if buf.length > 0 ∧ buf.getLast? = some 32
      then buf.dropLast ++ [61, 50, 48] else buf
    eQPGo underscore fromFlag (buf ++ [10]) rest 0
  | buf, 13 :: 10 :: rest, _ =>
    let buf := if buf.length > 0 ∧ buf.getLast? = some 32
      then buf.dropLast ++ [61, 50, 48] else buf
    eQPGo underscore fromFlag (buf ++ [13, 10]) rest 0
  | buf, ch :: rest, c =>
    let bc := if c > 72 then eQPBreak buf else (buf, c)
    let buf := bc.1
    let c := bc.2
    if underscore ∧ ch = 32 then
      eQPGo underscore fromFlag (buf ++ [95]) rest (c + 1)
    else if underscore ∧ ¬ isAlnumByte ch then
      eQPGo underscore fromFlag (buf ++ qpEsc ch) rest (c + 3)
    else if fromFlag ∧ c = 0 ∧ maybeBoundary (ch :: rest) then
      eQPGo underscore fromFlag (buf ++ qpEsc ch) rest (c + 3)
    else if fromFlag ∧ c = 0 ∧ (ch :: rest).take 5 = gs "From " then
      eQPGo underscore fromFlag (buf ++ qpEsc ch) rest (c + 3)
    else if (32 ≤ ch ∧ ch < 127 ∧ ch ≠ 61) ∨ ch = 9 then
      eQPGo underscore fromFlag (buf ++ [ch]) rest (c + 1)
    else
      eQPGo underscore fromFlag (buf ++ qpEsc ch) rest (c + 3)

/-- eQP (strings.go:515-621). -/
def eQP (s : GoStr) (underscore fromFlag : Bool) : GoStr :=
  if s = [] then s else eQPGo underscore fromFlag [] s 0

/-- One uudecode token (strings.go:288-298): 63 AND (byte - 32) with uint8
wraparound; zero when the guard left the local at its zero value. -/
def uueTok (s : GoStr) (i : Nat) : Nat := ((byteAt s i + 224) % 256) &&& 63

/-- The group loop of deUue's step 3 (strings.go:282-312). The c2 and c3
reads are guarded only by i+1 < len (the source checks i+1 three times), so
they can read past the end of the string: none models that panic. -/
def deUueGroup (s : GoStr) : Nat → Nat → Nat → Option GoStr
  | 0, _, _ => some []
  | ll + 1, i, fuel =>
    match fuel with
    | 0 => some []
    | fuel + 1 =>
      if i < s.length then
        let c0 := if i < s.length then uueTok s i else 0
        let c1 := if i + 1 < s.length then uueTok s (i+1) else 0
        -- the next two guards are the source's (buggy) i+1 < len tests
        match (if i + 1 < s.length then goIdx s (i+2) else some 0),
              (if i + 1 < s.length then goIdx s (i+3) else some 0) with
        | some r2, some r3 =>
          let c2 := if i + 1 < s.length then ((r2 + 224) % 256) &&& 63 else 0
          let c3 := if i + 1 < s.length then ((r3 + 224) % 256) &&& 63 else 0
          let b1 := (((c0 <<< 2) ||| (c1 >>> 4)) &&& 255)
          let b2 := (((c1 <<< 4) ||| (c2 >>> 2)) &&& 255)
          let b3 := (((c2 <<< 6) ||| c3) &&& 255)
          match ll with
          | 0 => some [b1]
          | 1 => some [b1, b2]
          | _ =>
            match deUueGroup s (ll - 2) (i + 4) fuel with
            | some tail => some (b1 :: b2 :: b3 :: tail)
            | none => none
        | _, _ => none
      else some []

/-- deUue's whitespace test (strings.go:259-262). -/
def uueWs (c : Nat) : Bool := c == 9 || c == 10 || c == 13 || c == 32

/-- The outer loop of deUue (strings.go:252-313), fuel-indexed. Returns
inl(text) for the return paths that yield the input itself unchanged and
the decoded buffer otherwise; none models a panic in the group loop. -/
def deUueLoop (s : GoStr) : Nat → Nat → GoStr → Option (GoStr × Bool)
  | 0, _, acc => some (acc, false)
  | fuel + 1, i, acc =>
    if i < s.length then
      -- step 0: skip over nonspace until CR/LF
      let i := skipToEol s i
      -- step 1: skip whitespace to the next length marker
      let i := i + ((s.drop i).takeWhile (fun c => uueWs c)).length
      -- step 2: the length byte, or the end line
      if i < s.length then
        let c := byteAt s i
        if c = 101 ∧ i + 2 < s.length ∧ byteAt s (i+1) = 110 ∧ byteAt s (i+2) = 100 ∧
            (i + 3 = s.length ∨ byteAt s (i+3) = 13 ∨ byteAt s (i+3) = 10 ∨
             byteAt s (i+3) = 9 ∨ byteAt s (i+3) = 32) then
          some (acc, false)
        else if c < 32 then
          some (s, true)   -- give up: return the input
        else
          let ll := (c - 32) &&& 63
          -- step 3: the line data, in groups of four tokens
          match deUueGroup s ll (i + 1) (s.length + 1) with
          | some bytes =>
            let consumed := ((ll + 2) / 3) * 4
            deUueLoop s fuel (i + 1 + consumed) (acc ++ bytes)
          | none => none
      else some (acc, false)
    else some (acc, false)

/-- deUue (strings.go:237-317). none models the panic of the group loop.
The Bool in deUueLoop marks the early return of the whole input. -/
def deUue (s : GoStr) : Option GoStr :=
  if s = [] then some s else
  match
    (if startsWithG s (gs "begin") then some 0
     else match indexSub s (gs "\nbegin") with
       | some b => some (b + 1)
       | none =>
         match indexSub s (gs "\rbegin") with
         | some b => some (b + 1)
         | none => none) with
  | none => some s
  | some i =>
    match deUueLoop s (s.length + 1) i [] with
    | some (r, _) => some r
    | none => none

/-- encodeCTE (strings.go:196-203): no uuencode support; the input is
returned unchanged for the Uuencode (and Binary) encodings. -/
def encodeCTE (s : GoStr) (e : EncodingType) (n : Int) : GoStr :=
  if e = EncodingType.base64Encoding then e64 s n
  else if e = EncodingType.qpEncoding then eQP s false (decide (n > 0))
  else s

/-- decodeCTE (strings.go:206-215). -/
def decodeCTE (s : GoStr) (e : EncodingType) : Option GoStr :=
  if e = EncodingType.base64Encoding then some (de64 s)
  else if e = EncodingType.qpEncoding then some (deQP s false)
  else if e = EncodingType.uuencodeEncoding then deUue s
  else some s

/-- Each base64 alphabet character is at most z and decodes back to its
index through the from64 table. -/
theorem to64_char : ∀ k < 64,
    to64.getD k 0 ≤ 122 ∧ from64.getD (to64.getD k 0) 99 = k := by decide

/-- Byte-arithmetic values of the encoder's four characters (all bit
operations on a byte expressed through division and remainder). -/
theorem enc_k0 : ∀ b < 256, (b >>> 2) &&& 63 = b / 4 := by decide
theorem enc_k1a : ∀ b < 256, (b <<< 4) &&& 48 = b % 4 * 16 := by decide
theorem enc_k1b : ∀ b < 256, (b >>> 4) &&& 15 = b / 16 := by decide
theorem enc_k2a : ∀ b < 256, (b <<< 2) &&& 60 = b % 16 * 4 := by decide
theorem enc_k2b : ∀ b < 256, (b >>> 6) &&& 3 = b / 64 := by decide
theorem enc_k3 : ∀ b < 256, b &&& 63 = b % 64 := by decide

/-- Byte-arithmetic values of the decoder's partial-byte operations on a
six-bit value. -/
theorem dec_sh2 : ∀ k < 64, k <<< 2 = k * 4 := by decide
theorem dec_hi4 : ∀ k < 64, (k &&& 240) >>> 4 = k / 16 := by decide
theorem dec_lo4 : ∀ k < 64, (k &&& 15) <<< 4 = k % 16 * 16 := by decide
theorem dec_hi6 : ∀ k < 64, (k &&& 252) >>> 2 = k / 4 := by decide
theorem dec_lo2 : ∀ k < 64, (k &&& 3) <<< 6 = k % 4 * 64 := by decide

/-- The decoder step on an alphabet character at quantum position 0. -/
theorem de64Go_step0 (k : Nat) (hk : k < 64) (r : GoStr) (d : Nat) :
    de64Go (to64.getD k 0 :: r) 0 d = de64Go r 1 (k <<< 2) := by
  obtain ⟨hle, heq⟩ := to64_char k hk
  simp only [de64Go, if_pos hle, heq, if_pos hk]

/-- The decoder step on an alphabet character at quantum position 1. -/
theorem de64Go_step1 (k : Nat) (hk : k < 64) (r : GoStr) (d : Nat) :
    de64Go (to64.getD k 0 :: r) 1 d =
      (d + ((k &&& 0xF0) >>> 4)) :: de64Go r 2 ((k &&& 15) <<< 4) := by
  obtain ⟨hle, heq⟩ := to64_char k hk
  simp only [de64Go, if_pos hle, heq, if_pos hk]

/-- The decoder step on an alphabet character at quantum position 2. -/
theorem de64Go_step2 (k : Nat) (hk : k < 64) (r : GoStr) (d : Nat) :
    de64Go (to64.getD k 0 :: r) 2 d =
      (d + ((k &&& 0xFC) >>> 2)) :: de64Go r 3 ((k &&& 3) <<< 6) := by
  obtain ⟨hle, heq⟩ := to64_char k hk
  simp only [de64Go, if_pos hle, heq, if_pos hk]

/-- The decoder step on an alphabet character at quantum position 3. -/
theorem de64Go_step3 (k : Nat) (hk : k < 64) (r : GoStr) (d : Nat) :
    de64Go (to64.getD k 0 :: r) 3 d = (d + k) :: de64Go r 0 (d + k) := by
  obtain ⟨hle, heq⟩ := to64_char k hk
  simp only [de64Go, if_pos hle, heq, if_pos hk]

/-- The decoder ignores carriage returns. -/
theorem de64Go_cr (r : GoStr) (m d : Nat) : de64Go (13 :: r) m d = de64Go r m d := rfl

/-- The decoder ignores line feeds. -/
theorem de64Go_lf (r : GoStr) (m d : Nat) : de64Go (10 :: r) m d = de64Go r m d := rfl

/-- The padding character stops the decoder. -/
theorem de64Go_pad (r : GoStr) (m d : Nat) : de64Go (61 :: r) m d = [] := rfl

/-- Decoding one full encoded group recovers its three bytes, for any
incoming partial-byte state. -/
theorem de64_chunk (b0 b1 b2 : Nat) (h0 : b0 < 256) (h1 : b1 < 256) (h2 : b2 < 256)
    (rest : GoStr) (d : Nat) :
    de64Go (e64Chunk b0 b1 b2 ++ rest) 0 d =
      b0 :: b1 :: b2 :: de64Go rest 0 (((((b1 <<< 2) &&& 60) + ((b2 >>> 6) &&& 3)) &&& 3) <<< 6 + (b2 &&& 63)) := by
  have hk0 : (b0 >>> 2) &&& 63 < 64 := by rw [enc_k0 b0 h0]; omega
  have hk1 : ((b0 <<< 4) &&& 48) + ((b1 >>> 4) &&& 15) < 64 := by
    rw [enc_k1a b0 h0, enc_k1b b1 h1]; omega
  have hk2 : ((b1 <<< 2) &&& 60) + ((b2 >>> 6) &&& 3) < 64 := by
    rw [enc_k2a b1 h1, enc_k2b b2 h2]; omega
  have hk3 : b2 &&& 63 < 64 := by rw [enc_k3 b2 h2]; omega
  simp only [e64Chunk, List.cons_append, List.nil_append]
  rw [de64Go_step0 _ hk0, de64Go_step1 _ hk1, de64Go_step2 _ hk2, de64Go_step3 _ hk3]
  have hw1 : (((b0 >>> 2) &&& 63) <<< 2) +
      (((((b0 <<< 4) &&& 48) + ((b1 >>> 4) &&& 15)) &&& 0xF0) >>> 4) = b0 := by
    rw [dec_sh2 _ hk0, dec_hi4 _ hk1, enc_k0 b0 h0, enc_k1a b0 h0, enc_k1b b1 h1]
    omega
  have hw2 : ((((b0 <<< 4) &&& 48) + ((b1 >>> 4) &&& 15)) &&& 15) <<< 4 +
      (((((b1 <<< 2) &&& 60) + ((b2 >>> 6) &&& 3)) &&& 0xFC) >>> 2) = b1 := by
    rw [dec_lo4 _ hk1, dec_hi6 _ hk2, enc_k1a b0 h0, enc_k1b b1 h1,
      enc_k2a b1 h1, enc_k2b b2 h2]
    omega
  have hw3 : (((((b1 <<< 2) &&& 60) + ((b2 >>> 6) &&& 3)) &&& 3) <<< 6) + (b2 &&& 63) = b2 := by
    rw [dec_lo2 _ hk2, enc_k3 b2 h2, enc_k2a b1 h1, enc_k2b b2 h2]
    omega
  rw [hw1, hw2]
  refine congrArg _ (congrArg _ ?_)
  rw [hw3]

/-- Decoding the padded one-byte tail recovers the byte and stops. -/
theorem de64_tail1 (b0 : Nat) (h0 : b0 < 256) (junk : GoStr) (d : Nat) :
    de64Go (e64Tail [b0] ++ junk) 0 d = [b0] := by
  have hk0 : (b0 >>> 2) &&& 63 < 64 := by rw [enc_k0 b0 h0]; omega
  have hz : ((0 : Nat) >>> 4) &&& 15 = 0 := by decide
  have hk1 : ((b0 <<< 4) &&& 48) + (((0:Nat) >>> 4) &&& 15) < 64 := by
    rw [enc_k1a b0 h0, hz]; omega
  simp only [e64Tail, List.cons_append, List.nil_append]
  rw [de64Go_step0 _ hk0, de64Go_step1 _ hk1, de64Go_pad]
  have hw : (((b0 >>> 2) &&& 63) <<< 2) +
      (((((b0 <<< 4) &&& 48) + (((0:Nat) >>> 4) &&& 15)) &&& 0xF0) >>> 4) = b0 := by
    rw [dec_sh2 _ hk0, dec_hi4 _ hk1, enc_k0 b0 h0, enc_k1a b0 h0, hz]
    omega
  rw [hw]

/-- Decoding the padded two-byte tail recovers the bytes and stops. -/
theorem de64_tail2 (b0 b1 : Nat) (h0 : b0 < 256) (h1 : b1 < 256) (junk : GoStr) (d : Nat) :
    de64Go (e64Tail [b0, b1] ++ junk) 0 d = [b0, b1] := by
  have hk0 : (b0 >>> 2) &&& 63 < 64 := by rw [enc_k0 b0 h0]; omega
  have hk1 : ((b0 <<< 4) &&& 48) + ((b1 >>> 4) &&& 15) < 64 := by
    rw [enc_k1a b0 h0, enc_k1b b1 h1]; omega
  have hz : ((0 : Nat) >>> 6) &&& 3 = 0 := by decide
  have hk2 : ((b1 <<< 2) &&& 60) + (((0:Nat) >>> 6) &&& 3) < 64 := by
    rw [enc_k2a b1 h1, hz]; omega
  simp only [e64Tail, List.cons_append, List.nil_append]
  rw [de64Go_step0 _ hk0, de64Go_step1 _ hk1, de64Go_step2 _ hk2, de64Go_pad]
  have hw1 : (((b0 >>> 2) &&& 63) <<< 2) +
      (((((b0 <<< 4) &&& 48) + ((b1 >>> 4) &&& 15)) &&& 0xF0) >>> 4) = b0 := by
    rw [dec_sh2 _ hk0, dec_hi4 _ hk1, enc_k0 b0 h0, enc_k1a b0 h0, enc_k1b b1 h1]
    omega
  have hw2 : ((((b0 <<< 4) &&& 48) + ((b1 >>> 4) &&& 15)) &&& 15) <<< 4 +
      (((((b1 <<< 2) &&& 60) + (((0:Nat) >>> 6) &&& 3)) &&& 0xFC) >>> 2) = b1 := by
    rw [dec_lo4 _ hk1, dec_hi6 _ hk2, enc_k1a b0 h0, enc_k1b b1 h1, enc_k2a b1 h1, hz]
    omega
  rw [hw1, hw2]

/-- Decoding the output of e64's main loop followed by any text that
decodes to nothing (the optional final CRLF) recovers the input bytes. -/
theorem de64_e64Main (n : Int) :
    ∀ (L : Nat) (s : List Nat), s.length = L → (∀ b ∈ s, b < 256) →
    ∀ (c : Int) (d : Nat) (junk : GoStr),
    (∀ d2, de64Go junk 0 d2 = []) →
    de64Go ((e64Main n s c).1 ++ junk) 0 d = s := by
  intro L
  induction L using Nat.strong_induction_on with
  | _ L ih =>
    intro s hlen hb c d junk hjunk
    match s with
    | [] =>
      simp only [e64Main, e64Tail, List.nil_append]
      exact hjunk d
    | [b0] =>
      simp only [e64Main]
      exact de64_tail1 b0 (hb b0 (by simp)) junk d
    | [b0, b1] =>
      simp only [e64Main]
      exact de64_tail2 b0 b1 (hb b0 (by simp)) (hb b1 (by simp)) junk d
    | b0 :: b1 :: b2 :: rest =>
      have h0 : b0 < 256 := hb b0 (by simp)
      have h1 : b1 < 256 := hb b1 (by simp)
      have h2 : b2 < 256 := hb b2 (by simp)
      have hbrest : ∀ b ∈ rest, b < 256 := fun b hbm => hb b (by simp [hbm])
      have hlt : rest.length < L := by
        simp only [List.length_cons] at hlen; omega
      simp only [e64Main]
      split
      · -- a CRLF follows the chunk
        simp only [List.append_assoc, List.cons_append, List.nil_append]
        rw [de64_chunk b0 b1 b2 h0 h1 h2, de64Go_cr, de64Go_lf]
        rw [ih rest.length hlt rest rfl hbrest 0 _ junk hjunk]
      · simp only [List.append_assoc]
        rw [de64_chunk b0 b1 b2 h0 h1 h2]
        rw [ih rest.length hlt rest rfl hbrest _ _ junk hjunk]

/-- The base64 decoder inverts the encoder exactly, for every line length. -/
theorem de64_e64 (s : GoStr) (hb : ∀ b ∈ s, b < 256) (n : Int) :
    de64 (e64 s n) = s := by
  show de64Go ((e64Main n s 0).1 ++
      (if n > 0 ∧ (e64Main n s 0).2 > 0 then [13, 10] else [])) 0 0 = s
  by_cases hc : n > 0 ∧ (e64Main n s 0).2 > 0
  · rw [if_pos hc]
    exact de64_e64Main n s.length s rfl hb 0 0 [13, 10]
      (fun d2 => by rw [de64Go_cr, de64Go_lf]; rfl)
  · rw [if_neg hc]
    exact de64_e64Main n s.length s rfl hb 0 0 []
      (fun d2 => rfl)

/-- Decoding units of quoted-printable text as eQP generates it: a literal
byte other than the equals sign, an =XX escape of a byte, or a soft line
break. DecU e d says that e is a concatenation of such units whose decoded
bytes are d. -/
inductive DecU : GoStr → GoStr → Prop where
  | nil : DecU [] []
  | lit (ch : Nat) (e d : GoStr) (hch : ch ≠ 61) (h : DecU e d) :
      DecU (ch :: e) (ch :: d)
  | esc (ch : Nat) (e d : GoStr) (hch : ch < 256) (h : DecU e d) :
      DecU (61 :: qpHexDigit (ch / 16) :: qpHexDigit (ch % 16) :: e) (ch :: d)
  | soft (e d : GoStr) (h : DecU e d) : DecU (61 :: 13 :: 10 :: e) d

/-- The hex digits written by eQP lie between ASCII 0 and F. -/
theorem qpHexDigit_facts : ∀ n < 16, 48 ≤ qpHexDigit n ∧ qpHexDigit n ≤ 70 := by decide

/-- deQP parses the two hex digits written by eQP back to the escaped byte. -/
theorem parseHex_qpEsc : ∀ ch < 256,
    parseHexByte (qpHexDigit (ch / 16)) (qpHexDigit (ch % 16)) = some ch := by decide

/-- Only the empty unit list decodes from the empty string. -/
theorem decU_nil {d : GoStr} (h : DecU [] d) : d = [] := by
  cases h
  rfl

/-- Unit lists concatenate. -/
theorem decU_append {a d1 : GoStr} (ha : DecU a d1) :
    ∀ {b d2 : GoStr}, DecU b d2 → DecU (a ++ b) (d1 ++ d2) := by
  induction ha with
  | nil => intro b d2 hb; simpa using hb
  | lit ch e d hch h ih => intro b d2 hb; simpa using DecU.lit ch _ _ hch (ih hb)
  | esc ch e d hch h ih => intro b d2 hb; simpa using DecU.esc ch _ _ hch (ih hb)
  | soft e d h ih => intro b d2 hb; simpa using DecU.soft _ _ (ih hb)

/-- The escape qpEsc ch is one decoding unit for the byte ch. -/
theorem decU_qpEsc {ch : Nat} (hch : ch < 256) {e d : GoStr} (h : DecU e d) :
    DecU (qpEsc ch ++ e) (ch :: d) := by
  simpa [qpEsc] using DecU.esc ch e d hch h

/-- A space in a unit list is always a standalone literal unit, so the list
splits cleanly on either side of it. -/
theorem decU_split {e d : GoStr} (h : DecU e d) :
    ∀ p, p < e.length → e.getD p 0 = 32 →
    ∃ d1 d2, d = d1 ++ 32 :: d2 ∧ DecU (e.take p) d1 ∧
      DecU (e.take (p + 1)) (d1 ++ [32]) ∧ DecU (e.drop (p + 1)) d2 := by
  induction h with
  | nil => intro p hp hb; simp at hp
  | lit ch e d hch hrec ih =>
    intro p hp hb
    match p with
    | 0 =>
      simp only [List.getD_cons_zero] at hb
      subst hb
      refine ⟨[], d, rfl, DecU.nil, ?_, ?_⟩
      · simpa using DecU.lit 32 [] [] (by omega) DecU.nil
      · simpa using hrec
    | q + 1 =>
      simp only [List.getD_cons_succ] at hb
      simp only [List.length_cons] at hp
      obtain ⟨d1, d2, hd, h1, h1b, h2⟩ := ih q (by omega) hb
      refine ⟨ch :: d1, d2, by simp [hd], ?_, ?_, ?_⟩
      · simpa [List.take_succ_cons] using DecU.lit ch _ _ hch h1
      · simpa [List.take_succ_cons] using DecU.lit ch _ _ hch h1b
      · simpa [List.drop_succ_cons] using h2
  | esc ch e d hch hrec ih =>
    intro p hp hb
    have hq1 := qpHexDigit_facts (ch / 16) (by omega)
    have hq2 := qpHexDigit_facts (ch % 16) (Nat.mod_lt _ (by omega))
    match p with
    | 0 => simp only [List.getD_cons_zero] at hb; omega
    | 1 => simp only [List.getD_cons_succ, List.getD_cons_zero] at hb; omega
    | 2 => simp only [List.getD_cons_succ, List.getD_cons_zero] at hb; omega
    | q + 3 =>
      simp only [List.getD_cons_succ] at hb
      simp only [List.length_cons] at hp
      obtain ⟨d1, d2, hd, h1, h1b, h2⟩ := ih q (by omega) hb
      refine ⟨ch :: d1, d2, by simp [hd], ?_, ?_, ?_⟩
      · simpa [List.take_succ_cons] using DecU.esc ch _ _ hch h1
      · simpa [List.take_succ_cons] using DecU.esc ch _ _ hch h1b
      · simpa [List.drop_succ_cons] using h2
  | soft e d hrec ih =>
    intro p hp hb
    match p with
    | 0 => simp only [List.getD_cons_zero] at hb; omega
    | 1 => simp only [List.getD_cons_succ, List.getD_cons_zero] at hb; omega
    | 2 => simp only [List.getD_cons_succ, List.getD_cons_zero] at hb; omega
    | q + 3 =>
      simp only [List.getD_cons_succ] at hb
      simp only [List.length_cons] at hp
      obtain ⟨d1, d2, hd, h1, h1b, h2⟩ := ih q (by omega) hb
      refine ⟨d1, d2, hd, ?_, ?_, ?_⟩
      · simpa [List.take_succ_cons] using DecU.soft _ _ h1
      · simpa [List.take_succ_cons] using DecU.soft _ _ h1b
      · simpa [List.drop_succ_cons] using h2

/-- takeWhile never returns more elements than the list has. -/
theorem takeWhile_len_le (p : Nat → Bool) (l : GoStr) :
    (l.takeWhile p).length ≤ l.length := by
  induction l with
  | nil => simp
  | cons a t ih =>
    rw [List.takeWhile_cons]
    split
    · simpa using ih
    · simp

/-- The element just past takeWhile fails the predicate. -/
theorem takeWhile_stop (p : Nat → Bool) (l : GoStr)
    (h : (l.takeWhile p).length < l.length) :
    p (l.getD (l.takeWhile p).length 0) = false := by
  induction l with
  | nil => simp at h
  | cons a t ih =>
    rw [List.takeWhile_cons] at h ⊢
    by_cases hpa : p a
    · rw [if_pos hpa] at h ⊢
      simp only [List.length_cons] at h
      rw [List.length_cons, List.getD_cons_succ]
      exact ih (by omega)
    · rw [if_neg hpa] at h ⊢
      simp only [List.length_nil, List.getD_cons_zero]
      simpa using hpa

/-- getD commutes with take inside the taken range. -/
theorem getD_take_lt (l : GoStr) : ∀ (n i : Nat), i < n →
    (l.take n).getD i 0 = l.getD i 0 := by
  induction l with
  | nil => intro n i h; simp
  | cons a t ih =>
    intro n i h
    match n, i with
    | 0, i => omega
    | m + 1, 0 => simp [List.take_succ_cons]
    | m + 1, j + 1 =>
      rw [List.take_succ_cons, List.getD_cons_succ, List.getD_cons_succ]
      exact ih m j (by omega)

/-- getD through reverse reads from the mirrored position. -/
theorem getD_reverse_lt (l : GoStr) (i : Nat) (h : i < l.length) :
    l.reverse.getD i 0 = l.getD (l.length - 1 - i) 0 := by
  have h1 : i < l.reverse.length := by simpa using h
  have h2 : l.length - 1 - i < l.length := by omega
  rw [List.getD_eq_getElem _ _ h1, List.getD_eq_getElem _ _ h2]
  exact List.getElem_reverse h1

/-- getLast seen through getD. -/
theorem getLast_getD (l : GoStr) (h : l.getLast? = some 32) :
    l.getD (l.length - 1) 0 = 32 := by
  induction l with
  | nil => simp at h
  | cons a t ih =>
    cases t with
    | nil =>
      simp only [List.getLast?_singleton, Option.some_inj] at h
      simpa using h
    | cons b t2 =>
      rw [List.getLast?_cons_cons] at h
      have h2 := ih h
      simp only [List.length_cons] at h2 ⊢
      rw [Nat.add_sub_cancel] at h2 ⊢
      rw [List.getD_cons_succ]
      exact h2

/-- When the soft line break moves a positive number of trailing bytes, the
byte just before them is a space. -/
theorem softBreakJ_space (buf : GoStr) (h0 : 0 < softBreakJ buf)
    (hlt : softBreakJ buf < buf.length) :
    buf.getD (buf.length - softBreakJ buf - 1) 0 = 32 := by
  simp only [softBreakJ] at h0 hlt ⊢
  set t := ((buf.reverse.take 9).takeWhile (fun x => x ≠ 32)).length with ht
  by_cases h9 : t = 9
  · rw [if_pos h9] at h0; omega
  · rw [if_neg h9] at h0 hlt ⊢
    have hle : t ≤ (buf.reverse.take 9).length := by
      rw [ht]; exact takeWhile_len_le _ _
    have hr9 : (buf.reverse.take 9).length = min 9 buf.length := by simp
    have ht9 : t < 9 := by omega
    have hstop := takeWhile_stop (fun x => decide (x ≠ 32)) (buf.reverse.take 9)
      (by rw [← ht]; omega)
    rw [← ht] at hstop
    have hx : (buf.reverse.take 9).getD t 0 = 32 := by simpa using hstop
    rw [getD_take_lt _ _ _ ht9] at hx
    rw [getD_reverse_lt _ _ hlt] at hx
    have heq : buf.length - 1 - t = buf.length - t - 1 := by omega
    rw [heq] at hx
    exact hx

/-- The soft line break of eQP keeps the buffer a unit list with the same
decoded bytes: it inserts = CR LF either at the end, at the start, or just
after a space, and a space is always a standalone unit. -/
theorem eQPBreak_decU {buf d : GoStr} (h : DecU buf d) : DecU (eQPBreak buf).1 d := by
  show DecU (buf.take (buf.length - softBreakJ buf) ++ [61, 13, 10] ++
    buf.drop (buf.length - softBreakJ buf)) d
  by_cases hj0 : softBreakJ buf = 0
  · rw [hj0]
    simp only [Nat.sub_zero, List.take_length, List.drop_length, List.append_nil]
    have hsoft : DecU [61, 13, 10] [] := DecU.soft [] [] DecU.nil
    simpa using decU_append h hsoft
  · by_cases hjlen : softBreakJ buf < buf.length
    · have h0 : 0 < softBreakJ buf := Nat.pos_of_ne_zero hj0
      have hsp := softBreakJ_space buf h0 hjlen
      obtain ⟨d1, d2, hd, h1, h1b, h2⟩ :=
        decU_split h (buf.length - softBreakJ buf - 1) (by omega) hsp
      have hp1 : buf.length - softBreakJ buf - 1 + 1 = buf.length - softBreakJ buf := by
        omega
      rw [hp1] at h1b h2
      have hsoft : DecU (61 :: 13 :: 10 :: buf.drop (buf.length - softBreakJ buf)) d2 :=
        DecU.soft _ _ h2
      have hall := decU_append h1b hsoft
      have hd2 : d = (d1 ++ [32]) ++ d2 := by simp [hd]
      rw [hd2]
      simpa [List.append_assoc] using hall
    · have hz : buf.length - softBreakJ buf = 0 := by omega
      rw [hz]
      simp only [List.take_zero, List.drop_zero, List.nil_append]
      exact DecU.soft _ _ h

/-- Requoting a trailing space as =20 before a line break keeps the buffer
a unit list with the same decoded bytes. -/
theorem fixSp_decU {buf d : GoStr} (h : DecU buf d) :
    DecU (if buf.length > 0 ∧ buf.getLast? = some 32
      then buf.dropLast ++ [61, 50, 48] else buf) d := by
  split
  · rename_i hc
    have hsp : buf.getD (buf.length - 1) 0 = 32 := getLast_getD buf hc.2
    obtain ⟨d1, d2, hd, h1, h1b, h2⟩ := decU_split h (buf.length - 1) (by omega) hsp
    have hlen1 : buf.length - 1 + 1 = buf.length := by omega
    rw [hlen1, List.drop_length] at h2
    cases h2
    have hesc : DecU [61, 50, 48] [32] := by
      have h5 : qpHexDigit (32 / 16) = 50 := by decide
      have h4 : qpHexDigit (32 % 16) = 48 := by decide
      have he := DecU.esc 32 [] [] (by omega) DecU.nil
      rw [h5, h4] at he
      exact he
    have hall := decU_append h1 hesc
    rw [List.dropLast_eq_take]
    have hd2 : d = d1 ++ [32] := by simpa using hd
    rw [hd2]
    exact hall
  · exact h

/-- deQP decodes a unit list to its decoded bytes, with any sufficient fuel. -/
theorem decU_deQPGo {e d : GoStr} (h : DecU e d) :
    ∀ fuel, e.length ≤ fuel → deQPGo false fuel e = d := by
  induction h with
  | nil => intro fuel hf; cases fuel <;> rfl
  | lit ch e d hch hrec ih =>
    intro fuel hf
    simp only [List.length_cons] at hf
    cases fuel with
    | zero => omega
    | succ f =>
      simp only [deQPGo]
      rw [if_pos hch]
      simp only [Bool.false_eq_true, false_and, if_false]
      rw [ih f (by omega)]
  | esc ch e d hch hrec ih =>
    intro fuel hf
    simp only [List.length_cons] at hf
    cases fuel with
    | zero => omega
    | succ f =>
      have hq1 := qpHexDigit_facts (ch / 16) (by omega)
      have hq2 := qpHexDigit_facts (ch % 16) (Nat.mod_lt _ (by omega))
      have htw : (qpHexDigit (ch / 16) :: qpHexDigit (ch % 16) :: e).takeWhile
          (fun x => x = 32 ∨ x = 9) = [] := by
        rw [List.takeWhile_cons, if_neg (by simp; omega)]
      simp only [deQPGo, htw, List.length_nil, List.getD_cons_zero, List.getD_cons_succ]
      rw [if_neg (by omega)]
      rw [if_neg (by rintro ⟨-, hx⟩; omega)]
      rw [if_neg (by rintro ⟨-, hx, -⟩; omega)]
      rw [if_pos (by simp only [List.length_cons]; omega)]
      rw [parseHex_qpEsc ch hch]
      simp only [List.drop_succ_cons, List.drop_zero]
      rw [ih f (by omega)]
  | soft e d hrec ih =>
    intro fuel hf
    simp only [List.length_cons] at hf
    cases fuel with
    | zero => omega
    | succ f =>
      have htw : (13 :: 10 :: e).takeWhile (fun x => x = 32 ∨ x = 9) = [] := by
        rw [List.takeWhile_cons, if_neg (by simp)]
      simp only [deQPGo, htw, List.length_nil, List.getD_cons_zero, List.getD_cons_succ]
      rw [if_neg (by omega)]
      rw [if_neg (by rintro ⟨-, hx⟩; omega)]
      rw [if_pos (by refine ⟨?_, trivial, trivial⟩; simp only [List.length_cons]; omega)]
      simp only [List.drop_succ_cons, List.drop_zero]
      rw [ih f (by omega)]

/-- eQP on a line feed requotes a trailing space and emits the line feed. -/
theorem eQPGo_eq_lf (buf rest : GoStr) (c : Int) :
    eQPGo false false buf (10 :: rest) c =
      eQPGo false false ((if buf.length > 0 ∧ buf.getLast? = some 32
        then buf.dropLast ++ [61, 50, 48] else buf) ++ [10]) rest 0 := by
  simp only [eQPGo]

/-- eQP on CR LF requotes a trailing space and emits the CR LF. -/
theorem eQPGo_eq_crlf (buf rest : GoStr) (c : Int) :
    eQPGo false false buf (13 :: 10 :: rest) c =
      eQPGo false false ((if buf.length > 0 ∧ buf.getLast? = some 32
        then buf.dropLast ++ [61, 50, 48] else buf) ++ [13, 10]) rest 0 := by
  simp only [eQPGo]

/-- eQP escapes a final bare CR. -/
theorem eQPGo_eq_cr1 (buf : GoStr) (c : Int) :
    eQPGo false false buf [13] c =
      eQPGo false false ((if c > 72 then eQPBreak buf else (buf, c)).1 ++ qpEsc 13) []
        ((if c > 72 then eQPBreak buf else (buf, c)).2 + 3) := by
  simp only [eQPGo]
  norm_num

/-- eQP escapes a bare CR not followed by a line feed. -/
theorem eQPGo_eq_cr (buf : GoStr) (ch2 : Nat) (rest : GoStr) (c : Int) (h : ch2 ≠ 10) :
    eQPGo false false buf (13 :: ch2 :: rest) c =
      eQPGo false false ((if c > 72 then eQPBreak buf else (buf, c)).1 ++ qpEsc 13)
        (ch2 :: rest) ((if c > 72 then eQPBreak buf else (buf, c)).2 + 3) := by
  rw [eQPGo.eq_def]
  split
  · simp_all
  · simp_all
  · simp_all
  · rename_i heq
    injection heq with h1 h2
    subst h2
    subst h1
    norm_num

/-- eQP passes a printable byte (or tab) through unchanged. -/
theorem eQPGo_eq_print (buf : GoStr) (ch : Nat) (rest : GoStr) (c : Int)
    (h10 : ch ≠ 10) (h13 : ch ≠ 13)
    (hpr : (32 ≤ ch ∧ ch < 127 ∧ ch ≠ 61) ∨ ch = 9) :
    eQPGo false false buf (ch :: rest) c =
      eQPGo false false ((if c > 72 then eQPBreak buf else (buf, c)).1 ++ [ch]) rest
        ((if c > 72 then eQPBreak buf else (buf, c)).2 + 1) := by
  rw [eQPGo.eq_def]
  split
  · simp_all
  · simp_all
  · simp_all
  · rename_i heq
    injection heq with h1 h2
    subst h2
    subst h1
    simp only [Bool.false_eq_true, false_and, if_false, if_pos hpr]

/-- eQP escapes any other byte as =XX. -/
theorem eQPGo_eq_esc (buf : GoStr) (ch : Nat) (rest : GoStr) (c : Int)
    (h10 : ch ≠ 10) (h13 : ch ≠ 13)
    (hpr : ¬ ((32 ≤ ch ∧ ch < 127 ∧ ch ≠ 61) ∨ ch = 9)) :
    eQPGo false false buf (ch :: rest) c =
      eQPGo false false ((if c > 72 then eQPBreak buf else (buf, c)).1 ++ qpEsc ch) rest
        ((if c > 72 then eQPBreak buf else (buf, c)).2 + 3) := by
  rw [eQPGo.eq_def]
  split
  · simp_all
  · simp_all
  · simp_all
  · rename_i heq
    injection heq with h1 h2
    subst h2
    subst h1
    simp only [Bool.false_eq_true, false_and, if_false, if_neg hpr]

/-- The encoder loop of eQP always produces a unit list whose decoded bytes
are the bytes produced so far followed by the remaining input. -/
theorem eQPGo_decU : ∀ (L : Nat) (s : GoStr), s.length = L → (∀ b ∈ s, b < 256) →
    ∀ (buf d : GoStr) (c : Int), DecU buf d →
    DecU (eQPGo false false buf s c) (d ++ s) := by
  intro L
  induction L using Nat.strong_induction_on with
  | _ L ih =>
    intro s hlen hb buf d c hbuf
    match s with
    | [] => simpa using hbuf
    | ch :: rest =>
      simp only [List.length_cons] at hlen
      have hbrest : ∀ b ∈ rest, b < 256 := fun b hbm => hb b (by simp [hbm])
      have hbc : DecU (if c > 72 then eQPBreak buf else (buf, c)).1 d := by
        split
        · exact eQPBreak_decU hbuf
        · exact hbuf
      by_cases h10 : ch = 10
      · subst h10
        rw [eQPGo_eq_lf]
        have hstep : DecU ((if buf.length > 0 ∧ buf.getLast? = some 32
            then buf.dropLast ++ [61, 50, 48] else buf) ++ [10]) (d ++ [10]) :=
          decU_append (fixSp_decU hbuf) (DecU.lit 10 [] [] (by omega) DecU.nil)
        have hrec := ih rest.length (by omega) rest rfl hbrest _ _ 0 hstep
        simpa [List.append_assoc] using hrec
      · by_cases h13 : ch = 13
        · subst h13
          match rest with
          | [] =>
            rw [eQPGo_eq_cr1]
            simp only [eQPGo]
            have hq : DecU (qpEsc 13) [13] := by
              simpa using decU_qpEsc (show (13 : Nat) < 256 by omega) DecU.nil
            simpa using decU_append hbc hq
          | ch2 :: rest2 =>
            simp only [List.length_cons] at hlen
            have hbrest2 : ∀ b ∈ rest2, b < 256 :=
              fun b hbm => hb b (by simp [hbm])
            by_cases h210 : ch2 = 10
            · subst h210
              rw [eQPGo_eq_crlf]
              have hcr : DecU [13, 10] [13, 10] :=
                DecU.lit 13 [10] [10] (by omega)
                  (DecU.lit 10 [] [] (by omega) DecU.nil)
              have hstep : DecU ((if buf.length > 0 ∧ buf.getLast? = some 32
                  then buf.dropLast ++ [61, 50, 48] else buf) ++ [13, 10])
                  (d ++ [13, 10]) := decU_append (fixSp_decU hbuf) hcr
              have hrec := ih rest2.length (by omega) rest2 rfl hbrest2 _ _ 0 hstep
              simpa [List.append_assoc] using hrec
            · rw [eQPGo_eq_cr buf ch2 rest2 c h210]
              have hq : DecU (qpEsc 13) [13] := by
                simpa using decU_qpEsc (show (13 : Nat) < 256 by omega) DecU.nil
              have hstep := decU_append hbc hq
              have hrec := ih (ch2 :: rest2).length (by simp; omega) (ch2 :: rest2) rfl
                (fun b hbm => hb b (by simp at hbm ⊢; tauto)) _ _
                ((if c > 72 then eQPBreak buf else (buf, c)).2 + 3) hstep
              simpa [List.append_assoc] using hrec
        · by_cases hpr : (32 ≤ ch ∧ ch < 127 ∧ ch ≠ 61) ∨ ch = 9
          · rw [eQPGo_eq_print buf ch rest c h10 h13 hpr]
            have hne : ch ≠ 61 := by
              rcases hpr with ⟨-, -, hx⟩ | hx
              · exact hx
              · omega
            have hstep := decU_append hbc (DecU.lit ch [] [] hne DecU.nil)
            have hrec := ih rest.length (by omega) rest rfl hbrest _ _
              ((if c > 72 then eQPBreak buf else (buf, c)).2 + 1) hstep
            simpa [List.append_assoc] using hrec
          · rw [eQPGo_eq_esc buf ch rest c h10 h13 hpr]
            have hq : DecU (qpEsc ch) [ch] := by
              simpa using decU_qpEsc (hb ch (by simp)) DecU.nil
            have hstep := decU_append hbc hq
            have hrec := ih rest.length (by omega) rest rfl hbrest _ _
              ((if c > 72 then eQPBreak buf else (buf, c)).2 + 3) hstep
            simpa [List.append_assoc] using hrec

/-- The quoted-printable decoder inverts the encoder exactly (in the plain
body variant: underscore and from flags off). -/
theorem deQP_eQP (s : GoStr) (hb : ∀ b ∈ s, b < 256) :
    deQP (eQP s false false) false = s := by
  by_cases hs : s = []
  · subst hs; rfl
  · have henc : DecU (eQPGo false false [] s 0) s := by
      simpa using eQPGo_decU s.length s rfl hb [] [] 0 DecU.nil
    have hdec := decU_deQPGo henc (eQPGo false false [] s 0).length le_rfl
    unfold deQP eQP
    rw [if_neg hs]
    exact hdec

/-- C7 (amended): for every 8-bit-clean input s the base64 decoder inverts
the base64 encoder exactly at every line length, and the quoted-printable
decoder (underscore and from flags off) inverts its encoder exactly; the
uuencode decoder, however, does not invert its encoder (see the
counterexample theorem). -/
theorem c7_b64_and_qp_decoders_invert (s : GoStr) (hb : ∀ b ∈ s, b < 256) (n : Int) :
    de64 (e64 s n) = s ∧ deQP (eQP s false false) false = s :=
  ⟨de64_e64 s hb n, deQP_eQP s hb⟩

/-- Witness for the C7 theorem at a concrete byte string containing an
equals sign, a space, a high byte, CR LF and a tab, with line length 4. -/
theorem c7_b64_and_qp_decoders_invert_witness :
    de64 (e64 [61, 32, 200, 65, 13, 10, 9] 4) = [61, 32, 200, 65, 13, 10, 9] ∧
    deQP (eQP [61, 32, 200, 65, 13, 10, 9] false false) false =
      [61, 32, 200, 65, 13, 10, 9] :=
  c7_b64_and_qp_decoders_invert [61, 32, 200, 65, 13, 10, 9] (by decide) 4

/-- C7 counterexample: the uuencode decoder is not a left inverse of its
encoder, even up to trailing-CRLF differences. encodeCTE does not support
uuencode and returns its input unchanged (strings.go:196-203), while deUue
decodes any input that begins with a begin line: on "begin \nend" the
encoder yields the input itself and the decoder yields the empty string. -/
theorem c7_uuencode_decoder_not_inverse :
    encodeCTE (gs "begin \nend") EncodingType.uuencodeEncoding 0 = gs "begin \nend" ∧
    deUue (encodeCTE (gs "begin \nend") EncodingType.uuencodeEncoding 0) = some [] ∧
    stripCRLF [] ≠ stripCRLF (gs "begin \nend") := by decide

/-- Modelled from the spec: the codec registry (section on the codec
registry: a decoder that returns an error for invalid sequences) lives
outside the sources. For us-ascii an invalid sequence is any byte above
127, so the decode at strings.go:652 succeeds exactly when every byte is
ASCII. -/
def usAsciiOk (s : GoStr) : Bool := s.all (fun b => b < 128)

/-- Modelled from the spec: the utf8 decoder of the codec registry errors
exactly on invalid UTF-8, so success is the standard RFC 3629 byte-level
validity check. -/
def validUtf8 : GoStr → Bool
  | [] => true
  | b :: rest =>
    if b < 128 then validUtf8 rest
    else if 194 ≤ b ∧ b ≤ 223 then
      match rest with
      | c1 :: rest2 => (128 ≤ c1 ∧ c1 ≤ 191 : Bool) && validUtf8 rest2
      | _ => false
    else if b = 224 then
      match rest with
      | c1 :: c2 :: rest2 =>
        (160 ≤ c1 ∧ c1 ≤ 191 : Bool) && (128 ≤ c2 ∧ c2 ≤ 191 : Bool) && validUtf8 rest2
      | _ => false
    else if (225 ≤ b ∧ b ≤ 236) ∨ b = 238 ∨ b = 239 then
      match rest with
      | c1 :: c2 :: rest2 =>
        (128 ≤ c1 ∧ c1 ≤ 191 : Bool) && (128 ≤ c2 ∧ c2 ≤ 191 : Bool) && validUtf8 rest2
      | _ => false
    else if b = 237 then
      match rest with
      | c1 :: c2 :: rest2 =>
        (128 ≤ c1 ∧ c1 ≤ 159 : Bool) && (128 ≤ c2 ∧ c2 ≤ 191 : Bool) && validUtf8 rest2
      | _ => false
    else if b = 240 then
      match rest with
      | c1 :: c2 :: c3 :: rest2 =>
        (144 ≤ c1 ∧ c1 ≤ 191 : Bool) && (128 ≤ c2 ∧ c2 ≤ 191 : Bool) &&
          (128 ≤ c3 ∧ c3 ≤ 191 : Bool) && validUtf8 rest2
      | _ => false
    else if 241 ≤ b ∧ b ≤ 243 then
      match rest with
      | c1 :: c2 :: c3 :: rest2 =>
        (128 ≤ c1 ∧ c1 ≤ 191 : Bool) && (128 ≤ c2 ∧ c2 ≤ 191 : Bool) &&
          (128 ≤ c3 ∧ c3 ≤ 191 : Bool) && validUtf8 rest2
      | _ => false
    else if b = 244 then
      match rest with
      | c1 :: c2 :: c3 :: rest2 =>
        (128 ≤ c1 ∧ c1 ≤ 143 : Bool) && (128 ≤ c2 ∧ c2 ≤ 191 : Bool) &&
          (128 ≤ c3 ∧ c3 ≤ 191 : Bool) && validUtf8 rest2
      | _ => false
    else false

/-- Steps 2-5 of guessTextCodec (parts.go:230-257): a charset is returned
when its decode FAILS (the err checks at parts.go:233 and 243 test err !=
nil before returning the charset); nil is returned when both us-ascii and
utf8 decode without error, because the err of step 5 (parts.go:253) is the
nil utf8 error of step 3. -/
def guessTail (body : GoStr) : Option GoStr :=
  if ¬ usAsciiOk body then some (gs "us-ascii")
  else if ¬ validUtf8 body then some (gs "utf8")
  else none

/-- guessTextCodec (parts.go:217-258). The iso-2022-jp decoder is outside
the sources, so the outcome of its decode (true = error) is a parameter; it
is consulted only behind the ESC lead-sequence guard of parts.go:221-223.
The indexes body[0..2] are unguarded in the source, with Go short-circuit
evaluation; the outer none models the index panic on too-short bodies. -/
def guessTextCodec (isoErr : Bool) (body : GoStr) : Option (Option GoStr) :=
  if body.length = 0 then none
  else if byteAt body 0 = 27 then
    if body.length ≤ 1 then none
    else if byteAt body 1 = 40 ∨ byteAt body 1 = 36 then
      if body.length ≤ 2 then none
      else if byteAt body 2 = 66 ∨ byteAt body 2 = 74 ∨ byteAt body 2 = 64 then
        if isoErr then some (some (gs "iso-2022-jp")) else some (guessTail body)
      else some (guessTail body)
    else some (guessTail body)
  else some (guessTail body)

/-- C8: on the two-character UTF-8 text body he-acute ([104, 195, 169]),
whatever the iso-2022-jp decoder would say, guessTextCodec returns
us-ascii, the charset whose decode FAILS on this body, although utf8
decodes it without error. The claim says the first successfully decoding
charset (here utf-8) is adopted; the err != nil conditions of
parts.go:232-235 and 242-246 are inverted, so the guesser proposes exactly
the charsets that cannot decode the body. -/
theorem c8_guess_returns_failing_charset :
    ∀ isoErr : Bool,
      guessTextCodec isoErr [104, 195, 169] = some (some (gs "us-ascii")) ∧
      usAsciiOk [104, 195, 169] = false ∧
      validUtf8 [104, 195, 169] = true := by
  intro isoErr
  exact ⟨rfl, by decide, by decide⟩

/-- Modelled from the spec: the codec registry maps an IANA-style charset
name to a decoder that errors on invalid sequences; go-charset is outside
the sources. The names needed here: us-ascii passes bytes through, erring
on bytes above 127; utf-8 validates and passes bytes through; other names
are unknown to the registry (NewReader fails). -/
def csKnown (name : GoStr) : Bool :=
  name = gs "us-ascii" || name = gs "utf-8" || name = gs "utf8"

/-- Modelled from the spec: registry decoding, none when the decoder errors
(see csKnown). -/
def csDecode (name : GoStr) (s : GoStr) : Option GoStr :=
  if name = gs "us-ascii" then (if usAsciiOk s then some s else none)
  else if name = gs "utf-8" || name = gs "utf8" then
    (if validUtf8 s then some s else none)
  else none

/-- One saved parser state (parser.go:14-20): cursor, error flag and mark
number. The Go error value is modelled by whether it is non-nil. -/
structure PState where
  pat : Nat
  perr : Bool
  pmark : Nat
deriving DecidableEq, Repr

/-- The parser (parser.go:32-43): input string and the stack of parser
states, newest first; the head is the current state. lc is the last-comment
slot of the revised parser, read by parseMimeVersion; it lives outside the
state stack, so restore does not revert it. -/
structure ParserS where
  str : GoStr
  stack : List PState
  lc : GoStr
deriving DecidableEq, Repr

/-- NewParser (parser.go:40-43). -/
def newParser (s : GoStr) : ParserS := ⟨s, [⟨0, false, 1⟩], []⟩

/-- The current parser state. -/
def pcur (p : ParserS) : PState := p.stack.headD ⟨0, false, 1⟩

/-- Replace the current parser state. -/
def pSetCur (p : ParserS) (st : PState) : ParserS := ⟨p.str, st :: p.stack.tail, p.lc⟩

/-- pos (parser.go:281-283). -/
def pAt (p : ParserS) : Nat := (pcur p).pat

/-- Valid (parser.go:370-372). -/
def pValid (p : ParserS) : Bool := ¬ (pcur p).perr

/-- NextChar (parser.go:288-294): 0 past the end. -/
def pNextChar (p : ParserS) : Nat :=
  if p.str.length ≤ pAt p then 0 else byteAt p.str (pAt p)

/-- Step (parser.go:297-299). -/
def pStep (p : ParserS) (n : Nat) : ParserS :=
  pSetCur p ⟨pAt p + n, (pcur p).perr, (pcur p).pmark⟩

/-- Setting p.err to a non-nil error. -/
def pSetErr (p : ParserS) : ParserS :=
  pSetCur p ⟨pAt p, true, (pcur p).pmark⟩

/-- mark (parser.go:353-356 with newParserState, parser.go:22-30): pushes a
fresh state that copies the cursor but not the error, and returns the mark
of the previous state. -/
def pMark (p : ParserS) : ParserS × Nat :=
  let c := pcur p
  (⟨p.str, ⟨c.pat, false, c.pmark + 1⟩ :: p.stack, p.lc⟩, c.pmark)

/-- restore (parser.go:360-368): pop states until the one numbered m; no
change when no state carries that mark. -/
def pRestore (p : ParserS) (m : Nat) : ParserS :=
  match p.stack.findIdx? (fun st => st.pmark == m) with
  | some i => ⟨p.str, p.stack.drop i, p.lc⟩
  | none => p

/-- Present (parser.go:304-321): case-insensitive match that advances on
success. -/
def pPresent (p : ParserS) (s : GoStr) : ParserS × Bool :=
  if s = [] then (p, true)
  else if p.str.length < pAt p + s.length then (p, false)
  else if toLowerG ((p.str.drop (pAt p)).take s.length) = toLowerG s then
    (pStep p s.length, true)
  else (p, false)

/-- require (parser.go:326-330). -/
def pRequire (p : ParserS) (s : GoStr) : ParserS :=
  let r := pPresent p s
  if r.2 then r.1 else pSetErr r.1

/-- A NextChar/Step scanning loop of the parser, collecting the bytes that
satisfy cond; fuel-indexed, one cursor step per unit of fuel. -/
def pScanGo (str : GoStr) (cond : Nat → Bool) : Nat → Nat → GoStr × Nat
  | 0, i => ([], i)
  | fuel + 1, i =>
    let c := if str.length ≤ i then 0 else byteAt str i
    if cond c then
      let r := pScanGo str cond fuel (i + 1)
      (c :: r.1, r.2)
    else ([], i)

/-- Run a scanning loop from the parser cursor. -/
def pScan (p : ParserS) (cond : Nat → Bool) : GoStr × ParserS :=
  let r := pScanGo p.str cond (p.str.length + 1) (pAt p)
  (r.1, pSetCur p ⟨r.2, (pcur p).perr, (pcur p).pmark⟩)

/-- The three encoded-text contexts (parser.go:60-66). -/
inductive EncodedTextType | text | comment | phrase
deriving DecidableEq, Repr

/-- The charset-name character class of encodedWord (parser.go:94-98). -/
def ewCsChar (c : Nat) : Bool := decide (
  32 < c ∧ c < 128 ∧ c ≠ 40 ∧ c ≠ 41 ∧ c ≠ 60 ∧ c ≠ 62 ∧ c ≠ 64 ∧
  c ≠ 44 ∧ c ≠ 59 ∧ c ≠ 58 ∧ c ≠ 91 ∧ c ≠ 93 ∧ c ≠ 63 ∧ c ≠ 61 ∧
  c ≠ 92 ∧ c ≠ 34 ∧ c ≠ 47 ∧ c ≠ 46)

/-- The base64 encoded-text character class (parser.go:125-128). -/
def ewB64Char (c : Nat) : Bool := decide (
  (48 ≤ c ∧ c ≤ 57) ∨ (97 ≤ c ∧ c ≤ 122) ∨ (65 ≤ c ∧ c ≤ 90) ∨
  c = 43 ∨ c = 47 ∨ c = 61)

/-- The q-encoded encoded-text character class (parser.go:134-143),
depending on the context t. -/
def ewQChar (t : EncodedTextType) (c : Nat) : Bool := decide (
  32 < c ∧ c < 128 ∧ c ≠ 63 ∧
  (t ≠ EncodedTextType.comment ∨ (c ≠ 40 ∧ c ≠ 41 ∧ c ≠ 92)) ∧
  (t ≠ EncodedTextType.phrase ∨ (48 ≤ c ∧ c ≤ 57) ∨ (97 ≤ c ∧ c ≤ 122) ∨
    (65 ≤ c ∧ c ≤ 90) ∨ c = 33 ∨ c = 42 ∨ c = 45 ∨ c = 47 ∨ c = 61 ∨
    c = 95 ∨ c = 39))

/-- Go strings.Split on a nonempty separator, fuel-indexed. -/
def splitSubG (sep : GoStr) : Nat → GoStr → List GoStr
  | 0, s => [s]
  | fuel + 1, s =>
    match indexSub s sep with
    | none => [s]
    | some i => s.take i :: splitSubG sep fuel (s.drop (i + sep.length))

/-- section (strings.go:222-233). -/
def sectionG (str s : GoStr) (n : Nat) : GoStr :=
  if s = [] ∨ n = 0 then str
  else
    let parts := splitSubG s (str.length + 1) str
    if n ≤ parts.length then parts.getD (n - 1) [] else []

/-- The loop that excises byte 8 from the decoded word (parser.go:183-196).
The loop variable i is the result of IndexByte over the sliced string
result[i:], so it is relative to the slice though it is then used as an
absolute index; the byte before position i is removed along with the byte
at i when i exceeds 1. Each pass shortens the string, so fuel = length + 1
suffices. -/
def excise8 : Nat → GoStr → Nat → GoStr
  | 0, result, _ => result
  | fuel + 1, result, i =>
    match indexByteG (result.drop i) 8 with
    | none => result
    | some j =>
      let s := result.drop (j + 1)
      let result2 := if 1 < j then result.take (j - 1) ++ s else s
      excise8 fuel result2 j

/-- encodedWord (parser.go:82-199). Fallible external work is the charset
conversion (csDecode, modelled from the spec); the outer none is the
runtime panic of the simplify call at parser.go:180 on an all-whitespace
result. Returns the parser and the decoded text. -/
def encodedWordP (p0 : ParserS) (t : EncodedTextType) : Option (ParserS × GoStr) :=
  let pm := pMark p0
  let m := pm.2
  let p := pRequire pm.1 (gs "=?")
  if ¬ pValid p then some (pRestore p m, [])
  else
    let sc := pScan p ewCsChar
    let cs0 := sc.1
    let p := sc.2
    let cs := if containsG cs0 [42] then sectionG cs0 [42] 1 else cs0
    let p := pRequire p (gs "?")
    let pq := pPresent p (gs "q")
    let encP :=
      if pq.2 then (pq.1, EncodingType.qpEncoding)
      else
        let pb := pPresent pq.1 (gs "b")
        if pb.2 then (pb.1, EncodingType.base64Encoding)
        else (pSetErr pb.1, EncodingType.qpEncoding)
    let p := pRequire encP.1 (gs "?")
    let ts := if encP.2 = EncodingType.base64Encoding then pScan p ewB64Char
      else pScan p (ewQChar t)
    let txt := ts.1
    let p := pRequire ts.2 (gs "?=")
    if ¬ pValid p then some (pRestore p m, [])
    else
      let text := if encP.2 = EncodingType.qpEncoding then deQP txt false else de64 txt
      if ¬ csKnown cs then some (pRestore (pSetErr p) m, [])
      else
        match csDecode cs text with
        | none => some (pRestore (pSetErr p) m, [])
        | some bs =>
          match (if containsG bs [13] || containsG bs [10] then simplify bs else some bs) with
          | none => none
          | some result =>
            let result2 := if (indexByteG result 8).isSome
              then excise8 (result.length + 1) result 0 else result
            some (p, result2)

/-- C9: the encoded-word =?us-ascii?q?a=7Fb?= decodes to a, DEL, b, and
encodedWord returns the DEL byte 127 untouched: the excision block of
parser.go:183-196 scans for byte 8 (backspace), not byte 127, so no DEL is
ever removed; and on =?us-ascii?q?ab=08c?= (decoded a, b, backspace, c)
that block removes the backspace AND the preceding b, returning a, c. The
claim says exactly the DEL bytes are excised and nothing else. -/
theorem c9_encodedWord_keeps_del :
    (encodedWordP (newParser (gs "=?us-ascii?q?a=7Fb?=")) EncodedTextType.text).map
        (fun r => r.2) = some [97, 127, 98] ∧
    (encodedWordP (newParser (gs "=?us-ascii?q?ab=08c?=")) EncodedTextType.text).map
        (fun r => r.2) = some [97, 99] := by decide

/-- The double-escape skipping loop of isQuoted (strings.go:28-31),
fuel-indexed. -/
def isQuotedScan (str : GoStr) (q : Nat) : Nat → Nat → Nat
  | _, 0 => 0
  | i, fuel + 1 =>
    if 1 < i ∧ byteAt str i = q ∧ byteAt str (i-1) = q then
      isQuotedScan str q (i - 2) fuel
    else i

/-- isQuoted (strings.go:23-41). -/
def isQuotedG (str : GoStr) (c q : Nat) : Bool :=
  if str.length < 2 ∨ byteAt str 0 ≠ c ∨ byteAt str (str.length - 1) ≠ c then false
  else
    let i := isQuotedScan str q (str.length - 2) (str.length + 1)
    if i = 0 then true
    else if byteAt str i = q then false
    else true

/-- The loop of unquote (strings.go:55-61), fuel-indexed. -/
def unquoteScan (str : GoStr) (q : Nat) : Nat → Nat → GoStr
  | _, 0 => []
  | i, fuel + 1 =>
    if i < str.length - 1 then
      if byteAt str i = q then
        byteAt str (i+1) :: unquoteScan str q (i + 2) fuel
      else byteAt str i :: unquoteScan str q (i + 1) fuel
    else []

/-- unquote (strings.go:49-63). -/
def unquoteG (str : GoStr) (c q : Nat) : GoStr :=
  if ¬ isQuotedG str c q then str
  else unquoteScan str q 1 (str.length + 1)

/-- quote (strings.go:67-83). -/
def quoteG (str : GoStr) (c q : Nat) : GoStr :=
  [c] ++ str.foldr (fun ch acc => (if ch = c ∨ ch = q then [q, ch] else [ch]) ++ acc) [] ++ [c]

/-- ascii (strings.go:842-857): printable ASCII kept, everything else
becomes a question mark. -/
def asciiG (s : GoStr) : GoStr :=
  s.map (fun b => if 32 ≤ b ∧ b < 127 then b else 63)

/-- isAscii (strings.go:822-838). -/
def isAsciiG (s : GoStr) : Bool :=
  s.all (fun b => ¬ (128 ≤ b ∨ (b < 32 ∧ b ≠ 9 ∧ b ≠ 10 ∧ b ≠ 13)))

/-- isBoring with the TotallyBoring class (strings.go:863-889): nonempty and
only letters, digits and the six listed specials. -/
def isBoringG (s : GoStr) : Bool :=
  s ≠ [] && s.all (fun b =>
    (97 ≤ b ∧ b ≤ 122) ∨ (65 ≤ b ∧ b ≤ 90) ∨ (48 ≤ b ∧ b ≤ 57) ∨
    b = 33 ∨ b = 35 ∨ b = 36 ∨ b = 38 ∨ b = 43 ∨ b = 45)

/-- The loop of localpartIsSensible (addresses.go:169-192), fuel-indexed. -/
def lpSensScan (lp : GoStr) : Nat → Nat → Option Bool
  | _, 0 => some true
  | i, fuel + 1 =>
    if i < lp.length then
      let c := byteAt lp i
      if c = 46 then
        match goIdx lp (i+1) with
        | none => none
        | some c2 => if c2 = 46 then some false else lpSensScan lp (i+1) fuel
      else if (97 ≤ c ∧ c ≤ 122) ∨ (65 ≤ c ∧ c ≤ 90) ∨ (48 ≤ c ∧ c ≤ 57) ∨
          c = 33 ∨ c = 35 ∨ c = 36 ∨ c = 37 ∨ c = 38 ∨ c = 39 ∨ c = 42 ∨
          c = 43 ∨ c = 45 ∨ c = 47 ∨ c = 61 ∨ c = 63 ∨ c = 94 ∨ c = 95 ∨
          c = 96 ∨ c = 123 ∨ c = 124 ∨ c = 125 ∨ c = 126 ∨ 161 ≤ c then
        lpSensScan lp (i+1) fuel
      else some false
    else some true

/-- localpartIsSensible (addresses.go:165-194). The i+1 read after a dot is
unguarded in the source and panics on a trailing dot; none models that. -/
def localpartIsSensible (a : Address) : Option Bool :=
  if a.localpart = [] then some false
  else lpSensScan a.localpart 0 (a.localpart.length + 1)

/-- Go strings.Split on a single-byte separator. -/
def splitByteG (sep : Nat) (s : GoStr) : List GoStr := s.splitOn sep

/-- encodeWord (strings.go:774-818): the encoding proper is commented out in
the source; the function returns its input (or an empty string). -/
def encodeWord (w : GoStr) : GoStr := w

/-- Go indexing into a list of strings; none is the panic. -/
def goIdxList (ws : List GoStr) (i : Nat) : Option GoStr :=
  if i < ws.length then some (ws.getD i []) else none

/-- The inner gobbling loop of encodePhrase (strings.go:744-747): advances i
past maximal non-boring words; returns the index read afterwards. -/
def encPhraseGobble (words : List GoStr) : Nat → Nat → Nat
  | i, 0 => i
  | i, fuel + 1 =>
    if i < words.length ∧
        ¬ (isAsciiG (words.getD i []) ∧ isBoringG (asciiG (words.getD i []))) then
      encPhraseGobble words (i + 1) fuel
    else i

/-- The word loop of encodePhrase, fuel-indexed; buf is the output so far. -/
def encPhraseLoop (words : List GoStr) : Nat → Nat → GoStr → Option GoStr
  | _, 0, buf => some buf
  | i, fuel + 1, buf =>
    if i < words.length then
      let w := words.getD i []
      let buf := if i > 0 then buf ++ [32] else buf
      if isAsciiG w ∧ isBoringG (asciiG w) then
        encPhraseLoop words (i + 1) fuel (buf ++ asciiG w)
      else
        let j := encPhraseGobble words i (words.length + 1)
        match goIdxList words j with
        | none => none
        | some wj => encPhraseLoop words (j + 1) fuel (buf ++ encodeWord wj)
    else some buf

/-- encodePhrase (strings.go:727-750). The none cases model the runtime
panics of the source: the simplify call on all-whitespace input, and the
words[i] read after the gobbling loop of strings.go:744-747, which runs i
past the end of words when no boring word follows. -/
def encodePhrase (s : GoStr) : Option GoStr :=
  match simplify s with
  | none => none
  | some simp =>
    let words := splitByteG 32 simp
    encPhraseLoop words 0 (words.length + 1) []

/-- Address.Name (addresses.go:54-95). -/
def addressName (a : Address) (avoidUtf8 : Bool) : Option GoStr :=
  let atom := a.name.all (fun c =>
    (97 ≤ c ∧ c ≤ 122) ∨ (65 ≤ c ∧ c ≤ 90) ∨ (48 ≤ c ∧ c ≤ 57) ∨
    c = 33 ∨ c = 35 ∨ c = 36 ∨ c = 37 ∨ c = 38 ∨ c = 39 ∨ c = 42 ∨
    c = 43 ∨ c = 45 ∨ c = 47 ∨ c = 61 ∨ c = 63 ∨ c = 94 ∨ c = 95 ∨
    c = 96 ∨ c = 123 ∨ c = 124 ∨ c = 125 ∨ c = 126 ∨ c = 32 ∨
    (128 ≤ c ∧ ¬ avoidUtf8))
  let ascii := a.name.all (fun c => c < 128)
  if atom ∨ a.name.length = 0 then some a.name
  else if ascii ∨ ¬ avoidUtf8 then some (quoteG a.name 34 92)
  else encodePhrase a.name

/-- Address.toString (addresses.go:120-160). encodePhrase (reachable through
Name) can panic, hence the Option. -/
def addressToString (a : Address) (avoidUtf8 : Bool) : Option GoStr :=
  match a.t with
  | AddressType.invalid => some []
  | AddressType.bounce => some (gs "<>")
  | AddressType.emptyGroup =>
    match addressName a true with
    | some n => some (n ++ gs ":;")
    | none => none
  | AddressType.local =>
    if avoidUtf8 ∧ ¬ (isAsciiG a.localpart ∧ isAsciiG a.domain) then
      some (gs "this-address@needs-unicode.invalid")
    else
      match localpartIsSensible a with
      | none => none
      | some true => some a.localpart
      | some false => some (quoteG a.localpart 34 39)
  | AddressType.normal =>
    if avoidUtf8 ∧ ¬ (isAsciiG a.localpart ∧ isAsciiG a.domain) then
      some (gs "this-address@needs-unicode.invalid")
    else
      match (if a.name ≠ [] then addressName a avoidUtf8 else some []),
          localpartIsSensible a with
      | some nm, some sens =>
        let pre := if a.name ≠ [] then nm ++ gs " <" else []
        let post := if a.name ≠ [] then gs ">" else []
        some (pre ++ (if sens then a.localpart else quoteG a.localpart 34 39) ++
          [64] ++ a.domain ++ post)
      | _, _ => none

/-- Address.lpdomain (addresses.go:99-115). -/
def lpdomain (a : Address) : Option GoStr :=
  let r0 : Option GoStr :=
    if a.t = AddressType.normal ∨ a.t = AddressType.local then
      match localpartIsSensible a with
      | none => none
      | some true => some a.localpart
      | some false => some (quoteG a.localpart 34 39)
    else some []
  match r0 with
  | none => none
  | some r1 =>
    let r2 := if a.t = AddressType.normal then r1 ++ [64] ++ a.domain else r1
    if r2 = [] then addressToString a false else some r2

/-- The key of Addresses.Uniquify (addresses.go:1294-1296). -/
def uniqKey (a : Address) : GoStr := toTitleG a.localpart ++ [64] ++ toTitleG a.domain

/-- One element step of Uniquify (addresses.go:1302-1311): new keys are
appended; a duplicate replaces the stored address when the stored one has no
display-name and the new one does. -/
def uniquifyStep (unique : List Address) (a : Address) : List Address :=
  match unique.findIdx? (fun u => uniqKey u == uniqKey a) with
  | some ix =>
    match unique.get? ix with
    | some u => if u.name = [] ∧ a.name ≠ [] then unique.set ix a else unique
    | none => unique
  | none => unique ++ [a]

/-- Addresses.Uniquify (addresses.go:1293-1315). -/
def uniquifyGo (as : List Address) : List Address :=
  if as.length = 0 then as else as.foldl uniquifyStep []

/-- The key of sameAddresses (header.go:347): the raw localpart with the
title-cased domain. -/
def saKey (a : Address) : GoStr := a.localpart ++ [64] ++ toTitleG a.domain

/-- sameAddresses (header.go:329-372). Note that the source builds both
lookup maps from the FIRST list (the loop at header.go:352-355 ranges over
l), so the first subset check is vacuous. An empty list stands for the nil
slice. -/
def sameAddresses (a b : Option Field) : Bool :=
  match a, b with
  | some fa, some fb =>
    let l := fa.addrList
    let m := fb.addrList
    if l = [] ∨ m = [] then false
    else if l.length ≠ m.length then false
    else
      let lkeys := l.map saKey
      let mkeys := l.map saKey
      (l.all (fun x => mkeys.contains (saKey x))) &&
      (m.all (fun x => lkeys.contains (saKey x)))
  | _, _ => false

/-- Modelled from the spec: Fields.RemoveAllNamed is called throughout
Simplify and Repair (header.go:393 and onward) but declared outside the
available sources; the spec says every field with that name is removed. -/
def removeAllNamed (fields : List Field) (n : GoStr) : List Field :=
  fields.filter (fun f => ¬ (f.name = n))

/-- Replace the first field with the given name (the effect of mutating
through the pointer returned by Header.field/addressField). -/
def updateFirstNamed : List Field → GoStr → (Field → Field) → List Field
  | [], _, _ => []
  | f :: rest, fn, upd =>
    if f.name = fn then upd f :: rest else f :: updateFirstNamed rest fn upd

/-- Uniquify applied through an AddressField pointer; fields of other
variants are left alone, matching the nil addressField for them. -/
def uniquifyField (f : Field) : Field :=
  match f.data with
  | FieldData.address as => { f with data := FieldData.address (uniquifyGo as) }
  | _ => f

/-- The Type of a ContentType field. -/
def ctType (f : Field) : GoStr :=
  match f.data with | FieldData.contentType t _ _ => t | _ => []

/-- The Subtype of a ContentType field. -/
def ctSubtype (f : Field) : GoStr :=
  match f.data with | FieldData.contentType _ st _ => st | _ => []

/-- The Parameters of a ContentType field. -/
def ctParams (f : Field) : List (GoStr × GoStr) :=
  match f.data with | FieldData.contentType _ _ ps => ps | _ => []

/-- The Disposition of a ContentDisposition field. -/
def cdDisposition (f : Field) : GoStr :=
  match f.data with | FieldData.contentDisposition d _ => d | _ => []

/-- The Parameters of a ContentDisposition field. -/
def cdParams (f : Field) : List (GoStr × GoStr) :=
  match f.data with | FieldData.contentDisposition _ ps => ps | _ => []

/-- The Encoding of a ContentTransferEncoding field. -/
def cteEncoding (f : Field) : Option EncodingType :=
  match f.data with | FieldData.cte e => some e | _ => none

/-- Modelled from the spec: ContentType.removeParameter is called at
header.go:442 but declared outside the available sources; the spec says the
charset parameter is removed from the Content-Type, so it deletes the
parameter with the given name from the Parameters list. -/
def removeParameter (f : Field) (n : GoStr) : Field :=
  match f.data with
  | FieldData.contentType t st ps =>
    { f with data := FieldData.contentType t st (ps.filter (fun p => ¬ (p.1 = n))) }
  | _ => f

/-- The address field lookup on a plain field list (Header.addressField,
header.go:154-164). -/
def afIn (fields : List Field) (fn : GoStr) (n : Nat) : Option Field :=
  if fn ∈ addressFieldNames then
    match fieldIn fields fn n with
    | some f => match f.data with | FieldData.address _ => some f | _ => none
    | none => none
  else none

/-- Header.addresses on a plain field list (header.go:180-190). -/
def addrsIn (fields : List Field) (fn : GoStr) : List Address :=
  match afIn fields fn 0 with
  | some f => f.addrList
  | none => []

/-- The field built by NewHeaderField("Content-Type", "message/rfc822") at
header.go:423: parsing that constant value (fields.go:1290-1308) yields a
valid ContentType field with Type message, Subtype rfc822 and no
parameters; rfc822() returns the stored value. -/
def ctMessageRfc822 (i : Nat) : Field :=
  ⟨i, ContentTypeFieldName, gs "message/rfc822", [], gs "message/rfc822", true,
   FieldData.contentType (gs "message") (gs "rfc822") []⟩

/-- The field built by NewHeaderField("Mime-Version", "1.0") at
header.go:435: parseMimeVersion (fields.go:241-255) stores the value 1.0
and never records an error. -/
def mvField (i : Nat) : Field :=
  ⟨i, MimeVersionFieldName, gs "1.0", [], gs "1.0", true, FieldData.plain⟩

/-- Simplify step 1 (header.go:385-390): Uniquify the first address field of
every address field name. -/
def simpStage1 (fs : List Field) : List Field :=
  addressFieldNames.foldl (fun a fn => updateFirstNamed a fn uniquifyField) fs

/-- Simplify step 2 (header.go:392-396): drop an empty Content-Description. -/
def simpStage2 (fs : List Field) : List Field :=
  match fieldIn fs ContentDescriptionFieldName 0 with
  | some f => if f.rfc822s = [] then removeAllNamed fs ContentDescriptionFieldName else fs
  | none => fs

/-- Simplify step 3 (header.go:398-401): drop a binary
Content-Transfer-Encoding. -/
def simpStage3 (fs : List Field) : List Field :=
  match fieldIn fs ContentTransferEncodingFieldName 0 with
  | some f =>
    if cteEncoding f = some EncodingType.binaryEncoding then
      removeAllNamed fs ContentTransferEncodingFieldName
    else fs
  | none => fs

/-- Simplify step 4 (header.go:403-412): drop a bare inline
Content-Disposition on text in RFC 5322 mode. -/
def simpStage4 (mode : HeaderMode) (fs : List Field) : List Field :=
  match fieldIn fs ContentDispositionFieldName 0 with
  | some f =>
    let ctOk : Bool := match fieldIn fs ContentTypeFieldName 0 with
      | none => true
      | some g => decide (ctType g = gs "text")
    if mode = HeaderMode.rfc5322 ∧ ctOk = true ∧ cdDisposition f = gs "inline" ∧ cdParams f = []
    then removeAllNamed fs ContentDispositionFieldName
    else fs
  | none => fs

/-- Simplify step 5 (header.go:414-425): drop a default text/plain
Content-Type, or ADD Content-Type: message/rfc822 when the default type
asks for it; returns the fields, the ct pointer of the source, and the next
fresh id. -/
def simpStage5 (dt : DefaultCT) (cteNil cdeNil cdiNil : Bool) (fs : List Field)
    (nid : Nat) : List Field × Option Field × Nat :=
  match fieldIn fs ContentTypeFieldName 0 with
  | some f =>
    if ctParams f = [] ∧ cteNil ∧ cdiNil ∧ cdeNil ∧ dt = DefaultCT.textPlain ∧
        ctType f = gs "text" ∧ ctSubtype f = gs "plain" then
      (removeAllNamed fs ContentTypeFieldName, none, nid)
    else (fs, some f, nid)
  | none =>
    if dt = DefaultCT.messageRfc822 then
      (fs ++ [ctMessageRfc822 nid], some (ctMessageRfc822 nid), nid + 1)
    else (fs, none, nid)

/-- Simplify step 6 (header.go:427-437): remove Mime-Version in MIME mode or
when no MIME field is left, otherwise ADD Mime-Version: 1.0 in RFC 5322
mode when none is present. -/
def simpStage6 (mode : HeaderMode) (ctNil cteNil cdeNil cdiNil : Bool)
    (fs : List Field) (nid : Nat) : List Field × Nat :=
  if mode = HeaderMode.mime then (removeAllNamed fs MimeVersionFieldName, nid)
  else if ctNil ∧ cteNil ∧ cdeNil ∧ cdiNil ∧
      (fieldIn fs ContentLocationFieldName 0).isNone ∧
      (fieldIn fs ContentBaseFieldName 0).isNone then
    (removeAllNamed fs MimeVersionFieldName, nid)
  else if mode = HeaderMode.rfc5322 ∧ (fieldIn fs MimeVersionFieldName 0).isNone then
    (fs ++ [mvField nid], nid + 1)
  else (fs, nid)

/-- Simplify step 7 (header.go:438-443): remove the charset parameter from
multipart, message, image, audio and video Content-Types. The ct pointer of
the source aliases the first Content-Type field. -/
def simpStage7 (ctf : Option Field) (fs : List Field) : List Field :=
  match ctf with
  | some f =>
    if ctType f = gs "multipart" ∨ ctType f = gs "message" ∨ ctType f = gs "image" ∨
        ctType f = gs "audio" ∨ ctType f = gs "video" then
      updateFirstNamed fs ContentTypeFieldName (fun g => removeParameter g (gs "charset"))
    else fs
  | none => fs

/-- Simplify step 8 (header.go:445-453): drop Errors-To that duplicates the
single Return-Path address; none is a panic inside lpdomain. -/
def simpStage8 (fs : List Field) : Option (List Field) :=
  match fieldIn fs ErrorsToFieldName 0 with
  | some f =>
    let et := asciiG f.value
    let rp := addrsIn fs ReturnPathFieldName
    if rp ≠ [] ∧ rp.length = 1 then
      match rp with
      | a :: _ =>
        match lpdomain a with
        | none => none
        | some lpd =>
          if toLowerG lpd = toLowerG et then
            some (removeAllNamed fs ErrorsToFieldName)
          else some fs
      | [] => some fs
    else some fs
  | none => some fs

/-- Simplify step 9 (header.go:455-458): drop an empty Message-Id. -/
def simpStage9 (fs : List Field) : List Field :=
  match fieldIn fs MessageIdFieldName 0 with
  | some f => if f.rfc822s = [] then removeAllNamed fs MessageIdFieldName else fs
  | none => fs

/-- Simplify step 10 (header.go:460-466): drop Reply-To and Sender that
duplicate From. -/
def simpStage10 (fs : List Field) : List Field :=
  let fs1 := if sameAddresses (afIn fs FromFieldName 0) (afIn fs ReplyToFieldName 0)
    then removeAllNamed fs ReplyToFieldName else fs
  if sameAddresses (afIn fs1 FromFieldName 0) (afIn fs1 SenderFieldName 0)
    then removeAllNamed fs1 SenderFieldName else fs1

/-- One empty-address-list removal of Simplify step 11 (header.go:468-485). -/
def emptyDrop (fs : List Field) (fn : GoStr) : List Field :=
  if addrsIn fs fn = [] then removeAllNamed fs fn else fs

/-- Simplify step 11 (header.go:468-485): drop empty address lists. -/
def simpStage11 (fs : List Field) : List Field :=
  emptyDrop (emptyDrop (emptyDrop (emptyDrop (emptyDrop (emptyDrop fs
    SenderFieldName) ReturnPathFieldName) ToFieldName) CcFieldName)
    BccFieldName) ReplyToFieldName

/-- Header.Simplify (header.go:380-485): the full pipeline. The locals cde,
cte, cdi, ct of the source are captured where the source reads them; cte in
particular keeps pointing at a removed field (header.go:397-401), so its
nil test downstream uses the pre-removal read. none is a runtime panic
(reachable only inside step 8). -/
def Header.simplifyGo (h : Header) : Option Header :=
  if ¬ h.valid then some h
  else
    let fs1 := simpStage1 h.fields
    let fs2 := simpStage2 fs1
    let cdeNil := (fieldIn fs2 ContentDescriptionFieldName 0).isNone
    let cteNil := (fieldIn fs2 ContentTransferEncodingFieldName 0).isNone
    let fs3 := simpStage3 fs2
    let fs4 := simpStage4 h.mode fs3
    let cdiNil := (fieldIn fs4 ContentDispositionFieldName 0).isNone
    let r5 := simpStage5 h.defaultType cteNil cdeNil cdiNil fs4 h.nextId
    let r6 := simpStage6 h.mode r5.2.1.isNone cteNil cdeNil cdiNil r5.1 r5.2.2
    let fs7 := simpStage7 r5.2.1 r6.1
    match simpStage8 fs7 with
    | none => none
    | some fs8 =>
      let fs9 := simpStage9 fs8
      let fs10 := simpStage10 fs9
      let fs11 := simpStage11 fs10
      some ⟨h.mode, h.defaultType, fs11, r6.2⟩

/-- Membership in a filtered field list. -/
theorem mem_removeAllNamed {f : Field} {fs : List Field} {n : GoStr}
    (h : f ∈ removeAllNamed fs n) : f ∈ fs :=
  (List.mem_filter.mp h).1

/-- Occurrence counts after removeAllNamed. -/
theorem occ_removeAllNamed (fs : List Field) (n m : GoStr) :
    occurrences (removeAllNamed fs n) m = if m = n then 0 else occurrences fs m := by
  induction fs with
  | nil => by_cases h : m = n <;> simp [occurrences, removeAllNamed, h]
  | cons f rest ih =>
    by_cases hfn : f.name = n <;> by_cases hfm : f.name = m <;>
      simp_all [occurrences, removeAllNamed, List.filter_cons, hfn, hfm]

/-- Membership after updateFirstNamed. -/
theorem mem_updateFirstNamed {f : Field} {fs : List Field} {fn : GoStr}
    {upd : Field → Field} (h : f ∈ updateFirstNamed fs fn upd) :
    f ∈ fs ∨ ∃ g ∈ fs, f = upd g := by
  induction fs with
  | nil => simp [updateFirstNamed] at h
  | cons g rest ih =>
    simp only [updateFirstNamed] at h
    by_cases hg : g.name = fn
    · rw [if_pos hg] at h
      rcases List.mem_cons.mp h with hh | hh
      · exact Or.inr ⟨g, List.mem_cons_self g rest, hh⟩
      · exact Or.inl (List.mem_cons_of_mem g hh)
    · rw [if_neg hg] at h
      rcases List.mem_cons.mp h with hh | hh
      · exact Or.inl (hh ▸ List.mem_cons_self g rest)
      · rcases ih hh with h1 | ⟨g2, hg2, he⟩
        · exact Or.inl (List.mem_cons_of_mem g h1)
        · exact Or.inr ⟨g2, List.mem_cons_of_mem g hg2, he⟩

/-- Occurrence counts are untouched by a name-preserving update. -/
theorem occ_updateFirstNamed (fs : List Field) (fn : GoStr) (upd : Field → Field)
    (hname : ∀ f, (upd f).name = f.name) (m : GoStr) :
    occurrences (updateFirstNamed fs fn upd) m = occurrences fs m := by
  induction fs with
  | nil => rfl
  | cons g rest ih =>
    simp only [updateFirstNamed]
    by_cases hg : g.name = fn
    · rw [if_pos hg]
      simp only [occurrences, List.filter_cons, hname g]
      by_cases hm : g.name = m <;> simp [hm]
    · rw [if_neg hg]
      simp only [occurrences, List.filter_cons] at ih ⊢
      by_cases hm : g.name = m <;> simp [hm, ih]

/-- Occurrence counts after appending one field. -/
theorem occ_append (fs : List Field) (f : Field) (m : GoStr) :
    occurrences (fs ++ [f]) m = occurrences fs m + (if f.name = m then 1 else 0) := by
  by_cases h : f.name = m <;> simp [occurrences, List.filter_append, h]

/-- A name whose first occurrence is absent has count zero. -/
theorem fieldIn_none_occ (fs : List Field) (n : GoStr)
    (h : fieldIn fs n 0 = none) : occurrences fs n = 0 := by
  induction fs with
  | nil => rfl
  | cons f rest ih =>
    simp only [fieldIn] at h
    by_cases hf : f.name = n
    · rw [if_pos hf] at h
      simp at h
    · rw [if_neg hf] at h
      simp [occurrences, List.filter_cons, hf]
      simpa [occurrences] using ih h

/-- The preserved shape during Simplify: the header stays valid and every
field either descends from the original list (same ghost identity) or is
one of the two fields Simplify may add. -/
def simpInv (h0f : List Field) (mode : HeaderMode) (fs : List Field) : Prop :=
  verifyOk mode fs = true ∧
  ∀ f ∈ fs, (∃ g ∈ h0f, f.id = g.id) ∨
    (f.name = ContentTypeFieldName ∧ f.value = gs "message/rfc822") ∨
    (f.name = MimeVersionFieldName ∧ f.value = gs "1.0")

/-- Removing all fields of a name whose rows have min 0 preserves the
invariant. -/
theorem simpInv_remove {h0f : List Field} {mode : HeaderMode} {fs : List Field}
    (n : GoStr) (hmin : ∀ c ∈ conditions, c.name = n → c.cmin = 0)
    (hi : simpInv h0f mode fs) : simpInv h0f mode (removeAllNamed fs n) := by
  obtain ⟨hv, hsub⟩ := hi
  rw [verifyOk, Bool.and_eq_true, List.all_eq_true, List.all_eq_true] at hv
  obtain ⟨hval, hrows⟩ := hv
  refine ⟨?_, fun f hf => hsub f (mem_removeAllNamed hf)⟩
  rw [verifyOk, Bool.and_eq_true, List.all_eq_true, List.all_eq_true]
  refine ⟨fun f hf => hval f (mem_removeAllNamed hf), fun c hc => ?_⟩
  have hr := hrows c hc
  simp only [Bool.not_eq_true', rowViolated, Bool.or_eq_false_iff,
    Bool.and_eq_false_iff, decide_eq_false_iff_not] at hr ⊢
  rw [occ_removeAllNamed]
  by_cases hcn : c.name = n
  · rw [if_pos hcn]
    have := hmin c hc hcn
    constructor
    · right; omega
    · omega
  · rw [if_neg hcn]
    exact hr

/-- A name-, validity-, id- and value-preserving update of the first field of
a name preserves the invariant. -/
theorem simpInv_update {h0f : List Field} {mode : HeaderMode} {fs : List Field}
    (fn : GoStr) (upd : Field → Field)
    (hupd : ∀ f, (upd f).name = f.name ∧ (upd f).valid = f.valid ∧
      (upd f).id = f.id ∧ (upd f).value = f.value)
    (hi : simpInv h0f mode fs) : simpInv h0f mode (updateFirstNamed fs fn upd) := by
  obtain ⟨hv, hsub⟩ := hi
  rw [verifyOk, Bool.and_eq_true, List.all_eq_true, List.all_eq_true] at hv
  obtain ⟨hval, hrows⟩ := hv
  constructor
  · rw [verifyOk, Bool.and_eq_true, List.all_eq_true, List.all_eq_true]
    refine ⟨fun f hf => ?_, fun c hc => ?_⟩
    · rcases mem_updateFirstNamed hf with h1 | ⟨g, hg, he⟩
      · exact hval f h1
      · rw [he, (hupd g).2.1]
        exact hval g hg
    · have hr := hrows c hc
      simp only [Bool.not_eq_true', rowViolated] at hr ⊢
      rw [occ_updateFirstNamed fs fn upd (fun f => (hupd f).1)]
      exact hr
  · intro f hf
    rcases mem_updateFirstNamed hf with h1 | ⟨g, hg, he⟩
    · exact hsub f h1
    · rcases hsub g hg with ⟨g0, hg0, hid⟩ | hsp | hsp
      · exact Or.inl ⟨g0, hg0, by rw [he, (hupd g).2.2.1, hid]⟩
      · exact Or.inr (Or.inl ⟨by rw [he, (hupd g).1, hsp.1],
          by rw [he, (hupd g).2.2.2, hsp.2]⟩)
      · exact Or.inr (Or.inr ⟨by rw [he, (hupd g).1, hsp.1],
          by rw [he, (hupd g).2.2.2, hsp.2]⟩)

/-- Every Content-Type row of the conditions table has bounds 0 and 1. -/
theorem ct_rows_bounds : ∀ c ∈ conditions,
    c.name = ContentTypeFieldName → c.cmin = 0 ∧ c.cmax = 1 := by decide

/-- Every Mime-Version row of the conditions table has bounds 0 and 1. -/
theorem mv_rows_bounds : ∀ c ∈ conditions,
    c.name = MimeVersionFieldName → c.cmin = 0 ∧ c.cmax = 1 := by decide

/-- Appending a fresh valid field of a name that is absent and all of whose
rows allow one occurrence preserves the invariant, provided the field is one
of the two Simplify may add. -/
theorem simpInv_append {h0f : List Field} {mode : HeaderMode} {fs : List Field}
    (f : Field)
    (hvalid : f.valid = true)
    (hnone : fieldIn fs f.name 0 = none)
    (hrows1 : ∀ c ∈ conditions, c.name = f.name → c.cmin = 0 ∧ c.cmax = 1)
    (hsp : (f.name = ContentTypeFieldName ∧ f.value = gs "message/rfc822") ∨
      (f.name = MimeVersionFieldName ∧ f.value = gs "1.0"))
    (hi : simpInv h0f mode fs) : simpInv h0f mode (fs ++ [f]) := by
  obtain ⟨hv, hsub⟩ := hi
  rw [verifyOk, Bool.and_eq_true, List.all_eq_true, List.all_eq_true] at hv
  obtain ⟨hval, hrows⟩ := hv
  have hocc0 := fieldIn_none_occ fs f.name hnone
  constructor
  · rw [verifyOk, Bool.and_eq_true, List.all_eq_true, List.all_eq_true]
    refine ⟨fun g hg => ?_, fun c hc => ?_⟩
    · rcases List.mem_append.mp hg with h1 | h1
      · exact hval g h1
      · rw [List.mem_singleton.mp h1]
        exact hvalid
    · have hr := hrows c hc
      simp only [Bool.not_eq_true', rowViolated, Bool.or_eq_false_iff,
        Bool.and_eq_false_iff, decide_eq_false_iff_not] at hr ⊢
      rw [occ_append]
      by_cases hcn : f.name = c.name
      · rw [if_pos hcn]
        obtain ⟨hb1, hb2⟩ := hrows1 c hc hcn.symm
        rw [← hcn, hocc0]
        constructor
        · right; omega
        · omega
      · rw [if_neg hcn]
        simpa using hr
  · intro g hg
    rcases List.mem_append.mp hg with h1 | h1
    · exact hsub g h1
    · rw [List.mem_singleton.mp h1]
      exact Or.inr hsp

/-- The attribute-preservation facts of the Uniquify update. -/
theorem uniquifyField_keeps (f : Field) :
    (uniquifyField f).name = f.name ∧ (uniquifyField f).valid = f.valid ∧
    (uniquifyField f).id = f.id ∧ (uniquifyField f).value = f.value := by
  cases hd : f.data <;> simp [uniquifyField, hd]

/-- The attribute-preservation facts of the removeParameter update. -/
theorem removeParameter_keeps (n : GoStr) (f : Field) :
    (removeParameter f n).name = f.name ∧ (removeParameter f n).valid = f.valid ∧
    (removeParameter f n).id = f.id ∧ (removeParameter f n).value = f.value := by
  cases hd : f.data <;> simp [removeParameter, hd]

/-- Step 1 preserves the invariant. -/
theorem simpInv_stage1 {h0f : List Field} {mode : HeaderMode} {fs : List Field}
    (hi : simpInv h0f mode fs) : simpInv h0f mode (simpStage1 fs) := by
  rw [simpStage1]
  generalize addressFieldNames = l
  induction l generalizing fs with
  | nil => exact hi
  | cons fn rest ih =>
    exact ih (simpInv_update fn uniquifyField uniquifyField_keeps hi)

/-- Step 2 preserves the invariant. -/
theorem simpInv_stage2 {h0f : List Field} {mode : HeaderMode} {fs : List Field}
    (hi : simpInv h0f mode fs) : simpInv h0f mode (simpStage2 fs) := by
  rw [simpStage2]
  split
  · split
    · exact simpInv_remove ContentDescriptionFieldName (by decide) hi
    · exact hi
  · exact hi

/-- Step 3 preserves the invariant. -/
theorem simpInv_stage3 {h0f : List Field} {mode : HeaderMode} {fs : List Field}
    (hi : simpInv h0f mode fs) : simpInv h0f mode (simpStage3 fs) := by
  rw [simpStage3]
  split
  · split
    · exact simpInv_remove ContentTransferEncodingFieldName (by decide) hi
    · exact hi
  · exact hi

/-- Step 4 preserves the invariant. -/
theorem simpInv_stage4 {h0f : List Field} {mode : HeaderMode} {fs : List Field}
    (m2 : HeaderMode) (hi : simpInv h0f mode fs) :
    simpInv h0f mode (simpStage4 m2 fs) := by
  rw [simpStage4]
  split
  · dsimp only
    split
    · exact simpInv_remove ContentDispositionFieldName (by decide) hi
    · exact hi
  · exact hi

/-- Step 5 preserves the invariant. -/
theorem simpInv_stage5 {h0f : List Field} {mode : HeaderMode} {fs : List Field}
    (dt : DefaultCT) (a b c : Bool) (nid : Nat) (hi : simpInv h0f mode fs) :
    simpInv h0f mode (simpStage5 dt a b c fs nid).1 := by
  rw [simpStage5]
  split
  · split
    · exact simpInv_remove ContentTypeFieldName (by decide) hi
    · exact hi
  · split
    · rename_i hnone _
      exact simpInv_append _ rfl hnone ct_rows_bounds (Or.inl ⟨rfl, rfl⟩) hi
    · exact hi

/-- Step 6 preserves the invariant. -/
theorem simpInv_stage6 {h0f : List Field} {mode : HeaderMode} {fs : List Field}
    (m2 : HeaderMode) (a b c d : Bool) (nid : Nat) (hi : simpInv h0f mode fs) :
    simpInv h0f mode (simpStage6 m2 a b c d fs nid).1 := by
  rw [simpStage6]
  split
  · exact simpInv_remove MimeVersionFieldName (by decide) hi
  · split
    · exact simpInv_remove MimeVersionFieldName (by decide) hi
    · split
      · rename_i hcond
        exact simpInv_append _ rfl (Option.isNone_iff_eq_none.mp hcond.2)
          mv_rows_bounds (Or.inr ⟨rfl, rfl⟩) hi
      · exact hi

/-- Step 7 preserves the invariant. -/
theorem simpInv_stage7 {h0f : List Field} {mode : HeaderMode} {fs : List Field}
    (ctf : Option Field) (hi : simpInv h0f mode fs) :
    simpInv h0f mode (simpStage7 ctf fs) := by
  unfold simpStage7
  split
  · split
    · exact simpInv_update _ _ (removeParameter_keeps _) hi
    · exact hi
  · exact hi

/-- Step 8 preserves the invariant when it completes. -/
theorem simpInv_stage8 {h0f : List Field} {mode : HeaderMode} {fs fs2 : List Field}
    (hs : simpStage8 fs = some fs2) (hi : simpInv h0f mode fs) :
    simpInv h0f mode fs2 := by
  rw [simpStage8] at hs
  split at hs
  · simp only [] at hs
    split at hs
    · split at hs
      · split at hs
        · simp at hs
        · split at hs
          · rw [← Option.some_inj.mp hs]
            exact simpInv_remove ErrorsToFieldName (by decide) hi
          · rw [← Option.some_inj.mp hs]
            exact hi
      · rw [← Option.some_inj.mp hs]
        exact hi
    · rw [← Option.some_inj.mp hs]
      exact hi
  · rw [← Option.some_inj.mp hs]
    exact hi

/-- Step 9 preserves the invariant. -/
theorem simpInv_stage9 {h0f : List Field} {mode : HeaderMode} {fs : List Field}
    (hi : simpInv h0f mode fs) : simpInv h0f mode (simpStage9 fs) := by
  rw [simpStage9]
  split
  · split
    · exact simpInv_remove MessageIdFieldName (by decide) hi
    · exact hi
  · exact hi

/-- Step 10 preserves the invariant. -/
theorem simpInv_stage10 {h0f : List Field} {mode : HeaderMode} {fs : List Field}
    (hi : simpInv h0f mode fs) : simpInv h0f mode (simpStage10 fs) := by
  rw [simpStage10]
  set fs1 := (if sameAddresses (afIn fs FromFieldName 0) (afIn fs ReplyToFieldName 0)
    then removeAllNamed fs ReplyToFieldName else fs) with hf1
  have h1 : simpInv h0f mode fs1 := by
    rw [hf1]
    split
    · exact simpInv_remove ReplyToFieldName (by decide) hi
    · exact hi
  split
  · exact simpInv_remove SenderFieldName (by decide) h1
  · exact h1

/-- One emptyDrop preserves the invariant when the name has min 0. -/
theorem simpInv_emptyDrop {h0f : List Field} {mode : HeaderMode} {fs : List Field}
    (n : GoStr) (hmin : ∀ c ∈ conditions, c.name = n → c.cmin = 0)
    (hi : simpInv h0f mode fs) : simpInv h0f mode (emptyDrop fs n) := by
  rw [emptyDrop]
  split
  · exact simpInv_remove _ hmin hi
  · exact hi

/-- Step 11 preserves the invariant. -/
theorem simpInv_stage11 {h0f : List Field} {mode : HeaderMode} {fs : List Field}
    (hi : simpInv h0f mode fs) : simpInv h0f mode (simpStage11 fs) := by
  rw [simpStage11]
  exact simpInv_emptyDrop ReplyToFieldName (by decide)
    (simpInv_emptyDrop BccFieldName (by decide)
      (simpInv_emptyDrop CcFieldName (by decide)
        (simpInv_emptyDrop ToFieldName (by decide)
          (simpInv_emptyDrop ReturnPathFieldName (by decide)
            (simpInv_emptyDrop SenderFieldName (by decide) hi)))))

/-- A concrete valid From field used in the C3 instances. -/
def c3from : Field :=
  ⟨1, FromFieldName, gs "a@x", [], gs "a@x", true,
   FieldData.address [NewAddress [] (gs "a") (gs "x")]⟩

/-- A concrete valid Date field used in the C3 instances. -/
def c3date : Field := ⟨2, DateFieldName, gs "1 Jan 2020", [], gs "1 Jan 2020", true,
  FieldData.plain⟩

/-- A concrete valid RFC 5322 header with default type message/rfc822. -/
def c3h : Header := ⟨HeaderMode.rfc5322, DefaultCT.messageRfc822, [c3from, c3date], 3⟩

/-- C3 counterexample: Simplify does add fields. On a valid two-field header
(From and Date) whose default content type is message/rfc822, Simplify adds
a Content-Type: message/rfc822 field (header.go:423) and then a
Mime-Version: 1.0 field (header.go:435), growing the header from two fields
to four. -/
theorem c3_simplify_adds_fields :
    c3h.valid = true ∧
    Header.simplifyGo c3h =
      some ⟨HeaderMode.rfc5322, DefaultCT.messageRfc822,
        [c3from, c3date, ctMessageRfc822 3, mvField 4], 5⟩ ∧
    c3h.fields.length = 2 := by decide

/-- C3 (amended): when Simplify runs on a valid header and completes, the
header is still valid afterwards, and every field after the call either
descends from a field present before it (same identity; its value may have
been simplified) or is one of the two fields Simplify may add: a
Content-Type: message/rfc822 or a Mime-Version: 1.0. -/
theorem c3_simplify_valid_and_adds_only_ct_mv (h h2 : Header)
    (hv : h.valid = true) (hs : h.simplifyGo = some h2) :
    h2.valid = true ∧
    ∀ f ∈ h2.fields,
      (∃ g ∈ h.fields, f.id = g.id) ∨
      (f.name = ContentTypeFieldName ∧ f.value = gs "message/rfc822") ∨
      (f.name = MimeVersionFieldName ∧ f.value = gs "1.0") := by
  have h0 : simpInv h.fields h.mode h.fields := ⟨hv, fun f hf => Or.inl ⟨f, hf, rfl⟩⟩
  unfold Header.simplifyGo at hs
  rw [if_neg (by simp [hv])] at hs
  simp only [] at hs
  set fs1 := simpStage1 h.fields with e1
  set fs2 := simpStage2 fs1 with e2
  set cdeNil := (fieldIn fs2 ContentDescriptionFieldName 0).isNone with e3
  set cteNil := (fieldIn fs2 ContentTransferEncodingFieldName 0).isNone with e4
  set fs3 := simpStage3 fs2 with e5
  set fs4 := simpStage4 h.mode fs3 with e6
  set cdiNil := (fieldIn fs4 ContentDispositionFieldName 0).isNone with e7
  set r5 := simpStage5 h.defaultType cteNil cdeNil cdiNil fs4 h.nextId with e8
  set r6 := simpStage6 h.mode r5.2.1.isNone cteNil cdeNil cdiNil r5.1 r5.2.2 with e9
  set fs7 := simpStage7 r5.2.1 r6.1 with e10
  cases h8 : simpStage8 fs7 with
  | none =>
    rw [h8] at hs
    simp at hs
  | some fs8 =>
    rw [h8] at hs
    simp only [Option.some_inj] at hs
    have i4 : simpInv h.fields h.mode fs4 := by
      rw [e6, e5, e2, e1]
      exact simpInv_stage4 h.mode (simpInv_stage3 (simpInv_stage2 (simpInv_stage1 h0)))
    have i5 : simpInv h.fields h.mode r5.1 := by
      rw [e8]
      exact simpInv_stage5 h.defaultType cteNil cdeNil cdiNil h.nextId i4
    have i6 : simpInv h.fields h.mode r6.1 := by
      rw [e9]
      exact simpInv_stage6 h.mode r5.2.1.isNone cteNil cdeNil cdiNil r5.2.2 i5
    have i7 : simpInv h.fields h.mode fs7 := by
      rw [e10]
      exact simpInv_stage7 r5.2.1 i6
    have i8 := simpInv_stage8 h8 i7
    have i11 := simpInv_stage11 (simpInv_stage10 (simpInv_stage9 i8))
    have hfields : h2.fields = simpStage11 (simpStage10 (simpStage9 fs8)) := by
      rw [← hs]
    have hmode : h2.mode = h.mode := by
      rw [← hs]
    refine ⟨?_, ?_⟩
    · show verifyOk h2.mode h2.fields = true
      rw [hmode, hfields]
      exact i11.1
    · rw [hfields]
      exact i11.2

/-- The header c3h after Simplify, used by the C3 witness. -/
def c3h2 : Header :=
  ⟨HeaderMode.rfc5322, DefaultCT.messageRfc822,
   [c3from, c3date, ctMessageRfc822 3, mvField 4], 5⟩

/-- Witness for the amended C3 theorem at the concrete header c3h. -/
theorem c3_simplify_valid_and_adds_only_ct_mv_witness :
    c3h2.valid = true ∧
    ∀ f ∈ c3h2.fields,
      (∃ g ∈ c3h.fields, f.id = g.id) ∨
      (f.name = ContentTypeFieldName ∧ f.value = gs "message/rfc822") ∨
      (f.name = MimeVersionFieldName ∧ f.value = gs "1.0") :=
  c3_simplify_valid_and_adds_only_ct_mv c3h c3h2 (by decide) (by decide)

/-- The remaining field name constants (fields.go:14-50). -/
def OrigDateFieldName : GoStr := gs "Orig-Date"
def ResentDateFieldName : GoStr := gs "Resent-Date"
def CommentsFieldName : GoStr := gs "Comments"
def KeywordsFieldName : GoStr := gs "Keywords"
def ContentMd5FieldName : GoStr := gs "Content-Md5"
def ListIdFieldName : GoStr := gs "List-Id"

/-- The fieldNames list (fields.go:52-88), in source order. -/
def fieldNames : List GoStr :=
  [FromFieldName, ResentFromFieldName, SenderFieldName, ResentSenderFieldName,
   ReturnPathFieldName, ReplyToFieldName, ToFieldName, CcFieldName, BccFieldName,
   ResentToFieldName, ResentCcFieldName, ResentBccFieldName, MessageIdFieldName,
   ResentMessageIdFieldName, InReplyToFieldName, ReferencesFieldName,
   DateFieldName, OrigDateFieldName, ResentDateFieldName, SubjectFieldName,
   CommentsFieldName, KeywordsFieldName, ContentTypeFieldName,
   ContentTransferEncodingFieldName, ContentDispositionFieldName,
   ContentDescriptionFieldName, ContentIdFieldName, MimeVersionFieldName,
   ReceivedFieldName, ContentLanguageFieldName, ContentLocationFieldName,
   ContentMd5FieldName, ListIdFieldName, ContentBaseFieldName, ErrorsToFieldName]

/-- AtEnd (parser.go:346-348). -/
def pAtEnd (p : ParserS) : Bool := p.str.length ≤ pAt p

/-- Whitespace (part_003, also parser.go:47-58). -/
def pWhitespace (p : ParserS) : GoStr × ParserS :=
  pScan p (fun c => c == 32 || c == 9 || c == 10 || c == 13 || c == 160)

/-- The inner character loop of Comment (part_003:91-112), fuel-indexed;
level is the comment nesting level. -/
def pCommentInner : Nat → ParserS → GoStr → Nat → GoStr × ParserS
  | 0, p, buf, _ => (buf, p)
  | fuel + 1, p, buf, level =>
    if level > 0 ∧ ¬ pAtEnd p then
      let c := pNextChar p
      if c = 40 then pCommentInner fuel (pStep p 1) (buf ++ [c]) (level + 1)
      else if c = 41 then
        let level2 := level - 1
        pCommentInner fuel (pStep p 1) (if level2 > 0 then buf ++ [c] else buf) level2
      else if c = 92 then
        let p2 := pStep p 1
        pCommentInner fuel (pStep p2 1) (buf ++ [pNextChar p2]) level
      else pCommentInner fuel (pStep p 1) (buf ++ [c]) level
    else (buf, p)

/-- The outer loop of Comment (part_003:88-114), fuel-indexed; buf carries
the content of the last comment seen. -/
def pCommentLoop : Nat → ParserS → GoStr → GoStr × ParserS
  | 0, p, buf => (buf, p)
  | fuel + 1, p, buf =>
    let pr := pPresent p (gs "(")
    if pr.2 then
      let r := pCommentInner (p.str.length + 1) pr.1 [] 1
      let pw := pWhitespace r.2
      let p3 : ParserS := ⟨pw.2.str, pw.2.stack, r.1⟩
      pCommentLoop fuel p3 r.1
    else (buf, p)

/-- Comment (part_003:86-114). -/
def pComment (p : ParserS) : GoStr × ParserS :=
  let pw := pWhitespace p
  pCommentLoop (p.str.length + 1) pw.2 []

/-- isAtext (part_003:47-65). -/
def isAtextG (c : Nat) : Bool := decide (
  32 ≤ c ∧ c ≤ 127 ∧
  ((97 ≤ c ∧ c ≤ 122) ∨ (65 ≤ c ∧ c ≤ 90) ∨ (48 ≤ c ∧ c ≤ 57) ∨
   c = 33 ∨ c = 35 ∨ c = 36 ∨ c = 37 ∨ c = 38 ∨ c = 39 ∨ c = 42 ∨ c = 43 ∨
   c = 45 ∨ c = 47 ∨ c = 61 ∨ c = 63 ∨ c = 94 ∨ c = 95 ∨ c = 96 ∨ c = 123 ∨
   c = 124 ∨ c = 125 ∨ c = 126))

/-- Atom (part_003:185-193). -/
def pAtom (p : ParserS) : GoStr × ParserS :=
  let c := pComment p
  pScan c.2 isAtextG

/-- The dot loop of DotAtom (part_003:162-178), fuel-indexed. -/
def pDotAtomLoop : Nat → ParserS → GoStr → GoStr × ParserS
  | 0, p, result => (result, p)
  | fuel + 1, p, result =>
    let pm := pMark p
    let c1 := pComment pm.1
    let p2 := pRequire c1.2 (gs ".")
    let c2 := pComment p2
    let ra := pAtom c2.2
    let p3 := if ra.1 = [] then pSetErr ra.2 else ra.2
    if pValid p3 then pDotAtomLoop fuel p3 (result ++ [46] ++ ra.1)
    else (result, pRestore p3 pm.2)

/-- DotAtom (part_003:156-182). -/
def pDotAtom (p : ParserS) : GoStr × ParserS :=
  let ra := pAtom p
  if ra.1 = [] then ([], ra.2)
  else pDotAtomLoop (p.str.length + 1) ra.2 ra.1

/-- parseMimeVersion (fields.go:241-255): returns the stored value; the
parse records no error. -/
def parseMimeVersionV (s : GoStr) : GoStr :=
  let p := newParser s
  let c1 := pComment p
  let va := pDotAtom c1.2
  let c2 := pComment va.2
  let cdec := match csDecode (gs "us-ascii") c2.2.lc with
    | some d =>
      if containsG d [40] || containsG d [41] || containsG d [92] then [] else d
    | none => []
  let c3 := if va.1 ≠ gs "1.0" ∨ ¬ pAtEnd c2.2 then
    gs "Note: Original mime-version had syntax problems" else cdec
  if c3 ≠ [] then gs "1.0" ++ [40] ++ c3 ++ [41] else gs "1.0"

/-- Decimal digits of a number, for the Sprintf of header.go:621. -/
def natToDec (n : Nat) : GoStr := gs (toString n)

/-- The removal scan of Repair's duplicate step (header.go:507-521): counts
same-named fields and removes every one after the first whose rfc822 text
equals that of the first. -/
def dedupScan (n v : GoStr) : List Field → Nat → List Field
  | [], _ => []
  | f :: rest, seen =>
    if f.name = n then
      if seen + 1 > 1 ∧ f.rfc822s = v then dedupScan n v rest (seen + 1)
      else f :: dedupScan n v rest (seen + 1)
    else f :: dedupScan n v rest seen

/-- One conditions row of Repair's duplicate step (header.go:502-523). occ0
is the occurrence map built once at the start of Repair. -/
def repairDedupRow (mode : HeaderMode) (occ0 : GoStr → Nat) (fs : List Field)
    (c : HeaderFieldCondition) : List Field :=
  if c.m = mode ∧ occ0 c.name > c.cmax then
    match fieldIn fs c.name 0 with
    | some hf => dedupScan c.name hf.rfc822s fs 0
    | none => fs
  else fs

/-- Repair step 1 (header.go:494-523). -/
def repairStep1 (mode : HeaderMode) (occ0 : GoStr → Nat) (fs : List Field) :
    List Field :=
  conditions.foldl (repairDedupRow mode occ0) fs

/-- The good/bad scan over the Content-Type fields (header.go:529-551):
bad on a type/subtype mismatch or a second parameterised field; good is the
last parameterised field seen. The source loop exits as soon as bad is set. -/
def ctMergeScan (first : Field) : List Field → Option Field → Option Field × Bool
  | [], good => (good, false)
  | f :: rest, good =>
    if ctType f ≠ ctType first ∨ ctSubtype f ≠ ctSubtype first then (good, true)
    else if (ctParams f).length > 0 then
      if good.isSome then (some f, true)
      else ctMergeScan first rest (some f)
    else ctMergeScan first rest good

/-- Repair step 2 (header.go:525-562): when all Content-Type fields agree
and exactly one carries parameters, keep only that one. -/
def repairStep2 (occ0 : GoStr → Nat) (fs : List Field) : List Field :=
  if occ0 ContentTypeFieldName > 1 then
    match fieldIn fs ContentTypeFieldName 0 with
    | some first =>
      match ctMergeScan first (fs.filter (fun f => f.name = ContentTypeFieldName)) none with
      | (some good, false) =>
        fs.filter (fun f => ¬ (f.name = ContentTypeFieldName ∧ f.id ≠ good.id))
      | _ => fs
    | none => fs
  else fs

/-- The removal of Repair step 3 (header.go:599-610): drop every same-named
field other than firstValid, restricted to invalid ones for Content-Type. -/
def fvRemove (n : GoStr) (fvId : Nat) (alsoValid : Bool) (fs : List Field) :
    List Field :=
  fs.filter (fun f => ¬ (f.name = n ∧ f.id ≠ fvId ∧ (alsoValid ∨ f.valid = false)))

/-- One fieldNames row of Repair step 3 (header.go:584-612). -/
def repairFvRow (occ0 : GoStr → Nat) (fs : List Field) (n : GoStr) : List Field :=
  if occ0 n > 1 ∧ (n = DateFieldName ∨ n = ReturnPathFieldName ∨
      n = MessageIdFieldName ∨ n = ContentTypeFieldName ∨ n = ReferencesFieldName) then
    match (fs.filter (fun f => f.name = n ∧ f.valid)).head? with
    | some fv => fvRemove n fv.id (decide (n ≠ ContentTypeFieldName)) fs
    | none => fs
  else fs

/-- Repair step 3 (header.go:584-612). -/
def repairStep3 (occ0 : GoStr → Nat) (fs : List Field) : List Field :=
  fieldNames.foldl (repairFvRow occ0) fs

/-- Repair step 4 (header.go:616-621): drop the second Mime-Version and
reparse the first with a note counting the originals. -/
def repairStep4 (occ0 : GoStr → Nat) (fs : List Field) : List Field :=
  match fieldIn fs MimeVersionFieldName 1 with
  | some second =>
    let fs2 := fs.filter (fun f => ¬ (f.id = second.id))
    let newv := parseMimeVersionV (gs "1.0 (Note: original message contained " ++
      natToDec (occ0 MimeVersionFieldName) ++ gs " Mime-Version fields)")
    updateFirstNamed fs2 MimeVersionFieldName
      (fun f => { f with value := newv, rfc822s := newv })
  | none => fs

/-- Repair step 5 (header.go:626-634): under Go precedence the test reads
(ct non-nil AND multipart) OR ct.Type == message, so when a
Content-Transfer-Encoding is present and there is no Content-Type at all,
the second disjunct dereferences the nil ct: none models that panic. -/
def repairStep5 (occ0 : GoStr → Nat) (fs : List Field) : Option (List Field) :=
  if occ0 ContentTransferEncodingFieldName > 0 then
    match fieldIn fs ContentTypeFieldName 0 with
    | some g =>
      if ctType g = gs "multipart" ∨ ctType g = gs "message" then
        some (removeAllNamed fs ContentTransferEncodingFieldName)
      else some fs
    | none => none
  else some fs

/-- Sequence a list of optional strings; none is any panic. -/
def optList : List (Option GoStr) → Option (List GoStr)
  | [] => some []
  | none :: _ => none
  | some x :: rest => (optList rest).map (fun l => x :: l)

/-- Repair step 6 (header.go:640-663). Both the from map and the sender
list range over the From addresses (the two loops at header.go:645-651 both
iterate h.addresses(FromFieldName)), and the comparison loop at
header.go:652-658 requires difference to be already true to run at all, so
difference stays false and a Sender with other than exactly one address is
always removed, while a single-address Sender is always kept. -/
def repairStep6 (occ0 : GoStr → Nat) (fs : List Field) : Option (List Field) :=
  let senders := addrsIn fs SenderFieldName
  if occ0 SenderFieldName > 0 ∧ senders.length ≠ 1 then
    match optList ((addrsIn fs FromFieldName).map (fun a => lpdomain a)) with
    | none => none
    | some _ =>
      let difference := false
      if ¬ difference then some (removeAllNamed fs SenderFieldName) else some fs
  else some fs

/-- Header.Repair (header.go:489-664). none is a runtime panic (the nil
Content-Type dereference of step 5, or a panic inside lpdomain in step 6). -/
def Header.repairGo (h : Header) : Option Header :=
  if h.valid then some h
  else
    let occ0 := occurrences h.fields
    let fs1 := repairStep1 h.mode occ0 h.fields
    let fs2 := repairStep2 occ0 fs1
    let fs3 := repairStep3 occ0 fs2
    let fs4 := repairStep4 occ0 fs3
    match repairStep5 occ0 fs4 with
    | none => none
    | some fs5 =>
      match repairStep6 occ0 fs5 with
      | none => none
      | some fs6 => some ⟨h.mode, h.defaultType, fs6, h.nextId⟩

/-- A concrete From field for the C5 instances. -/
def c5from : Field :=
  ⟨1, FromFieldName, gs "a@x", [], gs "a@x", true,
   FieldData.address [NewAddress [] (gs "a") (gs "x")]⟩

/-- A Sender field that is an exact copy of c5from's address. -/
def c5sender : Field :=
  ⟨2, SenderFieldName, gs "a@x", [], gs "a@x", true,
   FieldData.address [NewAddress [] (gs "a") (gs "x")]⟩

/-- A Sender field with two addresses disjoint from From. -/
def c5senderB : Field :=
  ⟨2, SenderFieldName, gs "b@y, c@z", [], gs "b@y, c@z", true,
   FieldData.address [NewAddress [] (gs "b") (gs "y"), NewAddress [] (gs "c") (gs "z")]⟩

/-- An invalid header (two distinct Subjects) whose Sender copies From. -/
def c5h : Header :=
  ⟨HeaderMode.rfc5322, DefaultCT.textPlain,
   [c5from, c5sender, subjField 3 "sa", subjField 4 "sb"], 5⟩

/-- An invalid header whose Sender is disjoint from From. -/
def c5hB : Header :=
  ⟨HeaderMode.rfc5322, DefaultCT.textPlain,
   [c5from, c5senderB, subjField 3 "sa", subjField 4 "sb"], 5⟩

/-- C5: Repair does not remove Sender exactly when its addresses are a
copy or subset of From. On c5h the Sender is an exact copy of From yet it
is KEPT (its address list has length one, so the guard
len(senders) != 1 at header.go:644 is false). On c5hB the Sender's two
addresses are disjoint from From yet the field is REMOVED (the subset
comparison loop at header.go:652-658 is dead code: difference starts false
and the loop requires it to be true, and both address lists it would
compare are built from From anyway). -/
theorem c5_repair_sender_rule_inverted :
    c5h.valid = false ∧
    Header.repairGo c5h = some c5h ∧
    addrsIn c5h.fields SenderFieldName = addrsIn c5h.fields FromFieldName ∧
    c5hB.valid = false ∧
    Header.repairGo c5hB =
      some ⟨HeaderMode.rfc5322, DefaultCT.textPlain,
        [c5from, subjField 3 "sa", subjField 4 "sb"], 5⟩ ∧
    ((addrsIn c5hB.fields SenderFieldName).all (fun a =>
      ((addrsIn c5hB.fields FromFieldName).map (fun b =>
        toLowerG (b.localpart ++ [64] ++ b.domain))).contains
        (toLowerG (a.localpart ++ [64] ++ a.domain)))) = false := by decide

/-- Go byte read at a possibly negative cursor; none is the index panic. -/
def sAt (s : GoStr) (i : Int) : Option Nat :=
  if 0 ≤ i ∧ i < (s.length : Int) then some (byteAt s i.toNat) else none

/-- Go slice s[lo:hi] with Int endpoints; none is the slice panic. -/
def goSliceI (s : GoStr) (lo hi : Int) : Option GoStr :=
  if 0 ≤ lo ∧ lo ≤ hi ∧ hi ≤ (s.length : Int) then
    some ((s.drop lo.toNat).take (hi - lo).toNat)
  else none

/-- strings.Index as an Int (-1 when absent). -/
def indexI (s sub : GoStr) : Int :=
  match indexSub s sub with
  | some i => (i : Int)
  | none => -1

/-- strings.IndexByte as an Int (-1 when absent). -/
def indexByteI (s : GoStr) (b : Nat) : Int :=
  match indexByteG s b with
  | some i => (i : Int)
  | none => -1

/-- The AddressParser state (addresses.go:227-233); the two error slots are
modelled as whether they hold a non-nil error. -/
structure AP where
  s : GoStr
  firstErr : Bool
  recentErr : Bool
  addrs : List Address
  lastComment : GoStr
deriving DecidableEq, Repr

/-- AddressParser.setError (addresses.go:1273-1290). The nearby text is
built with simplify over the slice s[start:20], either of which can panic:
the slice when start exceeds 20, simplify on all-whitespace text. -/
def apSetError (p : AP) (i : Int) : Option AP :=
  let i2 : Nat := if i < 0 then 0 else i.toNat
  let start : Nat := if i2 > 8 then i2 - 8 else 0
  let e : Nat := if 20 > p.s.length then p.s.length else 20
  match goSlice p.s start e with
  | none => none
  | some seg =>
    match simplify seg with
    | none => none
    | some _ => some { p with recentErr := true, firstErr := true }

/-- The surrounding-quote counting loop of add (addresses.go:516-521). -/
def addQuoteScan (name : GoStr) : Nat → Nat → Nat
  | i, 0 => i
  | i, fuel + 1 =>
    if i + 1 < name.length ∧ byteAt name i = byteAt name (name.length - 1 - i) ∧
        (byteAt name i = 39 ∨ byteAt name i = 34) then
      addQuoteScan name (i + 1) fuel
    else i

/-- AddressParser.add (addresses.go:506-546); none is a panic inside
simplify. -/
def apAdd (p : AP) (name lp dom : GoStr) : Option AP :=
  if lp.length > 256 then
    some { p with recentErr := true, firstErr := true }
  else
    let qi := addQuoteScan name 0 (name.length + 1)
    match (if qi > 0 then goSliceI name (qi : Int) ((name.length : Int) - (qi : Int))
           else some name) with
    | none => none
    | some name1 =>
    match simplify name1 with
    | none => none
    | some name2 =>
      let name3opt :=
        if name2.length > 1 ∧ byteAt name2 0 = 40 ∧ byteAt name2 (name2.length - 1) = 41
        then simplify ((name2.drop 1).take (name2.length - 2)) else some name2
      match name3opt with
      | none => none
      | some name3 =>
        let an := toTitleG name3
        let name4 :=
          if an = toTitleG lp ∨
              (an.length = lp.length + 1 + dom.length ∧
               an = toTitleG lp ++ [64] ++ toTitleG dom) then [] else name3
        let a0 := NewAddress name4 lp dom
        some { p with addrs := p.addrs ++ [{ a0 with err := p.recentErr }] }

/-- AddressParser.space (addresses.go:902-908), fuel-indexed; the read of
s at i is a panic (none) when i is at or past the end. -/
def apSpace (s : GoStr) : Nat → Int → Option Int
  | 0, _ => none
  | fuel + 1, i =>
    if 0 ≤ i then
      match sAt s i with
      | none => none
      | some c =>
        if c = 32 ∨ c = 9 ∨ c = 13 ∨ c = 10 then apSpace s fuel (i - 1) else some i
    else some i

/-- The atom character class of the backward parser (addresses.go:1064-1078),
which also accepts all bytes at and above 128. -/
def isAtextAddr (c : Nat) : Bool := decide (
  (97 ≤ c ∧ c ≤ 122) ∨ (65 ≤ c ∧ c ≤ 90) ∨ (48 ≤ c ∧ c ≤ 57) ∨
  c = 33 ∨ c = 35 ∨ c = 36 ∨ c = 37 ∨ c = 38 ∨ c = 39 ∨ c = 42 ∨ c = 43 ∨
  c = 45 ∨ c = 47 ∨ c = 61 ∨ c = 63 ∨ c = 94 ∨ c = 95 ∨ c = 96 ∨ c = 123 ∨
  c = 124 ∨ c = 125 ∨ c = 126 ∨ 128 ≤ c)

/-- The backward atom scan (addresses.go:1064-1080). -/
def atomScanI (s : GoStr) : Nat → Int → Option Int
  | 0, _ => none
  | fuel + 1, i =>
    if 0 ≤ i then
      match sAt s i with
      | none => none
      | some c => if isAtextAddr c then atomScanI s fuel (i - 1) else some i
    else some i

/-- The unguarded digit/dot scan of domain (addresses.go:1014-1017): the
loop reads s[i] without a bound check, so an all-digit prefix drives i to
-1 and panics. -/
def digitDotScanI (s : GoStr) : Nat → Int → Option Int
  | 0, _ => none
  | fuel + 1, i =>
    match sAt s i with
    | none => none
    | some c =>
      if (48 ≤ c ∧ c ≤ 57) ∨ c = 46 then digitDotScanI s fuel (i - 1) else some i

/-- Modelled from the spec: net.ParseIP and net.IP.String are outside the
sources. For the dotted text scanned by domain, ParseIP succeeds exactly on
a dotted quad of four decimal components, each at most 255 with no leading
zero, and String returns the same text. -/
def decVal (q : GoStr) : Nat := q.foldl (fun a c => a * 10 + (c - 48)) 0

/-- Modelled from the spec: the IPv4 recognition used by domain. -/
def parseIPv4 (txt : GoStr) : Option GoStr :=
  let parts := splitByteG 46 txt
  if parts.length = 4 ∧ parts.all (fun q =>
      q ≠ [] ∧ q.length ≤ 3 ∧ q.all (fun c => 48 ≤ c ∧ c ≤ 57) ∧
      (q.length = 1 ∨ byteAt q 0 ≠ 48) ∧ decVal q ≤ 255) then
    some txt
  else none

/-- Modelled from the spec: the tlds list is generated from the IANA root
zone by the script in the sources, so its exact contents are not fixed by
the repository; a representative list. It is consulted only by findBorder,
which none of the theorems reach. -/
def tlds : List GoStr :=
  [gs "com", gs "net", gs "org", gs "edu", gs "gov", gs "mil", gs "int",
   gs "arpa", gs "de", gs "uk", gs "jp"]

/-- The prefix a us-ascii charset writer converts before failing: everything
up to the first byte above 127 (modelled from the spec's codec registry,
as csDecode). -/
def usAsciiPref (x : GoStr) : GoStr := x.takeWhile (fun b => b < 128)

/-- de2047 (strings.go:668-724). Slices and reads follow the source's index
arithmetic, including the doubled offsets of the caller in phrase; none is
a panic. The final Write converts the WHOLE encoded-word string s, not the
decoded text (strings.go:722), so the result is the converted form of s
itself. -/
def de2047 (s : GoStr) : Option GoStr :=
  if ¬ (startsWithG s (gs "=?") ∧ endsWithG s (gs "?=")) then some []
  else
    let cs : Int := 2
    let ce0 := indexByteI (s.drop 2) 42
    let ce1 : Int := if ce0 ≥ 0 then ce0 + 2 else ce0
    let es0 : Int := indexByteI (s.drop 2) 63 + 1
    let es : Int := if es0 ≥ 1 then es0 + 2 else es0
    if es < cs then some []
    else
      let ce2 : Int := if ce1 < cs then es else ce1
      let ce : Int := if ce2 ≥ es then es - 1 else ce2
      match sAt s (es + 1) with
      | none => none
      | some c1 =>
        if c1 ≠ 63 then some []
        else
          match goSliceI s (es + 2) ((s.length : Int) - 2), sAt s es with
          | some encoded, some ec =>
            let decodedOpt : Option GoStr :=
              if ec = 81 ∨ ec = 113 then some (deQP encoded true)
              else if ec = 66 ∨ ec = 98 then some (de64 encoded)
              else none
            match decodedOpt with
            | none => some []
            | some decoded =>
              match goSliceI s cs ce with
              | none => none
              | some enc =>
                if csKnown (toLowerG enc) then
                  if toLowerG enc = gs "us-ascii" then some (usAsciiPref s)
                  else if validUtf8 s then some s else some (usAsciiPref s)
                else
                  if usAsciiOk decoded then some (usAsciiPref s)
                  else some []
          | _, _ => none

/-- String (part_003:120-153): an atom or a quoted string, forward parser.
The whitespace-run slice is str[wsp:Pos]. -/
def pStringQuoted : Nat → ParserS → GoStr → GoStr × ParserS
  | 0, p, buf => (buf, p)
  | fuel + 1, p, buf =>
    if ¬ pAtEnd p then
      let c := pNextChar p
      let p1 := pStep p 1
      if c = 34 then (buf, p1)
      else if c = 92 then
        let b2 := buf ++ [pNextChar p1]
        pStringQuoted fuel (pStep p1 1) b2
      else if c = 9 ∨ c = 13 ∨ c = 10 ∨ c = 32 then
        let wsp := pAt p1 - 1
        let pw := pWhitespace p1
        let t := ((p.str.drop wsp).take (pAt pw.2 - wsp))
        let b2 := if containsG t [13] || containsG t [10] then buf ++ [32] else buf ++ t
        pStringQuoted fuel pw.2 b2
      else pStringQuoted fuel p1 (buf ++ [c])
    else (buf, p)

/-- String (part_003:120-153). -/
def pString (p : ParserS) : GoStr × ParserS :=
  let c := pComment p
  if pNextChar c.2 ≠ 34 then pAtom c.2
  else pStringQuoted (p.str.length + 1) (pStep c.2 1) []

/-- encodedWords (part_003:342-360), fuel-indexed; none is a panic inside
encodedWord. -/
def pEncodedWordsLoop (t : EncodedTextType) : Nat → ParserS → GoStr → Nat →
    Option (GoStr × ParserS × Nat)
  | 0, p, out, m => some (out, p, m)
  | fuel + 1, p, out, m =>
    let pm := pMark p
    let pw := pWhitespace pm.1
    let n := pAt pw.2
    match encodedWordP pw.2 t with
    | none => none
    | some (p2, w) =>
      if n = pAt p2 then some (out, p2, pm.2)
      else pEncodedWordsLoop t fuel p2 (out ++ w) pm.2

/-- encodedWords (part_003:342-360). -/
def pEncodedWords (p : ParserS) (t : EncodedTextType) : Option (GoStr × ParserS) :=
  match pEncodedWordsLoop t (p.str.length + 2) p [] 0 with
  | none => none
  | some (out, p2, m) => some (trimG out, pRestore p2 m)

/-- The word joining of Phrase (part_003:452-481). -/
def pPhraseJoin (p : ParserS) (buf spaces t : GoStr) (encoded wasEncoded : Bool) :
    GoStr × GoStr × ParserS :=
  let buf2 := if ¬ encoded ∨ ¬ wasEncoded then buf ++ spaces else buf
  let buf3 := buf2 ++ t
  let pw := pWhitespace p
  let sp1 := pw.1
  let start2 := pAt pw.2
  let pc := pComment pw.2
  let sp2 := if sp1 = [] ∧ start2 < pAt pc.2 then sp1 ++ [32] else sp1
  let sp3 := if containsG sp2 [13] || containsG sp2 [10] then [32] else sp2
  (buf3, sp3, pc.2)

/-- The loop of Phrase (part_003:424-486), fuel-indexed. -/
def pPhraseLoop : Nat → ParserS → GoStr → GoStr → Bool → Option (GoStr × ParserS)
  | 0, p, buf, _, _ => some (buf, p)
  | fuel + 1, p, buf, spaces, wasEncoded =>
    if pAtEnd p then some (buf, p)
    else
      let start := pAt p
      let pm := pMark p
      let pq := pPresent pm.1 (gs "=?")
      match (if pq.2 then
          match pEncodedWords (pRestore pq.1 pm.2) EncodedTextType.phrase with
          | none => none
          | some (t, p2) => some (t, p2, decide (start < pAt p2), decide (start < pAt p2))
        else some ([], pq.1, false, false) : Option (GoStr × ParserS × Bool × Bool)) with
      | none => none
      | some (t1, p1, h1, enc1) =>
        let mid : GoStr × ParserS × Bool :=
          if ¬ h1 then
            let pq2 := pPresent p1 (gs "\x22")
            if pq2.2 then
              let r := pString (pRestore pq2.1 pm.2)
              (usAsciiPref r.1, r.2, decide (start < pAt r.2))
            else (t1, pq2.1, h1)
          else (t1, p1, h1)
        let next : GoStr × ParserS × Bool :=
          if ¬ mid.2.2 then
            let r := pAtom mid.2.1
            (usAsciiPref r.1, r.2, decide (start < pAt r.2))
          else mid
        let t := next.1
        let p2 := next.2.1
        let h := next.2.2
        if h ∨ t ≠ [] then
          let j := pPhraseJoin p2 buf spaces t enc1 wasEncoded
          pPhraseLoop fuel j.2.2 j.1 j.2.1 enc1
        else some (buf, p2)

/-- Phrase (part_003:416-489). -/
def pPhrase (p : ParserS) : Option (GoStr × ParserS) :=
  let c := pComment p
  pPhraseLoop (p.str.length + 2) c.2 [] [] false

/-- The unguarded whitespace-collapsing inner loop of unqp
(addresses.go:968-973): reading past the end is a panic. -/
def unqpSkip (s : GoStr) : Nat → Nat → Option Nat
  | 0, _ => none
  | fuel + 1, j =>
    match goIdx s j with
    | none => none
    | some c =>
      if c = 32 ∨ c = 9 ∨ c = 10 ∨ c = 13 then unqpSkip s fuel (j + 1) else some j

/-- The main loop of unqp (addresses.go:962-990); the byte after a
backslash is read without a bound check. -/
def unqpGo (s : GoStr) : Nat → Nat → Bool → GoStr → Option GoStr
  | 0, _, _, _ => none
  | fuel + 1, j, sp, buf =>
    if j < s.length then
      let c := byteAt s j
      if c = 32 ∨ c = 9 ∨ c = 10 ∨ c = 13 then
        match unqpSkip s (s.length + 2) j with
        | none => none
        | some j2 => unqpGo s fuel j2 true buf
      else
        let buf2 := if sp then buf ++ [32] else buf
        if c = 92 then
          match goIdx s (j + 1) with
          | none => none
          | some c2 => unqpGo s fuel (j + 2) false (buf2 ++ [c2])
        else unqpGo s fuel (j + 1) false (buf2 ++ [c])
    else some buf

/-- unqp (addresses.go:962-990). -/
def unqp (s : GoStr) : Option GoStr := unqpGo s (s.length + 2) 0 false []

/-- The backward bracket scan of domain (addresses.go:1026-1028). -/
def bracketScanI (s : GoStr) : Nat → Int → Option Int
  | 0, _ => none
  | fuel + 1, i =>
    if 0 ≤ i then
      match sAt s i with
      | none => none
      | some c => if c ≠ 91 then bracketScanI s fuel (i - 1) else some i
    else some i

/-- The at-sign skipping loops (addresses.go:610-612 and elsewhere):
while i is positive and points at an at sign, step left. -/
def atSkip (s : GoStr) : Nat → Int → Option Int
  | 0, _ => none
  | fuel + 1, i =>
    if 0 < i then
      match sAt s i with
      | none => none
      | some c => if c = 64 then atSkip s fuel (i - 1) else some i
    else some i

/-- The double-greater-than skipping loop of address (addresses.go:560-562). -/
def gtgtSkip (s : GoStr) : Nat → Int → Option Int
  | 0, _ => none
  | fuel + 1, i =>
    if 0 < i then
      match sAt s i with
      | none => none
      | some c =>
        if c = 62 then
          match sAt s (i - 1) with
          | none => none
          | some c2 => if c2 = 62 then gtgtSkip s fuel (i - 1) else some i
        else some i
    else some i

/-- The less-than skipping loop of address (addresses.go:680-682). -/
def ltSkip (s : GoStr) : Nat → Int → Option Int
  | 0, _ => none
  | fuel + 1, i =>
    if 0 ≤ i then
      match sAt s i with
      | none => none
      | some c => if c = 60 then ltSkip s fuel (i - 1) else some i
    else some i

/-- The space-skipping loop over positive positions (addresses.go:617-619). -/
def spSkipPos (s : GoStr) : Nat → Int → Option Int
  | 0, _ => none
  | fuel + 1, j =>
    if 0 < j then
      match sAt s j with
      | none => none
      | some c => if c = 32 then spSkipPos s fuel (j - 1) else some j
    else some j

/-- The letters-and-spaces backward scan of address (addresses.go:658-663). -/
def alphaSpSkip (s : GoStr) : Nat → Int → Option Int
  | 0, _ => none
  | fuel + 1, j =>
    if 0 ≤ j then
      match sAt s j with
      | none => none
      | some c =>
        if (97 ≤ c ∧ c ≤ 122) ∨ (65 ≤ c ∧ c ≤ 90) ∨ c = 32 then
          alphaSpSkip s fuel (j - 1)
        else some j
    else some j

/-- The comma-skipping loop of route (addresses.go:1261-1263). -/
def commaSkip (s : GoStr) : Nat → Int → Option Int
  | 0, _ => none
  | fuel + 1, i =>
    if 0 ≤ i then
      match sAt s i with
      | none => none
      | some c => if c = 44 then commaSkip s fuel (i - 1) else some i
    else some i

/-- The backward quote search of address branches 9 and 10
(addresses.go:776-778, 800-802): step left over positive positions that do
not hold a double quote. -/
def quoteSkipBack (s : GoStr) : Nat → Int → Option Int
  | 0, _ => none
  | fuel + 1, b =>
    if 0 < b then
      match sAt s b with
      | none => none
      | some c => if c ≠ 34 then quoteSkipBack s fuel (b - 1) else some b
    else some b

/-- The backward quoted-phrase scan of phrase (addresses.go:1100-1110). -/
def bqScanI (s : GoStr) : Nat → Int → Option Int
  | 0, _ => none
  | fuel + 1, i =>
    if 1 < i then
      match sAt s (i - 1) with
      | none => none
      | some cm =>
        if cm = 92 then bqScanI s fuel (i - 2)
        else
          match sAt s i with
          | none => none
          | some c => if c ≠ 34 then bqScanI s fuel (i - 1) else some i
    else if 0 ≤ i then
      match sAt s i with
      | none => none
      | some c => if c ≠ 34 then bqScanI s fuel (i - 1) else some i
    else some i

/-- The encoded-word extraction loop of phrase (addresses.go:1115-1142),
with its verbatim index arithmetic: after the second and third searches the
relative offset is doubled (e += e + 1), so slices can run out of range
(none). Fuel-out is also none; the theorem inputs never reach it. -/
def phraseQPLoop (w : GoStr) : Nat → Int → GoStr → Bool → Option (GoStr × Bool)
  | 0, _, _, _ => none
  | fuel + 1, l, word, drop =>
    if 0 ≤ l ∧ ¬ drop then
      match goSliceI w l (w.length : Int) with
      | none => none
      | some wl =>
        let b0 := indexI wl (gs "=?")
        if 0 ≤ b0 then
          let b := b0 + l
          match goSliceI w (b + 2) (w.length : Int) with
          | none => none
          | some wb2 =>
            let eA := indexI wb2 (gs "?")
            match (if 0 ≤ eA then
                (goSliceI w (eA + b + 2 + 1) (w.length : Int)).map
                  (fun we => indexI we (gs "?"))
              else some eA : Option Int) with
            | none => none
            | some eB =>
              match (if 0 ≤ eB then
                  (goSliceI w (eB + eB + 1 + 1) (w.length : Int)).map
                    (fun we => indexI we (gs "?="))
                else some eB : Option Int) with
              | none => none
              | some eC =>
                if 0 ≤ eC then
                  let eD := eC + eC + 1
                  match goSliceI w b (eD + 2) with
                  | none => none
                  | some ew =>
                    match de2047 ew with
                    | none => none
                    | some tmp =>
                      match goSliceI w l b with
                      | none => none
                      | some mid =>
                        phraseQPLoop w fuel (eD + 2) (word ++ mid ++ tmp)
                          (if tmp = [] then true else drop)
                else some (word, true)
        else some (word ++ wl, drop)
    else some (word, drop)

/-- The word-joining step at the bottom of phrase (addresses.go:1185-1195);
reading the last byte of an empty word is a panic. -/
def phraseMerge (r word : GoStr) (enc encw : Bool) : Option GoStr :=
  if r = [] then some word
  else
    match word.getLast? with
    | none => none
    | some lastc =>
      if lastc = 32 then some (word ++ r)
      else
        let word2 :=
          if ¬ enc ∨ ¬ encw ∨ (word.length + r.length < 50 ∧ byteAt r 0 ≤ 90) then
            word ++ [32]
          else word
        some (word2 ++ r)

/-- The comment-name rewriting loop of address (addresses.go:638-651 and
869-882): letters and digits pass, space, underscore and dash become a
dash, anything else records an error (which may itself panic). -/
def lcNameLoop : Nat → AP → Int → GoStr → Nat → GoStr → Option (AP × GoStr)
  | 0, _, _, _, _, _ => none
  | fuel + 1, p, i, n, j, buf =>
    if j < n.length then
      let c := byteAt n j
      if (97 ≤ c ∧ c ≤ 122) ∨ (65 ≤ c ∧ c ≤ 90) ∨ (48 ≤ c ∧ c ≤ 57) then
        lcNameLoop fuel p i n (j + 1) (buf ++ [c])
      else if c = 32 ∨ c = 95 ∨ c = 45 then
        lcNameLoop fuel p i n (j + 1) (buf ++ [45])
      else
        match apSetError p i with
        | none => none
        | some p2 => lcNameLoop fuel p2 i n (j + 1) buf
    else some (p, buf)

/-- The date-skimming scan of address branch 10 (addresses.go:806-814): the
class of the previous byte is tested before the next one is fetched, so a
fully valid date always reads one byte past the end (none). -/
def dateScan (date : GoStr) : Nat → Nat → Nat → Option Nat
  | 0, _, _ => none
  | fuel + 1, dp, c =>
    if dp < date.length ∧
        ((97 ≤ c ∧ c ≤ 122) ∨ (65 ≤ c ∧ c ≤ 90) ∨ (48 ≤ c ∧ c ≤ 57) ∨
         c = 32 ∨ c = 45 ∨ c = 58 ∨ c = 46) then
      match goIdx date (dp + 1) with
      | none => none
      | some c2 => dateScan date fuel (dp + 1) c2
    else some dp

/-- The alnum-dash component scan of findBorder (addresses.go:422-429). -/
def fbComp (s : GoStr) (right : Int) : Nat → Int → Bool → Option (Int × Bool)
  | 0, _, _ => none
  | fuel + 1, b, any =>
    if b ≤ right then
      match sAt s b with
      | none => none
      | some c =>
        if (97 ≤ c ∧ c ≤ 122) ∨ (65 ≤ c ∧ c ≤ 90) ∨ (48 ≤ c ∧ c ≤ 57) ∨ c = 45 then
          fbComp s right fuel (b + 1) true
        else some (b, any)
    else some (b, any)

/-- The whitespace scan of findBorder (addresses.go:408-413). -/
def fbWsScan (s : GoStr) (right : Int) : Nat → Int → Option Int
  | 0, _ => none
  | fuel + 1, b =>
    if b ≤ right then
      match sAt s b with
      | none => none
      | some c =>
        if c ≠ 32 ∧ c ≠ 9 ∧ c ≠ 13 ∧ c ≠ 10 then fbWsScan s right fuel (b + 1)
        else some b
    else some b

/-- The top-level-domain check of findBorder (addresses.go:440-453), with
the verbatim slice s[b:l] whose high bound is the LENGTH of the candidate,
a panic whenever b exceeds it. -/
def tldScan (s : GoStr) (b right : Int) : List GoStr → Option (Option Int)
  | [] => some none
  | tld :: rest =>
    let l : Int := tld.length
    if b + l ≤ right then
      match sAt s (b + l) with
      | none => none
      | some c =>
        if ¬ ((97 ≤ c ∧ c ≤ 122) ∨ (65 ≤ c ∧ c ≤ 90) ∨ (48 ≤ c ∧ c ≤ 57)) then
          match goSliceI s b l with
          | none => none
          | some seg =>
            if toLowerG seg = tld then some (some (b + l))
            else tldScan s b right rest
        else tldScan s b right rest
    else tldScan s b right rest

/-- The domain-component loop of findBorder (addresses.go:417-455); inl is
a return from inside the loop, inr carries the final dot position. -/
def fbLoop (s : GoStr) (right left : Int) : Nat → Int → Int → Option (Sum Int Int)
  | 0, _, _ => none
  | fuel + 1, b, dot =>
    if b ≤ right then
      match fbComp s right (s.length + 2) b false with
      | none => none
      | some (b2, any) =>
        if ¬ any then
          if left < b2 then
            match sAt s (b2 - 1) with
            | none => none
            | some c => if c = 46 then some (Sum.inl (b2 - 1)) else some (Sum.inl b2)
          else some (Sum.inl b2)
        else
          if b2 ≤ right then
            match sAt s b2 with
            | none => none
            | some c =>
              if c ≠ 46 then some (Sum.inl b2)
              else
                match tldScan s (b2 + 1) right tlds with
                | none => none
                | some (some r) => some (Sum.inl r)
                | some none => fbLoop s right left fuel (b2 + 1) b2
          else fbLoop s right left fuel b2 dot
    else some (Sum.inr dot)

/-- findBorder (addresses.go:379-473). -/
def findBorder (s : GoStr) (fuel : Nat) (left right : Int) : Option Int :=
  if right ≤ left then some left
  else
    match goSliceI s left (s.length : Int) with
    | none => none
    | some sl =>
      let b1 := left + indexI sl (gs ",")
      if left ≤ b1 ∧ b1 ≤ right then some b1
      else
        let b2 := left + indexI sl (gs ";")
        if left ≤ b2 ∧ b2 ≤ right then some b2
        else
          let b3 := left + indexI sl (gs "<")
          if left ≤ b3 ∧ b3 ≤ right then some b3
          else
            let b4 := left + indexI sl (gs ">")
            if left ≤ b4 ∧ b4 ≤ right then some b4
            else
              match fbWsScan s right fuel left with
              | none => none
              | some b5 =>
                if left ≤ b5 ∧ b5 ≤ right then some b5
                else
                  match fbLoop s right left fuel left left with
                  | none => none
                  | some (Sum.inl r) => some r
                  | some (Sum.inr dot) =>
                    if left < dot ∧ dot < right then some dot
                    else if (s.length : Int) ≤ right + 1 then some right
                    else some left

/-- The forward space scan of plan B (addresses.go:303-305). -/
def pbSpaceFwd (s : GoStr) (rb : Int) : Nat → Int → Option Int
  | 0, _ => none
  | fuel + 1, e =>
    if e ≤ rb then
      match sAt s e with
      | none => none
      | some c => if c = 32 then pbSpaceFwd s rb fuel (e + 1) else some e
    else some e

/-- The forward word scan of plan B (addresses.go:306-312). -/
def pbWordFwd (s : GoStr) (rb : Int) : Nat → Int → Option Int
  | 0, _ => none
  | fuel + 1, e =>
    if e ≤ rb then
      match sAt s e with
      | none => none
      | some c =>
        if (97 ≤ c ∧ c ≤ 122) ∨ (65 ≤ c ∧ c ≤ 90) ∨ (48 ≤ c ∧ c ≤ 57) ∨
            c = 46 ∨ c = 45 then
          pbWordFwd s rb fuel (e + 1)
        else some e
    else some e

/-- The backward space scan of plan B (addresses.go:314-316): it reads the
byte BEFORE the cursor without a lower bound, so a cursor at zero panics. -/
def pbSpaceBack (s : GoStr) (lb : Int) : Nat → Int → Option Int
  | 0, _ => none
  | fuel + 1, st =>
    if lb ≤ st then
      match sAt s (st - 1) with
      | none => none
      | some c => if c = 32 then pbSpaceBack s lb fuel (st - 1) else some st
    else some st

/-- The backward word scan of plan B (addresses.go:317-324), with the
verbatim condition start LESS-OR-EQUAL leftBorder. -/
def pbWordBack (s : GoStr) (lb : Int) : Nat → Int → Option Int
  | 0, _ => none
  | fuel + 1, st =>
    if st ≤ lb then
      match sAt s (st - 1) with
      | none => none
      | some c =>
        if (97 ≤ c ∧ c ≤ 122) ∨ (65 ≤ c ∧ c ≤ 90) ∨ (48 ≤ c ∧ c ≤ 57) ∨
            c = 46 ∨ c = 45 then
          pbWordBack s lb fuel (st - 1)
        else some st
    else some st

/-- The plan-B at-sign loop of NewAddressParser (addresses.go:289-336). -/
def planBLoop : Nat → AP → Int → Int → Option AP
  | 0, _, _, _ => none
  | fuel + 1, p, leftBorder, atsign =>
    if 0 ≤ atsign then
      let s := p.s
      match goSliceI s (atsign + 1) (s.length : Int) with
      | none => none
      | some sAfter =>
        let na0 := indexI sAfter (gs "@")
        match (if na0 < 0 then some (na0, (s.length : Int))
               else
                 (findBorder s (s.length + 2) (atsign + 1) (na0 + atsign + 1 - 1)).map
                   (fun rb => (na0 + atsign + 1, rb))
               : Option (Int × Int)) with
        | none => none
        | some (nextAtsign, rightBorder) =>
          match (if 0 < leftBorder then sAt s leftBorder else some 0) with
          | none => none
          | some clb =>
            let lb := if 0 < leftBorder ∧ (clb = 46 ∨ clb = 62) then leftBorder + 1
                      else leftBorder
            match pbSpaceFwd s rightBorder (s.length + 2) (atsign + 1) with
            | none => none
            | some e1 =>
              match pbWordFwd s rightBorder (s.length + 2) e1 with
              | none => none
              | some e2 =>
                match pbSpaceBack s lb (s.length + 2) atsign with
                | none => none
                | some st1 =>
                  match pbWordBack s lb (s.length + 2) st1 with
                  | none => none
                  | some st2 =>
                    match goSliceI s st2 atsign with
                    | none => none
                    | some seg1 =>
                      match simplify seg1 with
                      | none => none
                      | some lp =>
                        match goSliceI s (atsign + 1) e2 with
                        | none => none
                        | some seg2 =>
                          match simplify seg2 with
                          | none => none
                          | some dom =>
                            let p2 :=
                              if lp ≠ [] ∧ dom ≠ [] then
                                { p with addrs := p.addrs ++ [NewAddress [] lp dom] }
                              else p
                            planBLoop fuel p2 rightBorder nextAtsign
    else some p

/-- Plan B of NewAddressParser (addresses.go:285-336). -/
def planB (p : AP) : Option AP :=
  planBLoop (p.s.length + 2) { p with addrs := [] } 0 (indexByteI p.s 64)

/-- Plan C of NewAddressParser (addresses.go:340-369). -/
def planC (p : AP) : Option AP :=
  if containsG p.s (gs ":;") ∧ ¬ containsG p.s [64] then
    let ix := indexI p.s (gs ":;")
    match goSliceI p.s 0 ix with
    | none => none
    | some seg =>
      match simplify seg with
      | none => none
      | some n =>
        let bad := ¬ n.all (fun c =>
          (97 ≤ c ∧ c ≤ 122) ∨ (65 ≤ c ∧ c ≤ 90) ∨ (48 ≤ c ∧ c ≤ 57) ∨
          c = 32 ∨ c = 95 ∨ c = 45)
        if ¬ bad then
          some { p with firstErr := false, recentErr := false,
                        addrs := [NewAddress n [] []] }
        else some p
  else some p

/-- The separator-skipping inner loop of NewAddressParser
(addresses.go:273-278). -/
def apSepSkip : Nat → AP → Int → Int → Bool → Option (AP × Int)
  | 0, _, _, _, _ => none
  | fuel + 1, p, i, j, colon =>
    if i < j ∧ 0 ≤ i then
      match sAt p.s i with
      | none => none
      | some c =>
        if c = 44 ∨ (¬ colon ∧ c = 59) then
          match apSpace p.s (p.s.length + 2) (i - 1) with
          | none => none
          | some i2 => apSepSkip fuel p i2 j colon
        else some (p, i)
    else some (p, i)

/- The backward address parser (addresses.go:265-1269) as one mutual
block, structurally recursive on a shared fuel so that the kernel can
evaluate it; running out of fuel yields none, the same value as a Go
panic, and the fuel at the theorems is large enough that it is never
reached on their inputs. -/
mutual

/-- AddressParser.comment (addresses.go:912-939). -/
def apComment : Nat → AP → Int → Option (AP × Int)
  | 0, _, _ => none
  | fuel + 1, p, i0 =>
    match apSpace p.s (p.s.length + 2) i0 with
    | none => none
    | some i => apCommentLoop fuel p i
termination_by structural fuel => fuel

/-- The close-paren loop of comment (addresses.go:914-937). -/
def apCommentLoop : Nat → AP → Int → Option (AP × Int)
  | 0, _, _ => none
  | fuel + 1, p, i =>
    if 0 < i then
      match sAt p.s i with
      | none => none
      | some c =>
        if c = 41 then
          let j := i
          match apCcontent fuel p (i - 1) with
          | none => none
          | some (p1, i2) =>
            match sAt p1.s i2 with
            | none => none
            | some c2 =>
              match (if c2 ≠ 40 then apSetError p1 i2
                     else
                       match goSliceI p1.s i2 (j + 1) with
                       | none => none
                       | some seg =>
                         some { p1 with lastComment := (pComment (newParser seg)).1 }) with
              | none => none
              | some p2 =>
                match (if 0 < i2 then apSpace p2.s (p2.s.length + 2) (i2 - 1)
                       else some i2 : Option Int) with
                | none => none
                | some i3 => apCommentLoop fuel p2 i3
        else some (p, i)
    else some (p, i)
termination_by structural fuel => fuel

/-- AddressParser.ccontent (addresses.go:943-958): the backslash test. -/
def apCcontent : Nat → AP → Int → Option (AP × Int)
  | 0, _, _ => none
  | fuel + 1, p, i =>
    if 0 < i then
      match sAt p.s (i - 1) with
      | none => none
      | some cm =>
        if cm = 92 then apCcTail fuel p (i - 1)
        else apCcMid fuel p i
    else apCcMid fuel p i
termination_by structural fuel => fuel

/-- The paren tests of ccontent (addresses.go:947-951). -/
def apCcMid : Nat → AP → Int → Option (AP × Int)
  | 0, _, _ => none
  | fuel + 1, p, i =>
    match sAt p.s i with
    | none => none
    | some c =>
      if c = 41 then
        match apComment fuel p i with
        | none => none
        | some (p2, i2) => apCcTail fuel p2 i2
      else if c = 40 then some (p, i)
      else apCcTail fuel p i
termination_by structural fuel => fuel

/-- The step at the bottom of ccontent (addresses.go:953-957). -/
def apCcTail : Nat → AP → Int → Option (AP × Int)
  | 0, _, _ => none
  | fuel + 1, p, i =>
    if i = 0 then some (p, i) else apCcontent fuel p (i - 1)
termination_by structural fuel => fuel

/-- AddressParser.atom (addresses.go:1060-1084). -/
def apAtom : Nat → AP → Int → Option (GoStr × AP × Int)
  | 0, _, _ => none
  | fuel + 1, p, i0 =>
    match apComment fuel p i0 with
    | none => none
    | some (p1, j) =>
      match atomScanI p1.s (p1.s.length + 2) j with
      | none => none
      | some i =>
        match goSliceI p1.s (i + 1) (j + 1) with
        | none => none
        | some r =>
          match apComment fuel p1 i with
          | none => none
          | some (p2, i2) => some (r, p2, i2)
termination_by structural fuel => fuel

/-- AddressParser.domain (addresses.go:995-1057). -/
def apDomain : Nat → AP → Int → Option (GoStr × AP × Int)
  | 0, _, _ => none
  | fuel + 1, p, i0 =>
    match apComment fuel p i0 with
    | none => none
    | some (p1, i1) =>
      if i1 < 0 then some ([], p1, i1)
      else
        match sAt p1.s i1 with
        | none => none
        | some c1 =>
          match (if 48 ≤ c1 ∧ c1 ≤ 57 then
              match digitDotScanI p1.s (p1.s.length + 2) i1 with
              | none => none
              | some i2 =>
                match goSliceI p1.s (i2 + 1) (i1 + 1) with
                | none => none
                | some seg =>
                  match parseIPv4 seg with
                  | some ip => some (Sum.inl ([91] ++ ip ++ [93], i2))
                  | none => some (Sum.inr i1)
            else some (Sum.inr i1) : Option (Sum (GoStr × Int) Int)) with
          | none => none
          | some (Sum.inl (dom, i2)) => some (dom, p1, i2)
          | some (Sum.inr i2) =>
            match sAt p1.s i2 with
            | none => none
            | some c2 =>
              if c2 = 93 then
                let j := i2 - 1
                match bracketScanI p1.s (p1.s.length + 2) (i2 - 1) with
                | none => none
                | some k =>
                  if 0 < k then
                    match goSliceI p1.s k j with
                    | none => none
                    | some seg =>
                      match unqp seg with
                      | none => none
                      | some dom => some (dom, p1, k - 1)
                  else
                    match apSetError p1 k with
                    | none => none
                    | some p2 => some ([], p2, k)
              else
                match apAtom fuel p1 i2 with
                | none => none
                | some (dom, p2, i3) =>
                  match apComment fuel p2 i3 with
                  | none => none
                  | some (p3, _) => apDomainDots fuel p3 i3 dom
termination_by structural fuel => fuel

/-- The dotted-atoms loop of domain (addresses.go:1044-1051). -/
def apDomainDots : Nat → AP → Int → GoStr → Option (GoStr × AP × Int)
  | 0, _, _, _ => none
  | fuel + 1, p, i, dom =>
    if 0 ≤ i then
      match sAt p.s i with
      | none => none
      | some c =>
        if c = 46 then
          match apAtom fuel p (i - 1) with
          | none => none
          | some (a, p1, i1) =>
            apDomainDots fuel p1 i1 (if a ≠ [] then a ++ [46] ++ dom else dom)
        else some (dom, p, i)
    else some (dom, p, i)
termination_by structural fuel => fuel

/-- AddressParser.localpart (addresses.go:1208-1242). -/
def apLocalpart : Nat → AP → Int → Option (GoStr × AP × Int)
  | 0, _, _ => none
  | fuel + 1, p, i =>
    if i < 0 then
      match apSetError p i with
      | none => none
      | some p2 => some ([], p2, i)
    else
      match apLocalpartLoop fuel p i [] [] true with
      | none => none
      | some (r, p1, i1, ao) =>
        if ao ∧ r = [] then
          match apSetError p1 i1 with
          | none => none
          | some p2 => some (r, p2, i1)
        else some (r, p1, i1)
termination_by structural fuel => fuel

/-- The word loop of localpart (addresses.go:1216-1236). -/
def apLocalpartLoop : Nat → AP → Int → GoStr → GoStr → Bool →
    Option (GoStr × AP × Int × Bool)
  | 0, _, _, _, _, _ => none
  | fuel + 1, p, i, r, sep, atomOnly =>
    match sAt p.s i with
    | none => none
    | some c =>
      match (if c = 34 then
          (apPhraseB fuel p i).map (fun x => (x.1, x.2.1, x.2.2, false))
        else
          (apAtom fuel p i).map (fun x => (x.1, x.2.1, x.2.2, atomOnly))
        : Option (GoStr × AP × Int × Bool)) with
      | none => none
      | some (w, p1, i1, ao) =>
        let r2 := w ++ usAsciiPref sep ++ r
        match (if 0 ≤ i1 then (sAt p1.s i1).map (fun c2 => decide (c2 = 46))
               else some false : Option Bool) with
        | none => none
        | some isDot =>
          if isDot then apLocalpartLoop fuel p1 (i1 - 1) r2 [46] ao
          else if startsWithG w [37] then apLocalpartLoop fuel p1 i1 r2 [] ao
          else some (r2, p1, i1, ao)
termination_by structural fuel => fuel

/-- The outlook backslash-joining loop of phrase (addresses.go:1155-1161). -/
def apBsJoin : Nat → AP → Int → GoStr → Nat → Option (GoStr × AP × Int)
  | 0, _, _, _, _ => none
  | fuel + 1, p, i, a, l =>
    if 0 < l ∧ 0 ≤ i then
      match sAt p.s i with
      | none => none
      | some c =>
        if c = 92 then
          match apAtom fuel p (i - 1) with
          | none => none
          | some (w, p1, i1) => apBsJoin fuel p1 i1 (w ++ a) w.length
        else some (a, p, i)
    else some (a, p, i)
termination_by structural fuel => fuel

/-- AddressParser.phrase (addresses.go:1088-1204). -/
def apPhraseB : Nat → AP → Int → Option (GoStr × AP × Int)
  | 0, _, _ => none
  | fuel + 1, p, i0 =>
    match apComment fuel p i0 with
    | none => none
    | some (p1, i1) =>
      match apPhraseLoopB fuel p1 i1 [] false false with
      | none => none
      | some (r, p2, i2, drop) =>
        match simplify (if drop then [] else r) with
        | none => none
        | some r3 => some (r3, p2, i2)
termination_by structural fuel => fuel

/-- The word loop of phrase (addresses.go:1093-1197). -/
def apPhraseLoopB : Nat → AP → Int → GoStr → Bool → Bool →
    Option (GoStr × AP × Int × Bool)
  | 0, _, _, _, _, _ => none
  | fuel + 1, p, i, r, drop, enc =>
    if i < 0 then some (r, p, i, drop)
    else
      match (if 0 < i then (sAt p.s i).map (fun c => (true, c))
             else some (false, 0) : Option (Bool × Nat)) with
      | none => none
      | some (big, cbig) =>
        match (if big ∧ cbig = 34 then
            let j := i
            match bqScanI p.s (p.s.length + 3) (i - 1) with
            | none => none
            | some i2 =>
              match (if i2 < 0 then some true
                     else (sAt p.s i2).map (fun c => decide (c ≠ 34))) with
              | none => none
              | some bad =>
                match (if bad then apSetError p i2 else some p) with
                | none => none
                | some p1 =>
                  match goSliceI p1.s i2 (j + 1) with
                  | none => none
                  | some seg =>
                    let w := unquoteG seg 34 39
                    match phraseQPLoop w (2 * w.length + 8) 0 [] drop with
                    | none => none
                    | some (word, drop1) =>
                      some (word, p1, i2 - 1, drop1, false, false)
          else
            match (if big then some cbig else sAt p.s i) with
            | none => none
            | some c =>
              if c = 46 then
                match apAtom fuel p (i - 1) with
                | none => none
                | some (w, p1, i1) => some (w ++ [46], p1, i1, drop, false, false)
              else
                match apAtom fuel p i with
                | none => none
                | some (a0, p1, i1) =>
                  match apBsJoin fuel p1 i1 a0 a0.length with
                  | none => none
                  | some (a, p2, i2) =>
                    if a = [] then some ([], p2, i2, drop, false, true)
                    else if startsWithG a (gs "=?") then
                      match pPhrase (newParser a) with
                      | none => none
                      | some (ph, pp) =>
                        match simplify ph with
                        | none => none
                        | some tmp =>
                          let drop1 :=
                            if startsWithG tmp (gs "=?") || containsG tmp (gs "=?")
                            then true else drop
                          if pAtEnd pp then some (tmp, p2, i2, drop1, true, false)
                          else some (a, p2, i2, drop1, false, false)
                    else some (a, p2, i2, drop, false, false)
          : Option (GoStr × AP × Int × Bool × Bool × Bool)) with
        | none => none
        | some (word, p1, i1, drop1, encw, done) =>
          match phraseMerge r word enc encw with
          | none => none
          | some r2 =>
            match apComment fuel p1 i1 with
            | none => none
            | some (p2, i2) =>
              if done then some (r2, p2, i2, drop1)
              else apPhraseLoopB fuel p2 i2 r2 drop1 encw
termination_by structural fuel => fuel

/-- AddressParser.route (addresses.go:1245-1269). -/
def apRoute : Nat → AP → Int → Option (AP × Int)
  | 0, _, _ => none
  | fuel + 1, p, i =>
    if i < 0 then some (p, i)
    else
      match sAt p.s i with
      | none => none
      | some c =>
        if c ≠ 58 ∨ p.firstErr then some (p, i)
        else
          match apDomain fuel p (i - 1) with
          | none => none
          | some (dom, p1, i1) =>
            if dom = gs "mailto" then some (p1, i1)
            else
              match apRouteLoop fuel p1 i1 dom with
              | none => none
              | some (p2, i2) =>
                some ({ p2 with firstErr := false, recentErr := false }, i2)
termination_by structural fuel => fuel

/-- The domain-list loop of route (addresses.go:1256-1265). -/
def apRouteLoop : Nat → AP → Int → GoStr → Option (AP × Int)
  | 0, _, _, _ => none
  | fuel + 1, p, i, dom =>
    if 0 ≤ i ∧ dom ≠ [] then
      match sAt p.s i with
      | none => none
      | some c =>
        if c = 44 ∨ c = 64 then
          let i1 := if c = 64 then i - 1 else i
          match commaSkip p.s (p.s.length + 2) i1 with
          | none => none
          | some i2 =>
            match apDomain fuel p i2 with
            | none => none
            | some (dom2, p1, i3) => apRouteLoop fuel p1 i3 dom2
        else some (p, i)
    else some (p, i)
termination_by structural fuel => fuel

/-- The comma-and-comment loop at the head of address (addresses.go:556-559). -/
def apAddrCommas : Nat → AP → Int → Option (AP × Int)
  | 0, _, _ => none
  | fuel + 1, p, i =>
    if 0 < i then
      match sAt p.s i with
      | none => none
      | some c =>
        if c = 44 then
          match apComment fuel p (i - 1) with
          | none => none
          | some (p1, i1) => apAddrCommas fuel p1 i1
        else some (p, i)
    else some (p, i)
termination_by structural fuel => fuel

/-- The at-or-angle display-name discarding loop of address
(addresses.go:684-691). -/
def apAtPhraseLoop : Nat → AP → Int → GoStr → Option (AP × Int × GoStr)
  | 0, _, _, _ => none
  | fuel + 1, p, i, n =>
    if 0 ≤ i then
      match sAt p.s i with
      | none => none
      | some c =>
        if c = 64 ∨ c = 60 then
          match apPhraseB fuel p (i - 1) with
          | none => none
          | some (_, p1, i1) => apAtPhraseLoop fuel p1 i1 []
        else some (p, i, n)
    else some (p, i, n)
termination_by structural fuel => fuel

/-- The member loop of the group branch of address (addresses.go:734-748);
the last component is true on the early returns of the Go code. -/
def apGroupLoop : Nat → AP → Int → Bool → Option (AP × Int × Bool × Bool)
  | 0, _, _, _ => none
  | fuel + 1, p, i, empty =>
    if 0 < i then
      match sAt p.s i with
      | none => none
      | some c =>
        if c ≠ 58 then
          let j := i
          match apAddress fuel p i with
          | none => none
          | some (p1, i1) =>
            if i1 = j then
              match apSetError p1 i1 with
              | none => none
              | some p2 => some (p2, i1, false, true)
            else
              match sAt p1.s i1 with
              | none => none
              | some c2 =>
                if c2 = 44 then apGroupLoop fuel p1 (i1 - 1) false
                else if c2 = 58 then some (p1, i1, false, false)
                else
                  match apSetError p1 i1 with
                  | none => none
                  | some p2 => some (p2, i1, false, true)
        else some (p, i, empty, false)
    else some (p, i, empty, false)
termination_by structural fuel => fuel

/-- AddressParser.address (addresses.go:550-898): parses one address
ending at the cursor; all twelve branch guards are verbatim. -/
def apAddress : Nat → AP → Int → Option (AP × Int)
  | 0, _, _ => none
  | fuel + 1, p0, i0 =>
    match apComment fuel { p0 with lastComment := [], recentErr := false } i0 with
    | none => none
    | some (pA, iA) =>
      match apAddrCommas fuel pA iA with
      | none => none
      | some (pB, iB) =>
        match gtgtSkip pB.s (pB.s.length + 2) iB with
        | none => none
        | some i =>
          let s := pB.s
          match (
            if i < 0 then some (pB, i, false)
            else if (s.length : Int) ≤ i then none
            else
              let c0 := byteAt s i.toNat
              let cm1 := byteAt s (i - 1).toNat
              let cm2 := byteAt s (i - 2).toNat
              if 1 < i ∧ cm1 = 60 ∧ c0 = 62 then
                match apAdd pB [] [] [] with
                | none => none
                | some p1 =>
                  let i2 := i - 2
                  let i3 := if 0 ≤ i2 ∧ byteAt s i2.toNat = 60 then i2 - 1 else i2
                  match apPhraseB fuel p1 i3 with
                  | none => none
                  | some (_, p2, i4) => some (p2, i4, false)
              else if 2 < i ∧ c0 = 62 ∧ cm1 = 59 ∧ cm2 = 58 then
                match apPhraseB fuel pB (i - 3) with
                | none => none
                | some (name, p1, i3) =>
                  match apAdd p1 name [] [] with
                  | none => none
                  | some p2 =>
                    let i4 := if 0 ≤ i3 ∧ byteAt s i3.toNat = 60 then i3 - 1 else i3
                    some (p2, i4, false)
              else if 2 < i ∧ c0 = 62 ∧ cm1 = 59 ∧
                  containsG (s.take i.toNat) (gs ":@") then
                match apDomain fuel pB (i - 2) with
                | none => none
                | some (_, p1, i3) =>
                  if 1 < i3 ∧ byteAt s i3.toNat = 64 ∧ byteAt s (i3 - 1).toNat = 58 then
                    match apPhraseB fuel p1 (i3 - 2) with
                    | none => none
                    | some (name, p2, i5) =>
                      match apAdd p2 name [] [] with
                      | none => none
                      | some p3 =>
                        let i6 := if 0 ≤ i5 ∧ byteAt s i5.toNat = 60 then i5 - 1 else i5
                        some (p3, i6, false)
                  else some (p1, i, false)
              else if c0 = 62 then
                match apDomain fuel pB (i - 1) with
                | none => none
                | some (dom0, p1, i2) =>
                  match sAt s i2 with
                  | none => none
                  | some c2 =>
                    match (if c2 = 60 then
                        some (([] : GoStr), dom0, ([] : GoStr), p1, i2)
                      else
                        match (if c2 = 64 then
                            match atSkip s (s.length + 2) (i2 - 1) with
                            | none => none
                            | some ib =>
                              let aftercomment := ib
                              match apComment fuel p1 ib with
                              | none => none
                              | some (p2, ic) =>
                                if 1 ≤ ic ∧ byteAt s ic.toNat = 59 then
                                  match spSkipPos s (s.length + 2) (ic - 1) with
                                  | none => none
                                  | some jd =>
                                    match sAt s jd with
                                    | none => none
                                    | some cj =>
                                      if cj = 58 then
                                        match apPhraseB fuel p2 (jd - 1) with
                                        | none => none
                                        | some (n, p3, je) =>
                                          if n ≠ [] then some (n, ([] : GoStr), ([] : GoStr), p3, je)
                                          else some (([] : GoStr), ([] : GoStr), dom0, p3, ic)
                                      else some (([] : GoStr), ([] : GoStr), dom0, p2, ic)
                                else if ic < aftercomment ∧ ic < 0 then
                                  match simplify p2.lastComment with
                                  | none => none
                                  | some n =>
                                    match lcNameLoop (n.length + 2) p2 ic n 0 [] with
                                    | none => none
                                    | some (p3, buf) =>
                                      some (buf, ([] : GoStr), ([] : GoStr), p3, ic)
                                else
                                  match apLocalpart fuel p2 ic with
                                  | none => none
                                  | some (lp1, p3, idx) =>
                                    match sAt s idx with
                                    | none => none
                                    | some cd =>
                                      if cd ≠ 60 then
                                        match alphaSpSkip s (s.length + 2) idx with
                                        | none => none
                                        | some je =>
                                          if 0 ≤ je ∧ byteAt s je.toNat = 60 then
                                            match goSliceI s (je + 1) (idx + 1) with
                                            | none => none
                                            | some tmp0 =>
                                              match sAt s (idx + 1) with
                                              | none => none
                                              | some cnext =>
                                                let tmp := if cnext = 32 then tmp0 ++ [32] else tmp0
                                                some (([] : GoStr), tmp ++ lp1, dom0, p3, je)
                                          else some (([] : GoStr), lp1, dom0, p3, idx)
                                      else some (([] : GoStr), lp1, dom0, p3, idx)
                          else some (([] : GoStr), ([] : GoStr), dom0, p1, i2)
                          : Option (GoStr × GoStr × GoStr × AP × Int)) with
                        | none => none
                        | some (nm, lp, dm, pX, iX) =>
                          match apRoute fuel pX iX with
                          | none => none
                          | some (pY, iY) => some (nm, lp, dm, pY, iY)
                      : Option (GoStr × GoStr × GoStr × AP × Int)) with
                    | none => none
                    | some (nm, lp, dm, pZ, iZ) =>
                      match (if 0 ≤ iZ ∧ byteAt s iZ.toNat = 60 then
                          match ltSkip s (s.length + 2) (iZ - 1) with
                          | none => none
                          | some iW =>
                            match apPhraseB fuel pZ iW with
                            | none => none
                            | some (n0, pW, iV) =>
                              match apAtPhraseLoop fuel pW iV n0 with
                              | none => none
                              | some (pV, iU, n1) =>
                                some (if n1 ≠ [] then n1 else nm, pV, iU)
                        else some (nm, pZ, iZ) : Option (GoStr × AP × Int)) with
                      | none => none
                      | some (nmF, pF, iF) =>
                        let nmG := if nmF.all (fun c => 32 ≤ c ∧ c < 127) then nmF else []
                        match apAdd pF nmG lp dm with
                        | none => none
                        | some pG => some (pG, iF, false)
              else if 1 < i ∧ c0 = 61 ∧ cm1 = 63 ∧ cm2 = 62 then
                match apDomain fuel pB (i - 3) with
                | none => none
                | some (dom, p1, i3) =>
                  match sAt s i3 with
                  | none => none
                  | some c3 =>
                    if c3 = 64 then
                      match atSkip s (s.length + 2) (i3 - 1) with
                      | none => none
                      | some i4 =>
                        match apLocalpart fuel p1 i4 with
                        | none => none
                        | some (lp, p2, i5) =>
                          match sAt s i5 with
                          | none => none
                          | some c5 =>
                            if c5 = 60 then
                              match apAtom fuel p2 (i5 - 1) with
                              | none => none
                              | some (_, p3, i6) =>
                                match apAdd p3 [] lp dom with
                                | none => none
                                | some p4 => some (p4, i6, false)
                            else
                              match apSetError p2 i5 with
                              | none => none
                              | some p3 => some (p3, i5, true)
                    else
                      match apSetError p1 i3 with
                      | none => none
                      | some p2 => some (p2, i3, true)
              else if c0 = 59 ∧ containsG (s.take i.toNat) [58] then
                match apComment fuel pB (i - 1) with
                | none => none
                | some (p1, _) =>
                  match apGroupLoop fuel p1 (i - 1) true with
                  | none => none
                  | some (p2, i3, empty, early) =>
                    if early then some (p2, i3, true)
                    else
                      match sAt s i3 with
                      | none => none
                      | some c3 =>
                        if c3 = 58 then
                          match apPhraseB fuel p2 (i3 - 1) with
                          | none => none
                          | some (name, p3, i4) =>
                            match (if empty then apAdd p3 name [] [] else some p3) with
                            | none => none
                            | some p4 => some (p4, i4, false)
                        else some (p2, i3, false)
              else if c0 = 34 ∧ containsG (s.take i.toNat) (gs "%\x22") then
                match apDomain fuel pB (i - 1) with
                | none => none
                | some (dom, p1, x2) =>
                  if 0 < x2 ∧ byteAt s x2.toNat = 64 then
                    match apLocalpart fuel p1 (x2 - 1) with
                    | none => none
                    | some (lp, p2, x3) =>
                      if 2 < x3 ∧ byteAt s x3.toNat = 34 ∧ byteAt s (x3 - 1).toNat = 37 then
                        match apDomain fuel p2 (x3 - 2) with
                        | none => none
                        | some (_, p3, x4) =>
                          match apAdd p3 [] lp dom with
                          | none => none
                          | some p4 => some (p4, x4, false)
                      else some (p2, i, false)
                  else some (p1, i, false)
              else if c0 = 34 ∧ containsG (s.take i.toNat) (gs "::") then
                match quoteSkipBack s (s.length + 2) (i - 1) with
                | none => none
                | some b2 =>
                  match sAt s b2 with
                  | none => none
                  | some cb =>
                    match (if cb = 34 then
                        (goSliceI s (b2 + 1) i).map (fun _ => b2 - 1)
                      else some i : Option Int) with
                    | none => none
                    | some iN =>
                      match apAtom fuel pB iN with
                      | none => none
                      | some (lp0, p1, i2) =>
                        if 2 < i2 ∧ byteAt s i2.toNat = 58 ∧ byteAt s (i2 - 1).toNat = 58 then
                          match apAtom fuel p1 (i2 - 2) with
                          | none => none
                          | some (a, p2, i3) =>
                            match apAdd p2 [] (a ++ [58, 58] ++ lp0) [] with
                            | none => none
                            | some p3 => some (p3, i3, false)
                        else
                          match apSetError p1 i2 with
                          | none => none
                          | some p2 => some (p2, i2, false)
              else if 10 < i ∧ 48 ≤ c0 ∧ c0 ≤ 57 ∧ cm2 = 46 ∧
                  containsG s [34] ∧ containsG s (gs "-19") then
                match quoteSkipBack s (s.length + 2) i with
                | none => none
                | some x =>
                  match goSliceI s (x + 1) i with
                  | none => none
                  | some seg =>
                    match simplify (toLowerG seg) with
                    | none => none
                    | some date =>
                      match goIdx date 0 with
                      | none => none
                      | some c0d =>
                        match dateScan date (date.length + 2) 0 c0d with
                        | none => none
                        | some dp =>
                          if dp = date.length ∧ containsG date (gs "-19") then
                            some (pB, x, false)
                          else some (pB, i, false)
              else if isQuotedG s 34 39 ∧ containsG s [64] then
                match apParse fuel (unquoteG s 34 39) with
                | none => none
                | some wp =>
                  if ¬ wp.firstErr then
                    some ({ pB with addrs := pB.addrs ++ wp.addrs }, -1, false)
                  else
                    match apSetError pB i with
                    | none => none
                    | some p1 => some (p1, i, false)
              else
                let lc := pB.lastComment
                let name0 :=
                  if ¬ usAsciiOk lc ∨ containsG lc (gs "=?") then []
                  else usAsciiPref lc
                match apDomain fuel pB i with
                | none => none
                | some (dom0, p1, i2) =>
                  match sAt s i2 with
                  | none => none
                  | some c2 =>
                    match (if c2 = 64 then
                        match atSkip s (s.length + 2) (i2 - 1) with
                        | none => none
                        | some ib =>
                          let aftercomment := ib
                          match apComment fuel p1 ib with
                          | none => none
                          | some (p2, ic) =>
                            if 1 ≤ ic ∧ byteAt s ic.toNat = 59 then
                              match spSkipPos s (s.length + 2) (ic - 1) with
                              | none => none
                              | some jd =>
                                match sAt s jd with
                                | none => none
                                | some cj =>
                                  if cj = 58 then
                                    match apPhraseB fuel p2 (jd - 1) with
                                    | none => none
                                    | some (n, p3, je) =>
                                      if n ≠ [] then some (n, ([] : GoStr), ([] : GoStr), p3, je)
                                      else some (name0, ([] : GoStr), dom0, p3, ic)
                                  else some (name0, ([] : GoStr), dom0, p2, ic)
                            else if ic < aftercomment ∧ ic < 0 then
                              match simplify p2.lastComment with
                              | none => none
                              | some n =>
                                match lcNameLoop (n.length + 2) p2 ic n 0 [] with
                                | none => none
                                | some (p3, _) =>
                                  some (([] : GoStr), ([] : GoStr), ([] : GoStr), p3, ic)
                            else
                              match apLocalpart fuel p2 ic with
                              | none => none
                              | some (lp1, p3, idx) => some (name0, lp1, dom0, p3, idx)
                      else some (name0, dom0, ([] : GoStr), p1, i2)
                      : Option (GoStr × GoStr × GoStr × AP × Int)) with
                    | none => none
                    | some (nm, lp, dm, pX, iX) =>
                      match apRoute fuel pX iX with
                      | none => none
                      | some (pY, iY) =>
                        match apComment fuel pY iY with
                        | none => none
                        | some (pZ, iZ) =>
                          match (if lp ≠ [] ∨ dm ≠ [] ∨ nm ≠ [] then apAdd pZ nm lp dm
                                 else some pZ) with
                          | none => none
                          | some pW => some (pW, iZ, false)
            : Option (AP × Int × Bool)) with
          | none => none
          | some (pR, iR, early) =>
            if early then some (pR, iR)
            else apComment fuel pR iR
termination_by structural fuel => fuel

/-- The plan-A loop of NewAddressParser (addresses.go:270-279). -/
def apPlanALoop : Nat → AP → Int → Int → Bool → Option (AP × Int)
  | 0, _, _, _, _ => none
  | fuel + 1, p, i, j, colon =>
    if 0 ≤ i ∧ i < j then
      let j2 := i
      match apAddress fuel p i with
      | none => none
      | some (p1, i1) =>
        match apSepSkip (p1.s.length + 2) p1 i1 j2 colon with
        | none => none
        | some (p2, i2) => apPlanALoop fuel p2 i2 j2 colon
    else some (p, i)
termination_by structural fuel => fuel

/-- NewAddressParser (addresses.go:265-371), plans A, B and C. -/
def apParse : Nat → GoStr → Option AP
  | 0, _ => none
  | fuel + 1, s =>
    let p : AP := ⟨s, false, false, [], []⟩
    let i : Int := (s.length : Int) - 1
    match apPlanALoop fuel p i (i + 1) (containsG s [58]) with
    | none => none
    | some (p1, i1) =>
      let p2 := { p1 with addrs := uniquifyGo p1.addrs }
      if i1 < 0 ∧ ¬ p2.firstErr then some p2
      else
        match planB p2 with
        | none => none
        | some p3 =>
          if 0 < p3.addrs.length then
            some { p3 with firstErr := false, recentErr := false,
                           addrs := uniquifyGo p3.addrs }
          else planC p3
termination_by structural fuel => fuel

end

/-- C6: the round-trip claim fails for Local addresses the parser itself
produces. NewAddressParser on the five-byte input with an angle-bracketed
bare word yields exactly one address, the Local address with localpart foo
(empty name and domain), and its serialized form toString(false) is the
three-byte string foo; but re-parsing that serialized form panics instead
of returning the address: domain consumes the whole input and leaves the
cursor at -1, and the addr-spec branch of address then reads s[-1] without
a bound check (addresses.go:840). In the embedding the panic is the value
none of apParse. -/
theorem c6_reparse_of_serialized_local_address_panics :
    (apParse 64 (gs "<foo>")).map (fun p => p.addrs) =
      some [NewAddress [] (gs "foo") []] ∧
    (NewAddress [] (gs "foo") []).t = AddressType.local ∧
    addressToString (NewAddress [] (gs "foo") []) false = some (gs "foo") ∧
    apParse 64 (gs "foo") = none := by decide

end GoMail
